import Mathlib

/-! Verification development for the URL resolver and the log filter
    pipeline of the apache-airflow-mcp-server repository.  The Python
    sources embedded here are src/airflow_mcp/url_utils.py,
    src/airflow_mcp/validation.py and src/airflow_mcp/tools/task_logs.py,
    together with the pieces of urllib.parse that they call.  Machine
    text is modelled as Lean String / List Char, bytes as Nat. -/

namespace AirflowMcp

/-- ASCII decimal digit test. -/
def isDigitCh (c : Char) : Bool := 48 ≤ c.toNat && c.toNat ≤ 57

/-- ASCII uppercase letter test. -/
def isUpperCh (c : Char) : Bool := 65 ≤ c.toNat && c.toNat ≤ 90

/-- ASCII lowercase letter test. -/
def isLowerCh (c : Char) : Bool := 97 ≤ c.toNat && c.toNat ≤ 122

/-- ASCII letter test. -/
def isAlphaCh (c : Char) : Bool := isUpperCh c || isLowerCh c

/-- ASCII letter-or-digit test. -/
def isAlnumCh (c : Char) : Bool := isAlphaCh c || isDigitCh c

/-- ASCII lowercasing of one character, modelling str.lower as used on
    schemes and hostnames (which are ASCII in this development). -/
def lowerCh (c : Char) : Char := if isUpperCh c then Char.ofNat (c.toNat + 32) else c

/-- Whitespace characters stripped by Python str.strip() and int(). -/
def pyIsSpaceCh (c : Char) : Bool :=
  c = ' ' || c = '\t' || c = '\n' || c = '\r' || c.toNat = 11 || c.toNat = 12 ||
  c.toNat = 0x1C || c.toNat = 0x1D || c.toNat = 0x1E || c.toNat = 0x85 || c.toNat = 0xA0

/-- Strip characters satisfying p from both ends of a character list. -/
def stripBoth (p : Char → Bool) (l : List Char) : List Char :=
  ((l.dropWhile p).reverse.dropWhile p).reverse

/-- Split at the first occurrence of sep, as in str.split(sep, 1) or
    str.partition; none when sep does not occur. -/
def splitFirst (sep : Char) : List Char → Option (List Char × List Char)
  | [] => none
  | c :: t =>
      if c = sep then some ([], t)
      else (splitFirst sep t).map (fun p => (c :: p.1, p.2))

/-- Python str.split(sep) for a one-character separator: the result has one
    piece per separator plus one, so the empty string yields one empty piece. -/
def splitAll (sep : Char) : List Char → List (List Char)
  | [] => [[]]
  | c :: t =>
      if c = sep then [] :: splitAll sep t
      else
        match splitAll sep t with
        | [] => [[c]]
        | h :: r => (c :: h) :: r

/-- Longest prefix containing none of the delimiter characters. -/
def takeUntilAny (ds : List Char) (l : List Char) : List Char :=
  l.takeWhile (fun c => !ds.contains c)

/-- Remainder after takeUntilAny. -/
def dropUntilAny (ds : List Char) (l : List Char) : List Char :=
  l.dropWhile (fun c => !ds.contains c)

/-- UTF-8 encoding of one Unicode code point, bytes as naturals. -/
def encCp (n : Nat) : List Nat :=
  if n < 0x80 then [n]
  else if n < 0x800 then [0xC0 + n / 64, 0x80 + n % 64]
  else if n < 0x10000 then [0xE0 + n / 4096, 0x80 + (n / 64) % 64, 0x80 + n % 64]
  else [0xF0 + n / 262144, 0x80 + (n / 4096) % 64, 0x80 + (n / 64) % 64, 0x80 + n % 64]

/-- UTF-8 bytes of a string, modelling Python str.encode(). -/
def strBytes (s : String) : List Nat := s.data.flatMap (fun c => encCp c.toNat)

/-- UTF-8 continuation byte test. -/
def isCont (b : Nat) : Bool := 0x80 ≤ b && b ≤ 0xBF

/-- What an invalid maximal subpart decodes to: nothing under
    errors=ignore, U+FFFD under errors=replace. -/
def replChar (repl : Bool) : List Char := if repl then [Char.ofNat 0xFFFD] else []

/-- Pending state of the incremental UTF-8 decoder: accumulated code
    point bits, number of continuation bytes still expected, and the
    admissible range for the next byte (the range on the second byte of a
    sequence excludes overlong forms, surrogates and values past
    U+10FFFF, exactly as CPython rejects them). -/
structure Utf8Pending where
  cp : Nat
  need : Nat
  lo : Nat
  hi : Nat
deriving Repr, DecidableEq

/-- Decoder transition for a byte seen in the clean state. -/
def utf8Start (repl : Bool) (b : Nat) : Option Utf8Pending × List Char :=
  if b < 0x80 then (none, [Char.ofNat b])
  else if 0xC2 ≤ b && b ≤ 0xDF then (some ⟨b - 0xC0, 1, 0x80, 0xBF⟩, [])
  else if b = 0xE0 then (some ⟨0, 2, 0xA0, 0xBF⟩, [])
  else if b = 0xED then (some ⟨13, 2, 0x80, 0x9F⟩, [])
  else if 0xE1 ≤ b && b ≤ 0xEF then (some ⟨b - 0xE0, 2, 0x80, 0xBF⟩, [])
  else if b = 0xF0 then (some ⟨0, 3, 0x90, 0xBF⟩, [])
  else if b = 0xF4 then (some ⟨4, 3, 0x80, 0x8F⟩, [])
  else if 0xF1 ≤ b && b ≤ 0xF3 then (some ⟨b - 0xF0, 3, 0x80, 0xBF⟩, [])
  else (none, replChar repl)

/-- One step of the incremental UTF-8 decoder. -/
def utf8Step (repl : Bool) (st : Option Utf8Pending) (b : Nat) :
    Option Utf8Pending × List Char :=
  match st with
  | none => utf8Start repl b
  | some p =>
      if p.lo ≤ b && b ≤ p.hi then
        if p.need = 1 then (none, [Char.ofNat (p.cp * 64 + (b - 0x80))])
        else (some ⟨p.cp * 64 + (b - 0x80), p.need - 1, 0x80, 0xBF⟩, [])
      else
        let s2 := utf8Start repl b
        (s2.1, replChar repl ++ s2.2)

/-- Run of the decoder over a byte list from a given state. -/
def utf8Run (repl : Bool) (st : Option Utf8Pending) (l : List Nat) :
    Option Utf8Pending × List Char :=
  l.foldl (fun acc b =>
    let s := utf8Step repl acc.1 b
    (s.1, acc.2 ++ s.2)) (st, [])

/-- UTF-8 decoder with Python-style ignore/replace error handling: every
    invalid maximal subpart (including an incomplete sequence at the end
    of the input) is dropped or replaced and decoding resumes. -/
def decodeUtf8 (repl : Bool) (l : List Nat) : List Char :=
  let r := utf8Run repl none l
  r.2 ++ (if r.1.isSome then replChar repl else [])

/-- Uppercase hexadecimal digit of a value below 16. -/
def hexDigitU (n : Nat) : Char := if n < 10 then Char.ofNat (48 + n) else Char.ofNat (55 + n)

/-- Hexadecimal digit test (both cases), as accepted by unquote. -/
def isHexCh (c : Char) : Bool :=
  isDigitCh c || (65 ≤ c.toNat && c.toNat ≤ 70) || (97 ≤ c.toNat && c.toNat ≤ 102)

/-- Value of a hexadecimal digit. -/
def hexVal (c : Char) : Nat :=
  if isDigitCh c then c.toNat - 48 else if c.toNat ≤ 70 then c.toNat - 55 else c.toNat - 87

/-- Bytes that urllib.parse.quote never escapes (letters, digits, and
    underscore, dot, hyphen, tilde); quote is called with safe equal to
    the empty string throughout url_utils.py, so nothing else survives. -/
def quoteSafeByte (b : Nat) : Bool :=
  (48 ≤ b && b ≤ 57) || (65 ≤ b && b ≤ 90) || (97 ≤ b && b ≤ 122) ||
  b = 95 || b = 46 || b = 45 || b = 126

/-- Percent-encoding of one byte under quote(value, safe=""). -/
def quoteByte (b : Nat) : List Char :=
  if quoteSafeByte b then [Char.ofNat b] else ['%', hexDigitU (b / 16), hexDigitU (b % 16)]

/-- urllib.parse.quote(value, safe="", encoding="utf-8"): UTF-8 encode,
    then percent-encode every byte outside the always-safe set. -/
def quoteChars (l : List Char) : List Char :=
  (l.flatMap (fun c => encCp c.toNat)).flatMap quoteByte

/-- Token stream used by unquote: percent escapes and literal ASCII
    characters contribute bytes, non-ASCII characters pass through. -/
inductive UnqTok
  | byte (b : Nat)
  | ch (c : Char)
deriving Repr, DecidableEq

/-- Tokenization step of unquote: a valid two-digit escape yields its
    byte, a stray percent sign stays a literal percent byte. -/
def unqTokens : List Char → List UnqTok
  | [] => []
  | '%' :: c1 :: c2 :: t =>
      if isHexCh c1 && isHexCh c2 then
        UnqTok.byte (hexVal c1 * 16 + hexVal c2) :: unqTokens t
      else UnqTok.byte 37 :: unqTokens (c1 :: c2 :: t)
  | c :: t => if c.toNat ≤ 0x7F then UnqTok.byte c.toNat :: unqTokens t else UnqTok.ch c :: unqTokens t

/-- Reassembly step of unquote: maximal byte runs are decoded as UTF-8
    with errors=replace, matching unquote(string, "utf-8", "replace"). -/
def unqDetok (acc : List Nat) : List UnqTok → List Char
  | [] => decodeUtf8 true acc
  | UnqTok.byte b :: t => unqDetok (acc ++ [b]) t
  | UnqTok.ch c :: t => decodeUtf8 true acc ++ c :: unqDetok [] t

/-- urllib.parse.unquote with the default encoding and error handling. -/
def unquoteChars (l : List Char) : List Char := unqDetok [] (unqTokens l)

/-- Digit-fold value of an ASCII digit string. -/
def digitsVal (l : List Char) : Nat := l.foldl (fun a c => a * 10 + (c.toNat - 48)) 0

/-- Python int(string) restricted to an optional sign and ASCII digits
    (underscore separators and non-ASCII digits are not modelled; they
    never occur in the URLs this parser receives from its own builder). -/
def pyInt (l : List Char) : Option Int :=
  match stripBoth pyIsSpaceCh l with
  | '-' :: t => if t ≠ [] && t.all isDigitCh then some (-(digitsVal t : Int)) else none
  | '+' :: t => if t ≠ [] && t.all isDigitCh then some ((digitsVal t : Int)) else none
  | t => if t ≠ [] && t.all isDigitCh then some ((digitsVal t : Int)) else none

/-- Fuelled digit emitter for decimal rendering. -/
def natStrAux : Nat → Nat → List Char
  | 0, _ => []
  | fuel + 1, n => if n = 0 then [] else natStrAux fuel (n / 10) ++ [Char.ofNat (48 + n % 10)]

/-- Decimal rendering of a natural number, modelling Python str(int). -/
def natStr (n : Nat) : List Char := if n = 0 then ['0'] else natStrAux (n + 1) n

/-- Decimal rendering of an integer, modelling Python str(int). -/
def intStr (i : Int) : List Char := if i < 0 then '-' :: natStr i.natAbs else natStr i.natAbs

/-- Line boundary characters of Python str.splitlines. -/
def isLineBreakCh (c : Char) : Bool :=
  c = '\n' || c = '\r' || c.toNat = 11 || c.toNat = 12 || c.toNat = 0x1C ||
  c.toNat = 0x1D || c.toNat = 0x1E || c.toNat = 0x85 || c.toNat = 0x2028 || c.toNat = 0x2029

/-- Worker for pySplitlines; cur is the current line reversed. -/
def splitlinesAux (cur : List Char) : List Char → List (List Char)
  | [] => [cur.reverse]
  | [c] => if isLineBreakCh c then [cur.reverse] else [(c :: cur).reverse]
  | c :: c2 :: rest =>
      if c = '\r' && c2 = '\n' then
        cur.reverse :: (if rest.isEmpty then [] else splitlinesAux [] rest)
      else if isLineBreakCh c then cur.reverse :: splitlinesAux [] (c2 :: rest)
      else splitlinesAux (c :: cur) (c2 :: rest)

/-- Python str.splitlines(): split at line boundaries, with CRLF a single
    boundary and no empty trailing line after a final terminator. -/
def pySplitlines (l : List Char) : List (List Char) :=
  if l.isEmpty then [] else splitlinesAux [] l

/-- Remove trailing characters satisfying p (str.rstrip with one char). -/
def dropTrail (p : Char → Bool) (l : List Char) : List Char :=
  (l.reverse.dropWhile p).reverse

/-- Python text.rstrip of newline characters only. -/
def rstripNl (l : List Char) : List Char := dropTrail (fun c => c = '\n') l

/-- Python text.strip of newline characters only. -/
def stripNlBoth (l : List Char) : List Char := stripBoth (fun c => c = '\n') l

/-- Python l[-n:] for a positive n: the last n elements (all of l when it
    is shorter). -/
def lastN (n : Nat) (l : List α) : List α := l.drop (l.length - n)

/-- Python b[:m] for an arbitrary int m (negative m counts from the end). -/
def pyTake (m : Int) (l : List α) : List α :=
  if 0 ≤ m then l.take m.toNat else l.take (l.length - m.natAbs)

/-- Word-constituent character of the regex escape for word boundaries
    (ASCII model of backslash-w). -/
def isWordCh (c : Char) : Bool := isAlnumCh c || c = '_'

/-- Case-insensitive character comparison (ASCII model of re.I). -/
def ciEqCh (a b : Char) : Bool := lowerCh a = lowerCh b

/-- Case-insensitive list comparison. -/
def ciEqList : List Char → List Char → Bool
  | [], [] => true
  | x :: xs, y :: ys => ciEqCh x y && ciEqList xs ys
  | _, _ => false

/-- The word w occurs at index i of line, bracketed by word boundaries. -/
def wordAt (line w : List Char) (i : Nat) : Bool :=
  ciEqList ((line.drop i).take w.length) w &&
  (i == 0 || !isWordCh (line.getD (i - 1) ' ')) &&
  !isWordCh (line.getD (i + w.length) ' ')

/-- re.search of one word pattern bracketed by word boundaries. -/
def searchWord (w : List Char) (line : List Char) : Bool :=
  (List.range (line.length + 1)).any (fun i => wordAt line w i)

/-- re.search of an alternation of word patterns. -/
def searchAny (ws : List (List Char)) (line : List Char) : Bool :=
  ws.any (fun w => searchWord w line)

/-- Word alternations of the three per-level regexes compiled in
    task_logs._filter_logs; each regex is an alternation of literal words
    bracketed by word boundaries with re.I (WARN(ING)? bracketed by
    boundaries matches exactly the two words WARN and WARNING). -/
def levelWords : String → Option (List (List Char))
  | "error" => some ["ERROR".data, "CRITICAL".data, "FATAL".data, "Exception".data, "Traceback".data]
  | "warning" => some ["WARN".data, "WARNING".data, "ERROR".data, "CRITICAL".data, "FATAL".data]
  | "info" => some ["INFO".data, "WARN".data, "ERROR".data, "CRITICAL".data]
  | _ => none

/-- Statistics dictionary returned by _filter_logs. -/
structure LogStats where
  bytes_returned : Nat
  original_lines : Nat
  returned_lines : Nat
  match_count : Nat
deriving Repr, DecidableEq

/-- Return value of _filter_logs: (filtered_log, truncated, stats). -/
structure FilterOutput where
  text : String
  truncated : Bool
  stats : LogStats
deriving Repr, DecidableEq

/-- Indices of lines the level pattern matches (the enumerate-and-search
    comprehension in _filter_logs). -/
def matchedIndices (ws : List (List Char)) (lines : List (List Char)) : List Nat :=
  (List.range lines.length).filter (fun i => searchAny ws (lines.getD i []))

/-- Context expansion index set: union over matches of the clamped
    symmetric windows (Python accumulates a set of range(start, end)). -/
def expandIndices (ctx : Int) (n : Nat) (matched : List Nat) : Finset Nat :=
  matched.foldl (fun (s : Finset Nat) (idx : Nat) =>
    s ∪ Finset.Ico (max 0 ((idx : Int) - ctx)).toNat (min (n : Int) ((idx : Int) + ctx + 1)).toNat) ∅

/-- Python truthiness of an optional int. -/
def optIntTruthy : Option Int → Bool
  | none => false
  | some v => v != 0

/-- Python truthiness of an optional string. -/
def optStrTruthy : Option String → Bool
  | none => false
  | some s => !s.isEmpty

/-- Step 4 of _filter_logs: encode, truncate at max_bytes when longer,
    and decode leniently (errors=ignore). -/
def sizeCap (result : List Char) (max_bytes : Int) : List Char × Bool :=
  let bs := result.flatMap (fun c => encCp c.toNat)
  if (bs.length : Int) > max_bytes then (decodeUtf8 false (pyTake max_bytes bs), true)
  else (result, false)

/-- Steps 2-4 of _filter_logs (content filtering, context expansion and
    the byte cap), applied after tail extraction. -/
def filterLogsAfterTail (original_count : Nat) (lines : List (List Char))
    (filter_level : Option String) (context_lines : Option Int) (max_bytes : Int) :
    FilterOutput :=
  let step23 : List (List Char) × Nat :=
    match (if optStrTruthy filter_level then filter_level else none).bind levelWords with
    | some ws =>
        let matched := matchedIndices ws lines
        if optIntTruthy context_lines && !matched.isEmpty then
          (((expandIndices (context_lines.getD 0) lines.length matched).sort (· ≤ ·)).map
              (fun i => lines.getD i []), matched.length)
        else (matched.map (fun i => lines.getD i []), matched.length)
    | none => (lines, 0)
  let lines2 := step23.1
  let capped := sizeCap (List.intercalate ['\n'] lines2) max_bytes
  ⟨String.mk capped.1, capped.2,
    ⟨(capped.1.flatMap (fun c => encCp c.toNat)).length, original_count, lines2.length, step23.2⟩⟩

/-- task_logs._filter_logs: tail extraction with the tail_lines == 0
    short-circuit, then the remaining pipeline stages. -/
def filterLogs (raw : String) (filter_level : Option String)
    (context_lines tail_lines : Option Int) (max_bytes : Int) : FilterOutput :=
  let lines0 := pySplitlines raw.data
  let oc := lines0.length
  match tail_lines with
  | some t =>
      if 0 ≤ t then
        if t = 0 then ⟨"", false, ⟨0, oc, 0, 0⟩⟩
        else filterLogsAfterTail oc (lastN t.toNat lines0) filter_level context_lines max_bytes
      else filterLogsAfterTail oc lines0 filter_level context_lines max_bytes
  | none => filterLogsAfterTail oc lines0 filter_level context_lines max_bytes

/-- Auto-tail stage of get_task_instance_logs: a raw log of more than
    100000000 characters is cut to its last 10000 lines before
    _filter_logs is invoked, and auto_tailed is recorded. -/
def autoTailStage (log_text : String) : String × Bool :=
  if !log_text.isEmpty && log_text.length > 100000000 then
    (String.mk (List.intercalate ['\n'] (lastN 10000 (pySplitlines log_text.data))), true)
  else (log_text, false)

/-- Parameter clamping in get_task_instance_logs: max lo (min v hi). -/
def clampOpt (lo hi : Int) (v : Option Int) : Option Int :=
  v.map (fun x => max lo (min x hi))

/-- Log filtering pipeline of get_task_instance_logs once the raw log
    text is in hand: auto-tail, clamping of context and tail parameters,
    then _filter_logs; pairs the filter output with auto_tailed. -/
def logsPipeline (log_text : String) (filter_level : Option String)
    (context_lines tail_lines : Option Int) (max_bytes : Int) : FilterOutput × Bool :=
  let at_ := autoTailStage log_text
  (filterLogs at_.1 filter_level (clampOpt 0 1000 context_lines)
      (clampOpt 0 100000 tail_lines) max_bytes, at_.2)

/-- task_logs._normalize_log_host for string-or-absent hosts. -/
def normalizeLogHost : Option String → String
  | none => "unknown-host"
  | some h =>
      let t := stripBoth pyIsSpaceCh h.data
      if t.isEmpty then "unknown-host" else String.mk t

/-- Entries one segment appends to the parts list in
    _flatten_log_segments: the divider line, then the text with trailing
    newlines stripped when it is non-empty. -/
def segLines (s : Option String × String) : List (List Char) :=
  [("--- [" ++ normalizeLogHost s.1 ++ "] ---").data] ++
    (if s.2.isEmpty then [] else [rstripNl s.2.data])

/-- One segment of the flattened form as the spec describes it: the
    divider line naming the normalized host, then a newline and the
    segment text with trailing newlines stripped when it is non-empty. -/
def segPart (s : Option String × String) : List Char :=
  ("--- [" ++ normalizeLogHost s.1 ++ "] ---").data ++
    (if s.2.isEmpty then [] else '\n' :: rstripNl s.2.data)

/-- task_logs._flatten_log_segments on lists of (host, text) pairs: an
    empty separator entry before every segment but the first, a divider
    line naming the normalized host, the segment text with trailing
    newlines stripped when non-empty; joined with newlines and the whole
    stripped of outer newlines. -/
def flattenLogSegments (segs : List (Option String × String)) : String :=
  let parts := segs.enum.flatMap (fun p =>
    (if p.1 ≠ 0 then [([] : List Char)] else []) ++ segLines p.2)
  String.mk (stripNlBoth (List.intercalate ['\n'] parts))

/-- Dynamic response shapes reaching _coerce_log_text that this
    development models: a plain string, a bytes payload, a host-segmented
    list of pairs (directly or behind a .content attribute), or None. -/
inductive LogResponse
  | text (s : String)
  | bytesPayload (bs : List Nat)
  | segments (segs : List (Option String × String))
  | null

/-- Escape sequences accepted inside a parsed string literal. -/
def escChar : Char → Option Char
  | 'n' => some '\n'
  | 't' => some '\t'
  | 'r' => some '\r'
  | 'a' => some (Char.ofNat 7)
  | 'b' => some (Char.ofNat 8)
  | 'f' => some (Char.ofNat 12)
  | 'v' => some (Char.ofNat 11)
  | '0' => some (Char.ofNat 0)
  | '\\' => some '\\'
  | '"' => some '"'
  | c => if c = Char.ofNat 39 then some (Char.ofNat 39) else none

/-- Body of a quoted string literal: reads until the closing quote q,
    resolving escapes; none on a malformed literal. -/
def strLitBody (q : Char) : List Char → Option (List Char × List Char)
  | [] => none
  | '\\' :: 'x' :: h1 :: h2 :: t =>
      if isHexCh h1 && isHexCh h2 then
        (strLitBody q t).map (fun p => (Char.ofNat (hexVal h1 * 16 + hexVal h2) :: p.1, p.2))
      else none
  | '\\' :: 'u' :: h1 :: h2 :: h3 :: h4 :: t =>
      if isHexCh h1 && isHexCh h2 && isHexCh h3 && isHexCh h4 then
        let v := ((hexVal h1 * 16 + hexVal h2) * 16 + hexVal h3) * 16 + hexVal h4
        if v < 0xD800 || 0xE000 ≤ v then
          (strLitBody q t).map (fun p => (Char.ofNat v :: p.1, p.2))
        else none
      else none
  | '\\' :: e :: t =>
      match escChar e with
      | some c => (strLitBody q t).map (fun p => (c :: p.1, p.2))
      | none => none
  | c :: t =>
      if c = q then some ([], t)
      else if c = '\\' then none
      else (strLitBody q t).map (fun p => (c :: p.1, p.2))

/-- Quoted Python string literal (single or double quoted). -/
def parseStrLit (l : List Char) : Option (List Char × List Char) :=
  match l with
  | c :: t =>
      if c = Char.ofNat 39 || c = '"' then strLitBody c t else none
  | [] => none

/-- Skip whitespace, as ast.literal_eval does between tokens. -/
def skipWs (l : List Char) : List Char := l.dropWhile pyIsSpaceCh

/-- One parenthesised (host, text) pair of string literals. -/
def parsePair (l : List Char) : Option ((Option String × String) × List Char) :=
  match skipWs l with
  | '(' :: t =>
      match parseStrLit (skipWs t) with
      | some (h, r1) =>
          match skipWs r1 with
          | ',' :: r2 =>
              match parseStrLit (skipWs r2) with
              | some (x, r3) =>
                  match skipWs r3 with
                  | ')' :: r4 => some ((some (String.mk h), String.mk x), r4)
                  | ',' :: r4 =>
                      match skipWs r4 with
                      | ')' :: r5 => some ((some (String.mk h), String.mk x), r5)
                      | _ => none
                  | _ => none
              | none => none
          | _ => none
      | none => none
  | _ => none

/-- Comma-separated pairs up to the closing bracket (fuelled). -/
def parseSegsAux : Nat → List Char → Option (List (Option String × String) × List Char)
  | 0, _ => none
  | fuel + 1, l =>
      match parsePair l with
      | none => none
      | some (p, rest) =>
          match skipWs rest with
          | ',' :: t =>
              match skipWs t with
              | ']' :: t2 => some ([p], t2)
              | t2 => (parseSegsAux fuel t2).map (fun q => (p :: q.1, q.2))
          | ']' :: t => some ([p], t)
          | _ => none

/-- Model of ast.literal_eval restricted to list-of-string-pair literals;
    none models the ValueError/SyntaxError path of the shim. -/
def parseSegsRepr (s : String) : Option (List (Option String × String)) :=
  match skipWs s.data with
  | '[' :: t =>
      match skipWs t with
      | ']' :: t2 => if (skipWs t2).isEmpty then some [] else none
      | t1 =>
          match parseSegsAux (t1.length + 1) t1 with
          | some (segs, rest) => if (skipWs rest).isEmpty then some segs else none
          | none => none
  | _ => none

/-- task_logs._coerce_log_text over the modelled response shapes: the
    cheap prefix check on the stripped string guards an exception-safe
    structural parse that falls back to the raw string. -/
def coerceLogText (r : LogResponse) : String :=
  match r with
  | LogResponse.text s =>
      if (stripBoth pyIsSpaceCh s.data).take 3 = "[('".data then
        match parseSegsRepr s with
        | some segs => flattenLogSegments segs
        | none => s
      else s
  | LogResponse.bytesPayload bs => String.mk (decodeUtf8 true bs)
  | LogResponse.segments segs => flattenLogSegments segs
  | LogResponse.null => ""

/-- AirflowToolError as raised throughout the sources: its message and
    machine-readable code (the context payload is not modelled). -/
structure ToolError where
  message : String
  code : String
deriving Repr, DecidableEq

/-- Result of a fallible operation (raised AirflowToolError or value). -/
abbrev Res (α : Type) := Except ToolError α

instance {ε α : Type} [DecidableEq ε] [DecidableEq α] : DecidableEq (Except ε α)
  | Except.ok x, Except.ok y =>
      if h : x = y then isTrue (congrArg _ h) else isFalse (fun he => h (Except.ok.inj he))
  | Except.error x, Except.error y =>
      if h : x = y then isTrue (congrArg _ h) else isFalse (fun he => h (Except.error.inj he))
  | Except.ok _, Except.error _ => isFalse (fun he => Except.noConfusion he)
  | Except.error _, Except.ok _ => isFalse (fun he => Except.noConfusion he)

/-- Tail characters of INSTANCE_KEY_PATTERN. -/
def instKeyTailCh (c : Char) : Bool := isAlnumCh c || c = '_' || c = '.' || c = '-'

/-- INSTANCE_KEY_PATTERN from validation.py: alphanumeric head, then
    alphanumerics, underscore, dot or hyphen. -/
def instanceKeyOk (s : String) : Bool :=
  match s.data with
  | [] => false
  | c :: t => isAlnumCh c && t.all instKeyTailCh

/-- DAG_ID_PATTERN from validation.py. -/
def dagIdOk (s : String) : Bool :=
  !s.data.isEmpty && s.data.all (fun c => isAlnumCh c || c = '_' || c = '.' || c = '-')

/-- DAG_RUN_ID_PATTERN from validation.py. -/
def dagRunIdOk (s : String) : Bool :=
  !s.data.isEmpty &&
    s.data.all (fun c => isAlnumCh c || c = '_' || c = '.' || c = ':' || c = '+' || c = '-')

/-- TASK_ID_PATTERN from validation.py. -/
def taskIdOk (s : String) : Bool :=
  !s.data.isEmpty &&
    s.data.all (fun c => isAlnumCh c || c = '_' || c = '.' || c = '+' || c = '-')

/-- validation.validate_dag_id (via _validate_optional). -/
def validate_dag_id : Option String → Res (Option String)
  | none => Except.ok none
  | some v => if dagIdOk v then Except.ok (some v)
      else Except.error ⟨"Invalid dag_id", "INVALID_INPUT"⟩

/-- validation.validate_dag_run_id (via _validate_optional). -/
def validate_dag_run_id : Option String → Res (Option String)
  | none => Except.ok none
  | some v => if dagRunIdOk v then Except.ok (some v)
      else Except.error ⟨"Invalid dag_run_id", "INVALID_INPUT"⟩

/-- validation.validate_task_id (via _validate_optional). -/
def validate_task_id : Option String → Res (Option String)
  | none => Except.ok none
  | some v => if taskIdOk v then Except.ok (some v)
      else Except.error ⟨"Invalid task_id", "INVALID_INPUT"⟩

/-- validation.validate_instance_key. -/
def validate_instance_key (v : String) : Res String :=
  if v.isEmpty then Except.error ⟨"Missing instance", "INVALID_INPUT"⟩
  else if instanceKeyOk v then Except.ok v
  else Except.error ⟨"Invalid instance", "INVALID_INPUT"⟩

/-- Instance directory: configured (key, host) pairs in insertion order,
    modelling the dict iteration order of InstanceRegistry.instances. -/
structure Registry where
  instances : List (String × String)
deriving Repr, DecidableEq

/-- Host configured for a key (reg.instances[key].host). -/
def lookupInstance (reg : Registry) (key : String) : Option String :=
  (reg.instances.find? (fun p => p.1 == key)).map (fun p => p.2)

/-- Split components of urllib.parse.urlsplit. -/
structure UrlSplitResult where
  scheme : List Char
  netloc : List Char
  path : List Char
  query : List Char
  fragment : List Char
deriving Repr, DecidableEq

/-- Characters allowed in a scheme after the first. -/
def schemeCh (c : Char) : Bool := isAlnumCh c || c = '+' || c = '-' || c = '.'

/-- Fragment and query extraction of urlsplit once scheme and authority
    are removed. -/
def mkSplit (scheme netloc rest : List Char) : UrlSplitResult :=
  let fq : List Char × List Char :=
    if rest.contains '#' then
      match splitFirst '#' rest with
      | some p => p
      | none => (rest, [])
    else (rest, [])
  let pq : List Char × List Char :=
    if fq.1.contains '?' then
      match splitFirst '?' fq.1 with
      | some p => p
      | none => (fq.1, [])
    else (fq.1, [])
  ⟨scheme, netloc, pq.1, pq.2, fq.2⟩

/-- urllib.parse.urlsplit: strip unsafe leading characters, remove tab,
    CR and LF, then split off the scheme, the authority, the fragment and
    the query.  The error value models the ValueError raised on a
    bracket-unbalanced authority (bracket content checks not modelled). -/
def urlsplitChars (url0 : List Char) : Except Unit UrlSplitResult :=
  let url1 := url0.dropWhile (fun c => c.toNat ≤ 0x20)
  let url2 := url1.filter (fun c => !(c = '\t' || c = '\r' || c = '\n'))
  let sr : List Char × List Char :=
    match splitFirst ':' url2 with
    | some (c :: t, after) =>
        if isAlphaCh c && (c :: t).all schemeCh then ((c :: t).map lowerCh, after)
        else ([], url2)
    | _ => ([], url2)
  match sr.2 with
  | '/' :: '/' :: rest2 =>
      let netloc := takeUntilAny ['/', '?', '#'] rest2
      let rest3 := dropUntilAny ['/', '?', '#'] rest2
      if (netloc.contains '[' && !netloc.contains ']') ||
          (netloc.contains ']' && !netloc.contains '[') then Except.error ()
      else Except.ok (mkSplit sr.1 netloc rest3)
  | rest => Except.ok (mkSplit sr.1 [] rest)

/-- Suffix after the last at-sign (netloc.rpartition), the whole netloc
    when no at-sign is present. -/
def afterLastAt (l : List Char) : List Char :=
  (l.reverse.takeWhile (fun c => c ≠ '@')).reverse

/-- urllib SplitResult.hostname: userinfo stripped, bracketed literals
    unwrapped, the port removed, lowercased; none when empty (IPv6 zone
    suffixes are not modelled). -/
def hostnameOf (netloc : List Char) : Option (List Char) :=
  let hostinfo := afterLastAt netloc
  let hostport :=
    if hostinfo.contains '[' then
      takeUntilAny [']'] ((dropUntilAny ['['] hostinfo).drop 1)
    else hostinfo.takeWhile (fun c => c ≠ ':')
  if hostport.isEmpty then none else some (hostport.map lowerCh)

/-- Parsed hostname (or empty string) of a configured instance host;
    none when urlsplit raises, modelling the try/except skip in
    _resolve_instance_key_from_host. -/
def regHostOf (insthost : String) : Option String :=
  match urlsplitChars insthost.data with
  | Except.error _ => none
  | Except.ok p => some (String.mk ((hostnameOf p.netloc).getD []))

/-- url_utils._resolve_instance_key_from_host: the first configured
    instance whose parsed hostname equals the given host, in directory
    iteration order. -/
def resolveInstanceKeyFromHost (reg : Registry) (host : String) : Option String :=
  (reg.instances.find? (fun p => regHostOf p.2 == some host)).map (fun p => p.1)

/-- Percent-decoding of one query token with plus-to-space translation,
    as parse_qsl applies to each name and value. -/
def unquotePlus (l : List Char) : List Char :=
  unquoteChars (l.map (fun c => if c = '+' then ' ' else c))

/-- urllib.parse.parse_qsl with default arguments: split on ampersands,
    skip empty pieces, pieces without an equals sign and pieces with an
    empty value. -/
def parseQsl (qs : List Char) : List (String × String) :=
  (splitAll '&' qs).filterMap (fun nv =>
    if nv.isEmpty then none
    else
      match splitFirst '=' nv with
      | none => none
      | some (n, v) =>
          if v.isEmpty then none
          else some (String.mk (unquotePlus n), String.mk (unquotePlus v)))

/-- The q helper of parse_airflow_ui_url: first value listed for a name
    in the parse_qs dictionary. -/
def qGet (query : List (String × String)) (name : String) : Option String :=
  (query.find? (fun p => p.1 == name)).map (fun p => p.2)

/-- url_utils.ResolvedUrl (instance is a reserved word in Lean). -/
structure ResolvedUrl where
  instance_ : String
  route : String
  dag_id : Option String := none
  dag_run_id : Option String := none
  task_id : Option String := none
  try_number : Option Int := none
deriving Repr, DecidableEq

/-- Path and query dispatch of parse_airflow_ui_url: the if-ladder over
    segments (length guards rendered as list patterns), yielding route,
    dag_id, dag_run_id, task_id and try_number. -/
def parseRoute (segments : List (List Char)) (query : List (String × String)) :
    Res (String × Option String × Option String × Option String × Option Int) :=
  match segments with
  | s0 :: s1 :: rest =>
      if s0 = "dags".data then do
        let dag_id ← validate_dag_id (some (String.mk (unquoteChars s1)))
        match rest with
        | s2 :: rest2 =>
            if s2 = "grid".data || s2 = "graph".data then do
              let dag_run_id ← validate_dag_run_id (qGet query "dag_run_id")
              pure (String.mk s2, dag_id, dag_run_id, none, none)
            else if s2 = "dagRuns".data then
              match rest2 with
              | s3 :: rest3 => do
                  let dag_run_id ← validate_dag_run_id (some (String.mk (unquoteChars s3)))
                  match rest3 with
                  | s4 :: s5 :: s6 :: _ :: _ =>
                      if s4 = "taskInstances".data && s6 = "logs".data then do
                        let task_id ← validate_task_id (some (String.mk (unquoteChars s5)))
                        pure ("log", dag_id, dag_run_id, task_id, pyInt (rest3.getD 3 []))
                      else pure ("dag_run", dag_id, dag_run_id, none, none)
                  | _ => pure ("dag_run", dag_id, dag_run_id, none, none)
              | [] => pure ("unknown", dag_id, none, none, none)
            else if s2 = "task".data then do
              let task_id ← validate_task_id (qGet query "task_id")
              let dag_run_id ← validate_dag_run_id (qGet query "dag_run_id")
              pure ("task", dag_id, dag_run_id, task_id, none)
            else pure ("unknown", dag_id, none, none, none)
        | [] => pure ("unknown", dag_id, none, none, none)
      else pure ("unknown", none, none, none, none)
  | _ => pure ("unknown", none, none, none, none)

/-- The amended path-shape table as the spec words describe it after
    correction: a route row is selected by a minimum segment count
    together with fixed keywords at fixed positions, extra trailing
    segments are ignored, and under the dags prefix the validated dag id
    is retained even when no deeper row matches. -/
def specRouteTable (segments : List (List Char)) (query : List (String × String)) :
    Res (String × Option String × Option String × Option String × Option Int) :=
  if segments.length ≥ 2 ∧ segments.getD 0 [] = "dags".data then do
    let dag_id ← validate_dag_id (some (String.mk (unquoteChars (segments.getD 1 []))))
    if segments.length ≥ 3 ∧
        (segments.getD 2 [] = "grid".data ∨ segments.getD 2 [] = "graph".data) then do
      let dag_run_id ← validate_dag_run_id (qGet query "dag_run_id")
      pure (String.mk (segments.getD 2 []), dag_id, dag_run_id, none, none)
    else if segments.length ≥ 3 ∧ segments.getD 2 [] = "dagRuns".data then
      if segments.length ≥ 4 then do
        let dag_run_id ← validate_dag_run_id (some (String.mk (unquoteChars (segments.getD 3 []))))
        if segments.length ≥ 8 ∧ segments.getD 4 [] = "taskInstances".data ∧
            segments.getD 6 [] = "logs".data then do
          let task_id ← validate_task_id (some (String.mk (unquoteChars (segments.getD 5 []))))
          pure ("log", dag_id, dag_run_id, task_id, pyInt (segments.getD 7 []))
        else pure ("dag_run", dag_id, dag_run_id, none, none)
      else pure ("unknown", dag_id, none, none, none)
    else if segments.length ≥ 3 ∧ segments.getD 2 [] = "task".data then do
      let task_id ← validate_task_id (qGet query "task_id")
      let dag_run_id ← validate_dag_run_id (qGet query "dag_run_id")
      pure ("task", dag_id, dag_run_id, task_id, none)
    else pure ("unknown", dag_id, none, none, none)
  else pure ("unknown", none, none, none, none)

/-- url_utils.parse_airflow_ui_url over an explicit directory. -/
def parse_airflow_ui_url (reg : Registry) (url : String) : Res ResolvedUrl :=
  match urlsplitChars url.data with
  | Except.error _ => Except.error ⟨"Invalid URL", "INVALID_INPUT"⟩
  | Except.ok parsed =>
      let scheme := parsed.scheme.map lowerCh
      if scheme.isEmpty then
        Except.error ⟨"ui_url must be a full http(s) URL", "INVALID_INPUT"⟩
      else if !(scheme = "http".data || scheme = "https".data) then
        Except.error ⟨"ui_url must start with http or https", "INVALID_INPUT"⟩
      else
        let host := (hostnameOf parsed.netloc).getD []
        if host.isEmpty then Except.error ⟨"Missing hostname in URL", "INVALID_INPUT"⟩
        else
          match resolveInstanceKeyFromHost reg (String.mk host) with
          | none => Except.error ⟨"Unknown instance host", "NOT_FOUND"⟩
          | some instance_key => do
              let instance_key ← validate_instance_key instance_key
              let segments := (splitAll '/' parsed.path).filter (fun s => !s.isEmpty)
              let query := parseQsl parsed.query
              let r ← parseRoute segments query
              pure ⟨instance_key, r.1, r.2.1, r.2.2.1, r.2.2.2.1, r.2.2.2.2⟩

/-- url_utils._encode_query: skip missing values, percent-encode key and
    value with no safe characters so a plus never appears raw. -/
def encodeQuery (params : List (String × Option String)) : List Char :=
  List.intercalate ['&'] (params.filterMap (fun p =>
    p.2.map (fun v => quoteChars p.1.data ++ '=' :: quoteChars v.data)))

/-- Strip trailing slashes (host.rstrip applied to a slash). -/
def rstripSlash (l : List Char) : List Char := dropTrail (fun c => c = '/') l

/-- url_utils.build_airflow_ui_url over an explicit directory. -/
def build_airflow_ui_url (reg : Registry) (instance_ : String) (route : String)
    (dag_id : String) (dag_run_id : Option String := none)
    (task_id : Option String := none) (try_number : Option Int := none) : Res String := do
  let instance_ ← validate_instance_key instance_
  let dag_id2 ← validate_dag_id (some dag_id)
  let dag_id := dag_id2.getD ""
  if dag_id.isEmpty then throw ⟨"Missing dag_id", "INVALID_INPUT"⟩
  match lookupInstance reg instance_ with
  | none => throw ⟨"Unknown instance", "NOT_FOUND"⟩
  | some host =>
      let base := rstripSlash host.data
      let encoded_dag_id := quoteChars dag_id.data
      if route = "grid" || route = "graph" then do
        let r ← validate_dag_run_id dag_run_id
        let qs := encodeQuery [("dag_run_id", r)]
        pure (String.mk (base ++ "/dags/".data ++ encoded_dag_id ++ '/' :: route.data ++
          (if qs.isEmpty then [] else '?' :: qs)))
      else if route = "dag_run" && optStrTruthy dag_run_id then do
        let r ← validate_dag_run_id dag_run_id
        pure (String.mk (base ++ "/dags/".data ++ encoded_dag_id ++ "/dagRuns/".data ++
          quoteChars (r.getD "").data))
      else if route = "task" && optStrTruthy task_id then do
        let r ← validate_dag_run_id dag_run_id
        let t ← validate_task_id task_id
        let qs := encodeQuery [("task_id", t), ("dag_run_id", r)]
        pure (String.mk (base ++ "/dags/".data ++ encoded_dag_id ++ "/task".data ++
          (if qs.isEmpty then [] else '?' :: qs)))
      else if route = "log" && optStrTruthy dag_run_id && optStrTruthy task_id &&
          try_number.isSome then do
        let r ← validate_dag_run_id dag_run_id
        let t ← validate_task_id task_id
        pure (String.mk (base ++ "/dags/".data ++ encoded_dag_id ++ "/dagRuns/".data ++
          quoteChars (r.getD "").data ++ "/taskInstances/".data ++ quoteChars (t.getD "").data ++
          "/logs/".data ++ intStr (try_number.getD 0)))
      else throw ⟨"Unsupported route or missing identifiers", "INVALID_INPUT"⟩

/-- url_utils.resolve_and_validate, with Python truthiness on both
    optional arguments. -/
def resolve_and_validate (reg : Registry) (ui_url : Option String)
    (instance_ : Option String) : Res ResolvedUrl := do
  let inst : Option String ←
    if optStrTruthy instance_ then do
      let v ← validate_instance_key (instance_.getD "")
      pure (some v)
    else pure instance_
  if optStrTruthy ui_url && optStrTruthy inst then do
    let parsed ← parse_airflow_ui_url reg (ui_url.getD "")
    if parsed.instance_ ≠ inst.getD "" then
      throw ⟨"INSTANCE_MISMATCH", "INVALID_INPUT"⟩
    else pure parsed
  else if optStrTruthy ui_url then parse_airflow_ui_url reg (ui_url.getD "")
  else if optStrTruthy inst then
    if (lookupInstance reg (inst.getD "")).isNone then
      throw ⟨"Unknown instance", "NOT_FOUND"⟩
    else pure ⟨inst.getD "", "unknown", none, none, none, none⟩
  else throw ⟨"MISSING_TARGET", "INVALID_INPUT"⟩

/-- Two-instance directory used in concrete scenarios. -/
def demoReg : Registry :=
  ⟨[("stg", "https://stg.example.com"), ("prod", "https://prod.example.com")]⟩

example : decodeUtf8 false [104, 0xC3, 0xA9] = ['h', Char.ofNat 0xE9] := by decide
example : parse_airflow_ui_url demoReg
    "https://stg.example.com/dags/my_dag/grid?dag_run_id=scheduled__2025-01-15" =
    Except.ok ⟨"stg", "grid", some "my_dag", some "scheduled__2025-01-15", none, none⟩ := by decide
example : build_airflow_ui_url demoReg "stg" "grid" "d1"
      (some "scheduled__2025-11-04T12:15:00+00:00") =
    Except.ok
      "https://stg.example.com/dags/d1/grid?dag_run_id=scheduled__2025-11-04T12%3A15%3A00%2B00%3A00" := by
  decide
example : resolve_and_validate demoReg
      (some "https://stg.example.com/dags/d1/grid") (some "prod") =
    Except.error ⟨"INSTANCE_MISMATCH", "INVALID_INPUT"⟩ := by decide
example : parse_airflow_ui_url demoReg
    "https://stg.example.com/dags/d1/dagRuns/r1/taskInstances/t%2B1/logs/3" =
    Except.ok ⟨"stg", "log", some "d1", some "r1", some "t+1", some 3⟩ := by decide

/-! Helper lemmas. -/

theorem isEmpty_false_of_ne {s : String} (h : s ≠ "") : s.isEmpty = false := by
  rw [Bool.eq_false_iff]
  intro he
  exact h ((String.isEmpty_iff s).mp he)

theorem instanceKeyOk_ne_empty {s : String} (h : instanceKeyOk s) : s ≠ "" := by
  intro he
  rw [he] at h
  simp [instanceKeyOk] at h

theorem validate_instance_key_ok {s : String} (h : instanceKeyOk s) :
    validate_instance_key s = Except.ok s := by
  unfold validate_instance_key
  rw [isEmpty_false_of_ne (instanceKeyOk_ne_empty h)]
  simp [h]

theorem levelWords_unrecognized {lv : String} (h1 : lv ≠ "error") (h2 : lv ≠ "warning")
    (h3 : lv ≠ "info") : levelWords lv = none := by
  unfold levelWords
  split
  · exact absurd rfl h1
  · exact absurd rfl h2
  · exact absurd rfl h3
  · rfl

/-! Claim theorems. -/

/-- C10: a non-empty filter_level other than error, warning or info is
    silently ignored by _filter_logs: the result is identical to the one
    with no filter at all, with zero match_count and no context
    expansion. -/
theorem unrecognized_level_is_noop (raw : String) (lv : String) (ctx tail : Option Int)
    (mb : Int) (h0 : lv ≠ "") (h1 : lv ≠ "error") (h2 : lv ≠ "warning") (h3 : lv ≠ "info") :
    filterLogs raw (some lv) ctx tail mb = filterLogs raw none ctx tail mb ∧
      (filterLogs raw (some lv) ctx tail mb).stats.match_count = 0 := by
  have hw : levelWords lv = none := levelWords_unrecognized h1 h2 h3
  have her : lv.isEmpty = false := isEmpty_false_of_ne h0
  have hafter : ∀ oc lines,
      filterLogsAfterTail oc lines (some lv) ctx mb = filterLogsAfterTail oc lines none ctx mb := by
    intro oc lines
    unfold filterLogsAfterTail
    simp [optStrTruthy, her, hw, Option.bind]
  have hmc : ∀ oc lines,
      (filterLogsAfterTail oc lines none ctx mb).stats.match_count = 0 := by
    intro oc lines
    unfold filterLogsAfterTail
    simp [optStrTruthy, Option.bind]
  constructor
  · unfold filterLogs
    cases tail with
    | none => exact hafter _ _
    | some t =>
        by_cases ht0 : 0 ≤ t
        · by_cases ht1 : t = 0
          · simp [ht0, ht1]
          · simp [ht0, ht1, hafter]
        · simp [ht0, hafter]
  · unfold filterLogs
    cases tail with
    | none => simp [hafter, hmc]
    | some t =>
        by_cases ht0 : 0 ≤ t
        · by_cases ht1 : t = 0
          · simp [ht0, ht1]
          · simp [ht0, ht1, hafter, hmc]
        · simp [ht0, hafter, hmc]

/-- Witness for C10 at a concrete unrecognized level. -/
theorem unrecognized_level_is_noop_witness :
    filterLogs "ERROR a\nINFO b" (some "debug") none none 1000 =
        filterLogs "ERROR a\nINFO b" none none none 1000 ∧
      (filterLogs "ERROR a\nINFO b" (some "debug") none none 1000).stats.match_count = 0 :=
  unrecognized_level_is_noop "ERROR a\nINFO b" "debug" none none 1000
    (by decide) (by decide) (by decide) (by decide)

theorem splitlinesAux_breakfree : ∀ (cur rest : List Char),
    (∀ c ∈ cur, isLineBreakCh c = false) →
    ∀ l ∈ splitlinesAux cur rest, ∀ c ∈ l, isLineBreakCh c = false := by
  intro cur rest
  induction cur, rest using splitlinesAux.induct with
  | case1 cur =>
      intro hc l hl c hcl
      rw [splitlinesAux] at hl
      simp only [List.mem_singleton] at hl
      subst hl
      exact hc c (List.mem_reverse.mp hcl)
  | case2 cur c hlb =>
      intro hc l hl c2 hcl
      rw [splitlinesAux] at hl
      simp [hlb] at hl
      subst hl
      exact hc c2 (List.mem_reverse.mp hcl)
  | case3 cur c hlb =>
      intro hc l hl c2 hcl
      rw [splitlinesAux] at hl
      simp [hlb] at hl
      subst hl
      rcases List.mem_append.mp hcl with h | h
      · exact hc c2 (List.mem_reverse.mp h)
      · rw [List.mem_singleton] at h
        subst h
        exact Bool.eq_false_iff.mpr hlb
  | case4 cur c c2 rest hcr ih =>
      intro hc l hl
      rw [splitlinesAux] at hl
      simp only [hcr, if_true] at hl
      rcases List.mem_cons.mp hl with h | h
      · intro c3 hcl
        subst h
        exact hc c3 (List.mem_reverse.mp hcl)
      · by_cases he : rest.isEmpty
        · simp [he] at h
        · simp only [he, if_false] at h
          exact ih (by intro c3 hc3; simp at hc3) l h
  | case5 cur c c2 rest hcr hlb ih =>
      intro hc l hl
      rw [splitlinesAux] at hl
      have hcr2 : (decide (c = '\r') && decide (c2 = '\n')) = false :=
        Bool.eq_false_iff.mpr hcr
      simp only [hcr2, hlb, if_true, Bool.false_eq_true, if_false] at hl
      rcases List.mem_cons.mp hl with h | h
      · intro c3 hcl
        subst h
        exact hc c3 (List.mem_reverse.mp hcl)
      · exact ih (by intro c3 hc3; simp at hc3) l h
  | case6 cur c c2 rest hcr hlb ih =>
      intro hc l hl
      rw [splitlinesAux] at hl
      have hcr2 : (decide (c = '\r') && decide (c2 = '\n')) = false :=
        Bool.eq_false_iff.mpr hcr
      have hlb2 : isLineBreakCh c = false := Bool.eq_false_iff.mpr hlb
      simp only [hcr2, hlb2, Bool.false_eq_true, if_false] at hl
      refine ih ?_ l hl
      intro c3 hc3
      rcases List.mem_cons.mp hc3 with h | h
      · subst h
        exact hlb2
      · exact hc c3 h

theorem pySplitlines_breakfree (s : List Char) :
    ∀ l ∈ pySplitlines s, ∀ c ∈ l, isLineBreakCh c = false := by
  unfold pySplitlines
  by_cases he : s.isEmpty
  · simp [he]
  · simp only [he, if_false]
    exact splitlinesAux_breakfree [] s (by intro c hc; simp at hc)

theorem splitlinesAux_length_le : ∀ (cur rest : List Char),
    (splitlinesAux cur rest).length ≤ rest.countP (fun c => isLineBreakCh c) + 1 := by
  intro cur rest
  induction cur, rest using splitlinesAux.induct with
  | case1 cur => simp [splitlinesAux]
  | case2 cur c hlb =>
      rw [splitlinesAux]
      simp [hlb]
  | case3 cur c hlb =>
      rw [splitlinesAux]
      simp [hlb]
  | case4 cur c c2 rest hcr ih =>
      rw [splitlinesAux]
      simp only [Bool.and_eq_true, decide_eq_true_eq] at hcr
      obtain ⟨hc1, hc2⟩ := hcr
      subst hc1
      subst hc2
      have hr : isLineBreakCh '\r' = true := by decide
      have hn : isLineBreakCh '\n' = true := by decide
      by_cases he : rest.isEmpty
      · simp [he, List.countP_cons, hr, hn]
      · simp only [if_true, he, if_false, List.length_cons, List.countP_cons, hr, hn,
          Bool.false_eq_true, decide_True, Bool.and_self]
        omega
  | case5 cur c c2 rest hcr hlb ih =>
      rw [splitlinesAux]
      have hcr2 : (decide (c = '\r') && decide (c2 = '\n')) = false :=
        Bool.eq_false_iff.mpr hcr
      simp only [hcr2, hlb, if_true, Bool.false_eq_true, if_false, List.length_cons,
        List.countP_cons] at *
      omega
  | case6 cur c c2 rest hcr hlb ih =>
      rw [splitlinesAux]
      have hcr2 : (decide (c = '\r') && decide (c2 = '\n')) = false :=
        Bool.eq_false_iff.mpr hcr
      have hlb2 : isLineBreakCh c = false := Bool.eq_false_iff.mpr hlb
      simp only [hcr2, hlb2, Bool.false_eq_true, if_false, List.countP_cons] at *
      omega

theorem countP_break_intercalate : ∀ (t : List (List Char)) (a : List Char),
    (∀ c ∈ a, isLineBreakCh c = false) →
    (∀ l ∈ t, ∀ c ∈ l, isLineBreakCh c = false) →
    (List.intercalate ['\n'] (a :: t)).countP (fun c => isLineBreakCh c) ≤ t.length := by
  intro t
  induction t with
  | nil =>
      intro a ha _
      have h1 : List.intercalate ['\n'] [a] = a := by simp [List.intercalate]
      rw [h1]
      have h2 : a.countP (fun c => isLineBreakCh c) = 0 := by
        rw [List.countP_eq_zero]
        intro c hc
        simp [ha c hc]
      simp [h2]
  | cons b t2 ih =>
      intro a ha ht
      have h0 : List.intercalate ['\n'] (a :: b :: t2) =
          a ++ ['\n'] ++ List.intercalate ['\n'] (b :: t2) := by
        simp [List.intercalate]
      rw [h0, List.countP_append, List.countP_append]
      have h1 : a.countP (fun c => isLineBreakCh c) = 0 := by
        rw [List.countP_eq_zero]
        intro c hc
        simp [ha c hc]
      have h2 : (['\n'] : List Char).countP (fun c => isLineBreakCh c) = 1 := by decide
      have h3 := ih b (ht b (by simp)) (by intro l hl; exact ht l (by simp [hl]))
      simp only [h1, h2, List.length_cons]
      omega

theorem pySplitlines_intercalate_le (ls : List (List Char))
    (h : ∀ l ∈ ls, ∀ c ∈ l, isLineBreakCh c = false) :
    (pySplitlines (List.intercalate ['\n'] ls)).length ≤ ls.length := by
  unfold pySplitlines
  by_cases he : (List.intercalate ['\n'] ls).isEmpty
  · simp [he]
  · simp only [he, if_false]
    cases ls with
    | nil => simp [List.intercalate] at he
    | cons a t =>
        calc (splitlinesAux [] (List.intercalate ['\n'] (a :: t))).length
            ≤ (List.intercalate ['\n'] (a :: t)).countP (fun c => isLineBreakCh c) + 1 :=
              splitlinesAux_length_le [] _
          _ ≤ t.length + 1 := by
              have := countP_break_intercalate t a (h a (by simp))
                (by intro l hl; exact h l (by simp [hl]))
              omega
          _ = (a :: t).length := by simp

theorem expandIndices_subset (ctx : Int) (n : Nat) (matched : List Nat) :
    expandIndices ctx n matched ⊆ Finset.range n := by
  unfold expandIndices
  suffices h : ∀ (m : List Nat) (acc : Finset Nat), acc ⊆ Finset.range n →
      m.foldl (fun (s : Finset Nat) (idx : Nat) =>
        s ∪ Finset.Ico (max 0 ((idx : Int) - ctx)).toNat
          (min (n : Int) ((idx : Int) + ctx + 1)).toNat) acc ⊆ Finset.range n by
    exact h matched ∅ (Finset.empty_subset _)
  intro m
  induction m with
  | nil => intro acc hacc; simpa using hacc
  | cons idx t ih =>
      intro acc hacc
      rw [List.foldl_cons]
      refine ih _ ?_
      intro x hx
      rcases Finset.mem_union.mp hx with h | h
      · exact hacc h
      · rw [Finset.mem_Ico] at h
        rw [Finset.mem_range]
        have : (min (n : Int) ((idx : Int) + ctx + 1)).toNat ≤ n := by omega
        omega

theorem filterLogsAfterTail_returned_le (oc : Nat) (lines : List (List Char))
    (lv : Option String) (ctx : Option Int) (mb : Int) :
    (filterLogsAfterTail oc lines lv ctx mb).stats.returned_lines ≤ lines.length := by
  unfold filterLogsAfterTail
  cases hws : (if optStrTruthy lv then lv else none).bind levelWords with
  | none => simp
  | some ws =>
      simp only
      split
      · simp only [List.length_map, Finset.length_sort]
        have h2 := Finset.card_le_card (expandIndices_subset (ctx.getD 0) lines.length
          (matchedIndices ws lines))
        simpa using h2
      · simp only [List.length_map]
        calc (matchedIndices ws lines).length
            ≤ (List.range lines.length).length := List.length_filter_le _ _
          _ = lines.length := List.length_range _

theorem filterLogs_returned_le (raw : String) (lv : Option String)
    (ctx tail : Option Int) (mb : Int) :
    (filterLogs raw lv ctx tail mb).stats.returned_lines ≤ (pySplitlines raw.data).length := by
  unfold filterLogs
  cases tail with
  | none => exact filterLogsAfterTail_returned_le _ _ _ _ _
  | some t =>
      by_cases ht0 : 0 ≤ t
      · by_cases ht1 : t = 0
        · simp [ht0, ht1]
        · simp only [ht0, ht1, if_true, if_false]
          calc (filterLogsAfterTail (pySplitlines raw.data).length
                (lastN t.toNat (pySplitlines raw.data)) lv ctx mb).stats.returned_lines
              ≤ (lastN t.toNat (pySplitlines raw.data)).length :=
                filterLogsAfterTail_returned_le _ _ _ _ _
            _ ≤ (pySplitlines raw.data).length := by
                unfold lastN
                rw [List.length_drop]
                omega
      · simp only [ht0, if_false]
        exact filterLogsAfterTail_returned_le _ _ _ _ _

theorem charToNat_isValid (c : Char) : Nat.isValidChar c.toNat := by
  rcases c.valid with h | h
  · exact Or.inl h
  · exact Or.inr h

theorem toNat_ofNat_valid {n : Nat} (hv : n.isValidChar) : (Char.ofNat n).toNat = n := by
  unfold Char.ofNat
  rw [dif_pos hv]
  rfl

theorem utf8Run_shift (repl : Bool) : ∀ (l : List Nat) (st : Option Utf8Pending)
    (out : List Char),
    l.foldl (fun acc b =>
        let s := utf8Step repl acc.1 b
        (s.1, acc.2 ++ s.2)) (st, out) =
      ((utf8Run repl st l).1, out ++ (utf8Run repl st l).2) := by
  intro l
  induction l with
  | nil => intro st out; simp [utf8Run]
  | cons b t ih =>
      intro st out
      have hL : (b :: t).foldl (fun acc b =>
          let s := utf8Step repl acc.1 b
          (s.1, acc.2 ++ s.2)) (st, out) =
          t.foldl (fun acc b =>
            let s := utf8Step repl acc.1 b
            (s.1, acc.2 ++ s.2)) ((utf8Step repl st b).1, out ++ (utf8Step repl st b).2) := rfl
      have hR : utf8Run repl st (b :: t) =
          t.foldl (fun acc b =>
            let s := utf8Step repl acc.1 b
            (s.1, acc.2 ++ s.2)) ((utf8Step repl st b).1, (utf8Step repl st b).2) := by
        unfold utf8Run
        rw [List.foldl_cons]
        simp only [List.nil_append]
      rw [hL, ih, hR, ih]
      simp [List.append_assoc]

theorem utf8Run_append (repl : Bool) (a b : List Nat) (st : Option Utf8Pending) :
    utf8Run repl st (a ++ b) =
      ((utf8Run repl (utf8Run repl st a).1 b).1,
        (utf8Run repl st a).2 ++ (utf8Run repl (utf8Run repl st a).1 b).2) := by
  unfold utf8Run
  rw [List.foldl_append]
  have h1 : a.foldl (fun acc b =>
      let s := utf8Step repl acc.1 b
      (s.1, acc.2 ++ s.2)) (st, []) = ((utf8Run repl st a).1, [] ++ (utf8Run repl st a).2) :=
    utf8Run_shift repl a st []
  rw [h1]
  simp only [List.nil_append]
  rw [utf8Run_shift repl b (utf8Run repl st a).1 (utf8Run repl st a).2]
  rfl

theorem utf8Run_encCp (repl : Bool) (n : Nat) (hv : Nat.isValidChar n) :
    utf8Run repl none (encCp n) = (none, [Char.ofNat n]) := by
  have hv2 : n < 0xD800 ∨ (0xE000 ≤ n ∧ n < 0x110000) := hv
  rcases Nat.lt_or_ge n 0x80 with h1 | h1
  · have he : encCp n = [n] := by unfold encCp; rw [if_pos h1]
    rw [he]
    simp [utf8Run, utf8Step, utf8Start, h1]
  · rcases Nat.lt_or_ge n 0x800 with h2 | h2
    · have he : encCp n = [0xC0 + n / 64, 0x80 + n % 64] := by
        unfold encCp
        rw [if_neg (by omega), if_pos h2]
      rw [he]
      have ha1 : ¬ (0xC0 + n / 64 < 0x80) := by omega
      have ha2 : 0xC2 ≤ 0xC0 + n / 64 := by omega
      have ha3 : 0xC0 + n / 64 ≤ 0xDF := by omega
      have hb1 : (0x80 : Nat) ≤ 0x80 + n % 64 := by omega
      have hb2 : 0x80 + n % 64 ≤ 0xBF := by omega
      have harg : (0xC0 + n / 64 - 0xC0) * 64 + (0x80 + n % 64 - 0x80) = n := by omega
      simp [utf8Run, utf8Step, utf8Start, ha1, ha2, ha3, hb1, hb2, harg]; try exact congrArg Char.ofNat (by omega)
    · rcases Nat.lt_or_ge n 0x10000 with h3 | h3
      · have he : encCp n = [0xE0 + n / 4096, 0x80 + (n / 64) % 64, 0x80 + n % 64] := by
          unfold encCp
          rw [if_neg (by omega), if_neg (by omega), if_pos h3]
        rw [he]
        have hb1 : (0x80 : Nat) ≤ 0x80 + (n / 64) % 64 := by omega
        have hb2 : 0x80 + (n / 64) % 64 ≤ 0xBF := by omega
        have hc1 : (0x80 : Nat) ≤ 0x80 + n % 64 := by omega
        have hc2 : 0x80 + n % 64 ≤ 0xBF := by omega
        have ha1 : ¬ (0xE0 + n / 4096 < 0x80) := by omega
        have ha2 : ¬ (0xC2 ≤ 0xE0 + n / 4096 ∧ 0xE0 + n / 4096 ≤ 0xDF) := by omega
        rcases Nat.lt_or_ge n 0x1000 with h4 | h4
        · have hb0 : 0xE0 + n / 4096 = 0xE0 := by omega
          have hb1a : (0xA0 : Nat) ≤ 0x80 + (n / 64) % 64 := by omega
          have harg : ((0 : Nat) * 64 + (0x80 + (n / 64) % 64 - 0x80)) * 64 +
              (0x80 + n % 64 - 0x80) = n := by omega
          simp [utf8Run, utf8Step, utf8Start, hb0, hb1a, hb2, hc1, hc2, harg]; try exact congrArg Char.ofNat (by omega)
        · rcases Nat.lt_or_ge n 0xD000 with h5 | h5
          · have hb0a : ¬ (0xE0 + n / 4096 = 0xE0) := by omega
            have hb0b : ¬ (0xE0 + n / 4096 = 0xED) := by omega
            have hb0c : 0xE1 ≤ 0xE0 + n / 4096 := by omega
            have hb0d : 0xE0 + n / 4096 ≤ 0xEF := by omega
            have harg : ((0xE0 + n / 4096 - 0xE0) * 64 + (0x80 + (n / 64) % 64 - 0x80)) * 64 +
                (0x80 + n % 64 - 0x80) = n := by omega
            simp [utf8Run, utf8Step, utf8Start, ha1, ha2, hb0a, hb0b, hb0c, hb0d, hb1, hb2,
              hc1, hc2, harg, isCont]; try exact congrArg Char.ofNat (by omega)
          · rcases Nat.lt_or_ge n 0xE000 with h6 | h6
            · have hn : n < 0xD800 := by omega
              have hb0a : ¬ (0xE0 + n / 4096 = 0xE0) := by omega
              have hb0b : 0xE0 + n / 4096 = 0xED := by omega
              have hb2a : 0x80 + (n / 64) % 64 ≤ 0x9F := by omega
              have harg : ((13 : Nat) * 64 + (0x80 + (n / 64) % 64 - 0x80)) * 64 +
                  (0x80 + n % 64 - 0x80) = n := by omega
              simp [utf8Run, utf8Step, utf8Start, ha1, ha2, hb0a, hb0b, hb1, hb2a, hc1, hc2,
                harg]; try exact congrArg Char.ofNat (by omega)
            · have hb0a : ¬ (0xE0 + n / 4096 = 0xE0) := by omega
              have hb0b : ¬ (0xE0 + n / 4096 = 0xED) := by omega
              have hb0c : 0xE1 ≤ 0xE0 + n / 4096 := by omega
              have hb0d : 0xE0 + n / 4096 ≤ 0xEF := by omega
              have harg : ((0xE0 + n / 4096 - 0xE0) * 64 + (0x80 + (n / 64) % 64 - 0x80)) * 64 +
                  (0x80 + n % 64 - 0x80) = n := by omega
              simp [utf8Run, utf8Step, utf8Start, ha1, ha2, hb0a, hb0b, hb0c, hb0d, hb1, hb2,
                hc1, hc2, harg, isCont]; try exact congrArg Char.ofNat (by omega)
      · have h7 : n < 0x110000 := by omega
        have he : encCp n = [0xF0 + n / 262144, 0x80 + (n / 4096) % 64, 0x80 + (n / 64) % 64,
            0x80 + n % 64] := by
          unfold encCp
          rw [if_neg (by omega), if_neg (by omega), if_neg (by omega)]
        rw [he]
        have ha1 : ¬ (0xF0 + n / 262144 < 0x80) := by omega
        have ha2 : ¬ (0xC2 ≤ 0xF0 + n / 262144 ∧ 0xF0 + n / 262144 ≤ 0xDF) := by omega
        have ha3 : ¬ (0xE0 + 0 = 0xF0 + n / 262144) := by omega
        have ha4 : ¬ (0xF0 + n / 262144 = 0xE0) := by omega
        have ha5 : ¬ (0xF0 + n / 262144 = 0xED) := by omega
        have ha6 : ¬ (0xE1 ≤ 0xF0 + n / 262144 ∧ 0xF0 + n / 262144 ≤ 0xEF) := by omega
        have hb1 : (0x80 : Nat) ≤ 0x80 + (n / 4096) % 64 := by omega
        have hb2 : 0x80 + (n / 4096) % 64 ≤ 0xBF := by omega
        have hc1 : (0x80 : Nat) ≤ 0x80 + (n / 64) % 64 := by omega
        have hc2 : 0x80 + (n / 64) % 64 ≤ 0xBF := by omega
        have hd1 : (0x80 : Nat) ≤ 0x80 + n % 64 := by omega
        have hd2 : 0x80 + n % 64 ≤ 0xBF := by omega
        rcases Nat.lt_or_ge n 0x40000 with h8 | h8
        · have hb0 : 0xF0 + n / 262144 = 0xF0 := by omega
          have hb1a : (0x90 : Nat) ≤ 0x80 + (n / 4096) % 64 := by omega
          have harg : (((0 : Nat) * 64 + (0x80 + (n / 4096) % 64 - 0x80)) * 64 +
              (0x80 + (n / 64) % 64 - 0x80)) * 64 + (0x80 + n % 64 - 0x80) = n := by omega
          simp [utf8Run, utf8Step, utf8Start, hb0, hb1a, hb2, hc1, hc2, hd1, hd2, harg]; try exact congrArg Char.ofNat (by omega)
        · rcases Nat.lt_or_ge n 0x100000 with h9 | h9
          · have hb0a : ¬ (0xF0 + n / 262144 = 0xF0) := by omega
            have hb0b : ¬ (0xF0 + n / 262144 = 0xF4) := by omega
            have hb0c : 0xF1 ≤ 0xF0 + n / 262144 := by omega
            have hb0d : 0xF0 + n / 262144 ≤ 0xF3 := by omega
            have harg : (((0xF0 + n / 262144 - 0xF0) * 64 + (0x80 + (n / 4096) % 64 - 0x80)) *
                64 + (0x80 + (n / 64) % 64 - 0x80)) * 64 + (0x80 + n % 64 - 0x80) = n := by
              omega
            simp [utf8Run, utf8Step, utf8Start, ha1, ha2, ha4, ha5, ha6, hb0a, hb0b, hb0c,
              hb0d, hb1, hb2, hc1, hc2, hd1, hd2, harg, isCont]; try exact congrArg Char.ofNat (by omega)
          · have hb0a : ¬ (0xF0 + n / 262144 = 0xF0) := by omega
            have hb0b : 0xF0 + n / 262144 = 0xF4 := by omega
            have hb2a : 0x80 + (n / 4096) % 64 ≤ 0x8F := by omega
            have harg : (((4 : Nat) * 64 + (0x80 + (n / 4096) % 64 - 0x80)) * 64 +
                (0x80 + (n / 64) % 64 - 0x80)) * 64 + (0x80 + n % 64 - 0x80) = n := by omega
            simp [utf8Run, utf8Step, utf8Start, ha1, ha2, ha4, ha5, ha6, hb0a, hb0b, hb1,
              hb2a, hc1, hc2, hd1, hd2, harg]; try exact congrArg Char.ofNat (by omega)

theorem utf8Run_bindEnc (repl : Bool) (cs : List Char) :
    utf8Run repl none (cs.flatMap (fun c => encCp c.toNat)) = (none, cs) := by
  induction cs with
  | nil => simp [utf8Run]
  | cons c t ih =>
      rw [List.flatMap_cons, utf8Run_append]
      rw [utf8Run_encCp repl c.toNat (charToNat_isValid c)]
      simp only [ih]
      rw [Char.ofNat_toNat]
      rfl

theorem decodeUtf8_strBytes (repl : Bool) (s : String) :
    decodeUtf8 repl (strBytes s) = s.data := by
  unfold decodeUtf8 strBytes
  rw [utf8Run_bindEnc]
  simp

theorem decodeUtf8_enc_cons (repl : Bool) (c : Char) (x : List Nat) :
    decodeUtf8 repl (encCp c.toNat ++ x) = c :: decodeUtf8 repl x := by
  unfold decodeUtf8
  rw [utf8Run_append]
  rw [utf8Run_encCp repl c.toNat (charToNat_isValid c)]
  simp only [Char.ofNat_toNat, List.cons_append, List.nil_append]

theorem utf8Run_take_encCp (n : Nat) (hv : Nat.isValidChar n) (m : Nat)
    (hm : m < (encCp n).length) : (utf8Run false none ((encCp n).take m)).2 = [] := by
  have hv2 : n < 0xD800 ∨ (0xE000 ≤ n ∧ n < 0x110000) := hv
  rcases Nat.lt_or_ge n 0x80 with h1 | h1
  · have he : encCp n = [n] := by unfold encCp; rw [if_pos h1]
    rw [he] at hm ⊢
    simp at hm
    subst hm
    simp [utf8Run]
  · rcases Nat.lt_or_ge n 0x800 with h2 | h2
    · have he : encCp n = [0xC0 + n / 64, 0x80 + n % 64] := by
        unfold encCp
        rw [if_neg (by omega), if_pos h2]
      rw [he] at hm ⊢
      simp at hm
      interval_cases m
      · simp [utf8Run]
      · have ha1 : ¬ (0xC0 + n / 64 < 0x80) := by omega
        have ha2 : 0xC2 ≤ 0xC0 + n / 64 := by omega
        have ha3 : 0xC0 + n / 64 ≤ 0xDF := by omega
        simp [utf8Run, utf8Step, utf8Start, ha1, ha2, ha3]
    · rcases Nat.lt_or_ge n 0x10000 with h3 | h3
      · have he : encCp n = [0xE0 + n / 4096, 0x80 + (n / 64) % 64, 0x80 + n % 64] := by
          unfold encCp
          rw [if_neg (by omega), if_neg (by omega), if_pos h3]
        rw [he] at hm ⊢
        simp at hm
        have ha1 : ¬ (0xE0 + n / 4096 < 0x80) := by omega
        have ha2 : ¬ (0xC2 ≤ 0xE0 + n / 4096 ∧ 0xE0 + n / 4096 ≤ 0xDF) := by omega
        have hb1 : (0x80 : Nat) ≤ 0x80 + (n / 64) % 64 := by omega
        have hb2 : 0x80 + (n / 64) % 64 ≤ 0xBF := by omega
        interval_cases m
        · simp [utf8Run]
        · rcases Nat.lt_or_ge n 0x1000 with h4 | h4
          · have hb0 : 0xE0 + n / 4096 = 0xE0 := by omega
            simp [utf8Run, utf8Step, utf8Start, hb0]
          · rcases Nat.lt_or_ge n 0xD000 with h5 | h5
            · have hb0a : ¬ (0xE0 + n / 4096 = 0xE0) := by omega
              have hb0b : ¬ (0xE0 + n / 4096 = 0xED) := by omega
              have hb0c : 0xE1 ≤ 0xE0 + n / 4096 := by omega
              have hb0d : 0xE0 + n / 4096 ≤ 0xEF := by omega
              simp [utf8Run, utf8Step, utf8Start, ha1, ha2, hb0a, hb0b, hb0c, hb0d]
            · rcases Nat.lt_or_ge n 0xE000 with h6 | h6
              · have hb0b : 0xE0 + n / 4096 = 0xED := by omega
                have hb0a : ¬ (0xE0 + n / 4096 = 0xE0) := by omega
                simp [utf8Run, utf8Step, utf8Start, ha1, ha2, hb0a, hb0b]
              · have hb0a : ¬ (0xE0 + n / 4096 = 0xE0) := by omega
                have hb0b : ¬ (0xE0 + n / 4096 = 0xED) := by omega
                have hb0c : 0xE1 ≤ 0xE0 + n / 4096 := by omega
                have hb0d : 0xE0 + n / 4096 ≤ 0xEF := by omega
                simp [utf8Run, utf8Step, utf8Start, ha1, ha2, hb0a, hb0b, hb0c, hb0d]
        · rcases Nat.lt_or_ge n 0x1000 with h4 | h4
          · have hb0 : 0xE0 + n / 4096 = 0xE0 := by omega
            have hb1a : (0xA0 : Nat) ≤ 0x80 + (n / 64) % 64 := by omega
            simp [utf8Run, utf8Step, utf8Start, hb0, hb1a, hb2]
          · rcases Nat.lt_or_ge n 0xD000 with h5 | h5
            · have hb0a : ¬ (0xE0 + n / 4096 = 0xE0) := by omega
              have hb0b : ¬ (0xE0 + n / 4096 = 0xED) := by omega
              have hb0c : 0xE1 ≤ 0xE0 + n / 4096 := by omega
              have hb0d : 0xE0 + n / 4096 ≤ 0xEF := by omega
              simp [utf8Run, utf8Step, utf8Start, ha1, ha2, hb0a, hb0b, hb0c, hb0d, hb1, hb2,
                isCont]
            · rcases Nat.lt_or_ge n 0xE000 with h6 | h6
              · have hb0b : 0xE0 + n / 4096 = 0xED := by omega
                have hb0a : ¬ (0xE0 + n / 4096 = 0xE0) := by omega
                have hn : n < 0xD800 := by omega
                have hb2a : 0x80 + (n / 64) % 64 ≤ 0x9F := by omega
                simp [utf8Run, utf8Step, utf8Start, ha1, ha2, hb0a, hb0b, hb1, hb2a]
              · have hb0a : ¬ (0xE0 + n / 4096 = 0xE0) := by omega
                have hb0b : ¬ (0xE0 + n / 4096 = 0xED) := by omega
                have hb0c : 0xE1 ≤ 0xE0 + n / 4096 := by omega
                have hb0d : 0xE0 + n / 4096 ≤ 0xEF := by omega
                simp [utf8Run, utf8Step, utf8Start, ha1, ha2, hb0a, hb0b, hb0c, hb0d, hb1,
                  hb2, isCont]
      · have h7 : n < 0x110000 := by omega
        have he : encCp n = [0xF0 + n / 262144, 0x80 + (n / 4096) % 64, 0x80 + (n / 64) % 64,
            0x80 + n % 64] := by
          unfold encCp
          rw [if_neg (by omega), if_neg (by omega), if_neg (by omega)]
        rw [he] at hm ⊢
        simp at hm
        have ha1 : ¬ (0xF0 + n / 262144 < 0x80) := by omega
        have ha2 : ¬ (0xC2 ≤ 0xF0 + n / 262144 ∧ 0xF0 + n / 262144 ≤ 0xDF) := by omega
        have ha4 : ¬ (0xF0 + n / 262144 = 0xE0) := by omega
        have ha5 : ¬ (0xF0 + n / 262144 = 0xED) := by omega
        have ha6 : ¬ (0xE1 ≤ 0xF0 + n / 262144 ∧ 0xF0 + n / 262144 ≤ 0xEF) := by omega
        have hb1 : (0x80 : Nat) ≤ 0x80 + (n / 4096) % 64 := by omega
        have hb2 : 0x80 + (n / 4096) % 64 ≤ 0xBF := by omega
        have hc1 : (0x80 : Nat) ≤ 0x80 + (n / 64) % 64 := by omega
        have hc2 : 0x80 + (n / 64) % 64 ≤ 0xBF := by omega
        have hstart : ∀ st2, utf8Start false (0xF0 + n / 262144) = (st2, []) →
            True := by intro _ _; trivial
        interval_cases m
        · simp [utf8Run]
        · rcases Nat.lt_or_ge n 0x40000 with h8 | h8
          · have hb0 : 0xF0 + n / 262144 = 0xF0 := by omega
            simp [utf8Run, utf8Step, utf8Start, hb0]
          · rcases Nat.lt_or_ge n 0x100000 with h9 | h9
            · have hb0a : ¬ (0xF0 + n / 262144 = 0xF0) := by omega
              have hb0b : ¬ (0xF0 + n / 262144 = 0xF4) := by omega
              have hb0c : 0xF1 ≤ 0xF0 + n / 262144 := by omega
              have hb0d : 0xF0 + n / 262144 ≤ 0xF3 := by omega
              simp [utf8Run, utf8Step, utf8Start, ha1, ha2, ha4, ha5, ha6, hb0a, hb0b, hb0c,
                hb0d]
            · have hb0b : 0xF0 + n / 262144 = 0xF4 := by omega
              have hb0a : ¬ (0xF0 + n / 262144 = 0xF0) := by omega
              simp [utf8Run, utf8Step, utf8Start, ha1, ha2, ha4, ha5, ha6, hb0a, hb0b]
        · rcases Nat.lt_or_ge n 0x40000 with h8 | h8
          · have hb0 : 0xF0 + n / 262144 = 0xF0 := by omega
            have hb1a : (0x90 : Nat) ≤ 0x80 + (n / 4096) % 64 := by omega
            simp [utf8Run, utf8Step, utf8Start, hb0, hb1a, hb2, hc1, hc2]
          · rcases Nat.lt_or_ge n 0x100000 with h9 | h9
            · have hb0a : ¬ (0xF0 + n / 262144 = 0xF0) := by omega
              have hb0b : ¬ (0xF0 + n / 262144 = 0xF4) := by omega
              have hb0c : 0xF1 ≤ 0xF0 + n / 262144 := by omega
              have hb0d : 0xF0 + n / 262144 ≤ 0xF3 := by omega
              simp [utf8Run, utf8Step, utf8Start, ha1, ha2, ha4, ha5, ha6, hb0a, hb0b, hb0c,
                hb0d, hb1, hb2, hc1, hc2, isCont]
            · have hb0b : 0xF0 + n / 262144 = 0xF4 := by omega
              have hb0a : ¬ (0xF0 + n / 262144 = 0xF0) := by omega
              have hb2a : 0x80 + (n / 4096) % 64 ≤ 0x8F := by omega
              simp [utf8Run, utf8Step, utf8Start, ha1, ha2, ha4, ha5, ha6, hb0a, hb0b, hb1,
                hb2a, hc1, hc2]
        · rcases Nat.lt_or_ge n 0x40000 with h8 | h8
          · have hb0 : 0xF0 + n / 262144 = 0xF0 := by omega
            have hb1a : (0x90 : Nat) ≤ 0x80 + (n / 4096) % 64 := by omega
            simp [utf8Run, utf8Step, utf8Start, hb0, hb1a, hb2, hc1, hc2]
          · rcases Nat.lt_or_ge n 0x100000 with h9 | h9
            · have hb0a : ¬ (0xF0 + n / 262144 = 0xF0) := by omega
              have hb0b : ¬ (0xF0 + n / 262144 = 0xF4) := by omega
              have hb0c : 0xF1 ≤ 0xF0 + n / 262144 := by omega
              have hb0d : 0xF0 + n / 262144 ≤ 0xF3 := by omega
              simp [utf8Run, utf8Step, utf8Start, ha1, ha2, ha4, ha5, ha6, hb0a, hb0b, hb0c,
                hb0d, hb1, hb2, hc1, hc2, isCont]
            · have hb0b : 0xF0 + n / 262144 = 0xF4 := by omega
              have hb0a : ¬ (0xF0 + n / 262144 = 0xF0) := by omega
              have hb2a : 0x80 + (n / 4096) % 64 ≤ 0x8F := by omega
              simp [utf8Run, utf8Step, utf8Start, ha1, ha2, ha4, ha5, ha6, hb0a, hb0b, hb1,
                hb2a, hc1, hc2]

theorem decodeUtf8_take_strict (c : Char) (m : Nat) (hm : m < (encCp c.toNat).length) :
    decodeUtf8 false ((encCp c.toNat).take m) = [] := by
  simp only [decodeUtf8]
  rw [utf8Run_take_encCp c.toNat (charToNat_isValid c) m hm]
  simp [replChar]

theorem decode_take_isPre : ∀ (cs : List Char) (m : Nat),
    ((decodeUtf8 false ((cs.flatMap (fun c => encCp c.toNat)).take m)).flatMap
        (fun c => encCp c.toNat)) <+: (cs.flatMap (fun c => encCp c.toNat)).take m := by
  intro cs
  induction cs with
  | nil =>
      intro m
      simp [decodeUtf8, utf8Run]
  | cons c t ih =>
      intro m
      rw [List.flatMap_cons]
      rcases Nat.lt_or_ge m (encCp c.toNat).length with hm | hm
      · rw [List.take_append_of_le_length (le_of_lt hm)]
        rw [decodeUtf8_take_strict c m hm]
        simp
      · obtain ⟨i, hi⟩ : ∃ i, m = (encCp c.toNat).length + i := ⟨m - (encCp c.toNat).length,
          by omega⟩
        subst hi
        rw [List.take_append]
        rw [decodeUtf8_enc_cons, List.flatMap_cons]
        exact (List.prefix_append_right_inj _).mpr (ih i)

theorem decode_take_len (cs : List Char) (m : Nat) :
    ((decodeUtf8 false ((cs.flatMap (fun c => encCp c.toNat)).take m)).flatMap
        (fun c => encCp c.toNat)).length ≤ m := by
  have h := List.IsPrefix.length_le (decode_take_isPre cs m)
  calc ((decodeUtf8 false ((cs.flatMap (fun c => encCp c.toNat)).take m)).flatMap
      (fun c => encCp c.toNat)).length
      ≤ ((cs.flatMap (fun c => encCp c.toNat)).take m).length := h
    _ ≤ m := by rw [List.length_take]; omega

theorem sizeCap_le (result : List Char) (mb : Int) (hmb : 0 ≤ mb) :
    (((sizeCap result mb).1.flatMap (fun c => encCp c.toNat)).length : Int) ≤ mb := by
  unfold sizeCap
  simp only
  split
  · rename_i h
    unfold pyTake
    rw [if_pos hmb]
    show (((decodeUtf8 false (List.take mb.toNat
        (result.flatMap fun c => encCp c.toNat))).flatMap fun c => encCp c.toNat).length :
      Int) ≤ mb
    have hlen := decode_take_len result mb.toNat
    omega
  · rename_i h
    simp only
    omega

theorem filterLogsAfterTail_cap (oc : Nat) (lines : List (List Char)) (lv : Option String)
    (ctx : Option Int) (mb : Int) (hmb : 0 ≤ mb) :
    (filterLogsAfterTail oc lines lv ctx mb).stats.bytes_returned =
        (strBytes (filterLogsAfterTail oc lines lv ctx mb).text).length ∧
      ((filterLogsAfterTail oc lines lv ctx mb).stats.bytes_returned : Int) ≤ mb := by
  constructor
  · rfl
  · exact sizeCap_le _ mb hmb

theorem splitlinesAux_uniform (c : Char) (hc : isLineBreakCh c = false) :
    ∀ (k : Nat) (cur : List Char),
      splitlinesAux cur (List.replicate k c) = [cur.reverse ++ List.replicate k c] := by
  have hr : c ≠ '\r' := by
    intro h
    rw [h] at hc
    exact absurd hc (by decide)
  intro k
  induction k with
  | zero => intro cur; simp [splitlinesAux]
  | succ k ih =>
      intro cur
      cases k with
      | zero =>
          show splitlinesAux cur [c] = _
          rw [splitlinesAux]
          simp [hc]
      | succ j =>
          have hrep : List.replicate (j + 1 + 1) c = c :: c :: List.replicate j c := by
            simp [List.replicate_succ]
          rw [hrep, splitlinesAux]
          have hcrlf : (decide (c = '\r') && decide (c = '\n')) = false := by
            simp [hr]
          rw [hcrlf]
          simp only [Bool.false_eq_true, if_false, hc]
          have hback : c :: List.replicate j c = List.replicate (j + 1) c := by
            simp [List.replicate_succ]
          rw [hback, ih (c :: cur)]
          simp [List.replicate_succ]

theorem pySplitlines_uniform (c : Char) (hc : isLineBreakCh c = false) (k : Nat)
    (hk : 0 < k) : pySplitlines (List.replicate k c) = [List.replicate k c] := by
  unfold pySplitlines
  cases k with
  | zero => omega
  | succ j =>
      rw [List.replicate_succ]
      rw [if_neg (by simp)]
      rw [show (c :: List.replicate j c) = List.replicate (j + 1) c from by
        simp [List.replicate_succ]]
      rw [splitlinesAux_uniform c hc (j + 1) []]
      simp

theorem flatMap_enc_ascii (c : Char) (hc : c.toNat < 0x80) (k : Nat) :
    (List.replicate k c).flatMap (fun c => encCp c.toNat) = List.replicate k c.toNat := by
  induction k with
  | zero => simp
  | succ j ih =>
      rw [List.replicate_succ, List.flatMap_cons, ih]
      rw [show encCp c.toNat = [c.toNat] from by unfold encCp; rw [if_pos hc]]
      simp [List.replicate_succ]

theorem utf8Run_ascii (repl : Bool) : ∀ (bs : List Nat), (∀ b ∈ bs, b < 0x80) →
    utf8Run repl none bs = (none, bs.map (fun b => Char.ofNat b)) := by
  intro bs
  induction bs with
  | nil => intro _; simp [utf8Run]
  | cons b t ih =>
      intro h
      have hb : b < 0x80 := h b (by simp)
      have h1 : utf8Run repl none [b] = (none, [Char.ofNat b]) := by
        simp [utf8Run, utf8Step, utf8Start, hb]
      rw [show b :: t = [b] ++ t from rfl, utf8Run_append, h1]
      simp [ih (fun b2 hb2 => h b2 (by simp [hb2]))]

theorem decodeUtf8_ascii (repl : Bool) (bs : List Nat) (h : ∀ b ∈ bs, b < 0x80) :
    decodeUtf8 repl bs = bs.map (fun b => Char.ofNat b) := by
  simp only [decodeUtf8]
  rw [utf8Run_ascii repl bs h]
  simp

theorem intercalate_single (s a : List Char) : List.intercalate s [a] = a := by
  simp [List.intercalate]

theorem filterLogs_none (raw : String) (lv : Option String) (ctx : Option Int) (mb : Int) :
    filterLogs raw lv ctx none mb =
      filterLogsAfterTail (pySplitlines raw.data).length (pySplitlines raw.data) lv ctx mb :=
  rfl

theorem filterLogs_some_zero (raw : String) (lv : Option String) (ctx : Option Int)
    (mb : Int) : filterLogs raw lv ctx (some 0) mb =
      ⟨"", false, ⟨0, (pySplitlines raw.data).length, 0, 0⟩⟩ := rfl

theorem filterLogs_some_pos (raw : String) (lv : Option String) (ctx : Option Int)
    (mb : Int) (t : Int) (ht0 : 0 ≤ t) (ht1 : t ≠ 0) :
    filterLogs raw lv ctx (some t) mb =
      filterLogsAfterTail (pySplitlines raw.data).length
        (lastN t.toNat (pySplitlines raw.data)) lv ctx mb := by
  unfold filterLogs
  simp only [ht0, ht1, if_true, if_false]

theorem filterLogs_some_neg (raw : String) (lv : Option String) (ctx : Option Int)
    (mb : Int) (t : Int) (ht0 : ¬ 0 ≤ t) :
    filterLogs raw lv ctx (some t) mb =
      filterLogsAfterTail (pySplitlines raw.data).length (pySplitlines raw.data) lv ctx mb := by
  unfold filterLogs
  simp only [ht0, if_false]

theorem filter_x2000 : filterLogs (String.mk (List.replicate 2000 'x')) none none none 10 =
    ⟨String.mk (List.replicate 10 'x'), true, ⟨10, 1, 1, 0⟩⟩ := by
  have hx : isLineBreakCh 'x' = false := by decide
  have hsp : pySplitlines (List.replicate 2000 'x') = [List.replicate 2000 'x'] :=
    pySplitlines_uniform 'x' hx 2000 (by omega)
  rw [filterLogs_none]
  rw [hsp]
  unfold filterLogsAfterTail
  simp only [optStrTruthy, Option.bind, Bool.false_eq_true, if_false]
  have hi : List.intercalate ['\n'] [List.replicate 2000 'x'] = List.replicate 2000 'x' :=
    intercalate_single _ _
  have hcap : sizeCap (List.replicate 2000 'x') 10 = (List.replicate 10 'x', true) := by
    unfold sizeCap
    simp only
    rw [flatMap_enc_ascii 'x' (by decide) 2000]
    rw [if_pos (by rw [List.length_replicate]; norm_num)]
    have htk : pyTake 10 (List.replicate 2000 ('x'.toNat)) = List.replicate 10 ('x'.toNat) := by
      unfold pyTake
      rw [if_pos (by omega)]
      rw [show ((10 : Int).toNat) = 10 from rfl]
      rw [List.take_replicate]
      norm_num
    rw [htk]
    rw [decodeUtf8_ascii false _ (by
      intro b hb
      rw [List.eq_of_mem_replicate hb]
      decide)]
    rw [List.map_replicate, Char.ofNat_toNat]
  rw [hi, hcap]
  rw [show (List.replicate 10 'x', true).1 = List.replicate 10 'x' from rfl]
  rw [flatMap_enc_ascii 'x' (by decide) 10]
  rw [List.length_replicate]
  rfl

/-- C2: byte cap invariant.  bytes_returned always equals the UTF-8 byte
    length of the returned text and never exceeds a non-negative
    max_bytes; what a truncated text re-encodes to is a prefix of the
    truncated byte string, so an incomplete trailing multi-byte sequence
    is discarded rather than raising; filtering 2000 x-characters with
    max_bytes 10 reports truncated with exactly 10 bytes. -/
theorem byte_cap_invariant (raw : String) (lv : Option String) (ctx tail : Option Int)
    (mb : Int) (hmb : 0 ≤ mb) :
    ((filterLogs raw lv ctx tail mb).stats.bytes_returned =
        (strBytes (filterLogs raw lv ctx tail mb).text).length ∧
      ((filterLogs raw lv ctx tail mb).stats.bytes_returned : Int) ≤ mb) ∧
    (∀ (cs : List Char) (m : Nat),
        ((decodeUtf8 false ((cs.flatMap (fun c => encCp c.toNat)).take m)).flatMap
            (fun c => encCp c.toNat)) <+: (cs.flatMap (fun c => encCp c.toNat)).take m) ∧
    (filterLogs (String.mk (List.replicate 2000 'x')) none none none 10).truncated = true ∧
    (filterLogs (String.mk (List.replicate 2000 'x')) none none none 10).stats.bytes_returned
      = 10 := by
  refine ⟨?_, decode_take_isPre, by rw [filter_x2000], by rw [filter_x2000]⟩
  cases tail with
  | none =>
      rw [filterLogs_none]
      exact filterLogsAfterTail_cap _ _ _ _ _ hmb
  | some t =>
      by_cases ht0 : 0 ≤ t
      · by_cases ht1 : t = 0
        · subst ht1
          rw [filterLogs_some_zero]
          exact ⟨rfl, by simpa using hmb⟩
        · rw [filterLogs_some_pos raw lv ctx mb t ht0 ht1]
          exact filterLogsAfterTail_cap _ _ _ _ _ hmb
      · rw [filterLogs_some_neg raw lv ctx mb t ht0]
        exact filterLogsAfterTail_cap _ _ _ _ _ hmb

/-- Witness for C2 at a concrete input and cap. -/
theorem byte_cap_invariant_witness :
    (filterLogs "hello world" none none none 3).stats.bytes_returned =
        (strBytes (filterLogs "hello world" none none none 3).text).length ∧
      ((filterLogs "hello world" none none none 3).stats.bytes_returned : Int) ≤ 3 :=
  (byte_cap_invariant "hello world" none none none 3 (by decide)).1

/-- C5: the auto-tail stage.  A raw log of more than 100000000 characters
    is cut to its last 10000 lines before any other stage runs and
    auto_tailed is recorded, whatever the other options, so
    returned_lines is at most 10000; a log at or below the threshold is
    passed through unchanged with auto_tailed false. -/
theorem auto_tail_pipeline (raw : String) (lv : Option String) (ctx tail : Option Int)
    (mb : Int) :
    (raw.length > 100000000 →
      (logsPipeline raw lv ctx tail mb).2 = true ∧
      (autoTailStage raw).1 =
        String.mk (List.intercalate ['\n'] (lastN 10000 (pySplitlines raw.data))) ∧
      (logsPipeline raw lv ctx tail mb).1 =
        filterLogs (autoTailStage raw).1 lv (clampOpt 0 1000 ctx) (clampOpt 0 100000 tail) mb ∧
      (logsPipeline raw lv ctx tail mb).1.stats.returned_lines ≤ 10000) ∧
    (raw.length ≤ 100000000 →
      (logsPipeline raw lv ctx tail mb).2 = false ∧
      (logsPipeline raw lv ctx tail mb).1 =
        filterLogs raw lv (clampOpt 0 1000 ctx) (clampOpt 0 100000 tail) mb) := by
  have hlen : raw.length = raw.data.length := rfl
  constructor
  · intro hbig
    have hne : raw.isEmpty = false := by
      apply isEmpty_false_of_ne
      intro he
      rw [he] at hbig
      simp [String.length] at hbig
    have hat : autoTailStage raw =
        (String.mk (List.intercalate ['\n'] (lastN 10000 (pySplitlines raw.data))), true) := by
      unfold autoTailStage
      simp [hne, hbig]
    refine ⟨?_, ?_, ?_, ?_⟩
    · unfold logsPipeline
      simp [hat]
    · rw [hat]
    · unfold logsPipeline
      simp [hat]
    · unfold logsPipeline
      simp only [hat]
      calc (filterLogs (String.mk (List.intercalate ['\n']
            (lastN 10000 (pySplitlines raw.data)))) lv (clampOpt 0 1000 ctx)
            (clampOpt 0 100000 tail) mb).stats.returned_lines
          ≤ (pySplitlines (String.mk (List.intercalate ['\n']
              (lastN 10000 (pySplitlines raw.data)))).data).length :=
            filterLogs_returned_le _ _ _ _ _
        _ ≤ (lastN 10000 (pySplitlines raw.data)).length := by
            apply pySplitlines_intercalate_le
            intro l hl
            exact pySplitlines_breakfree raw.data l (by
              unfold lastN at hl
              exact List.mem_of_mem_drop hl)
        _ ≤ 10000 := by
            unfold lastN
            rw [List.length_drop]
            omega
  · intro hsmall
    have hat : autoTailStage raw = (raw, false) := by
      unfold autoTailStage
      by_cases hne : raw.isEmpty
      · simp [hne]
      · simp only [hne, Bool.not_false, Bool.true_and]
        have : ¬ raw.length > 100000000 := by omega
        simp [this]
    unfold logsPipeline
    simp [hat]

/-- Witness for C5 at a log of 100000001 characters and one below the
    threshold. -/
theorem auto_tail_pipeline_witness :
    ((logsPipeline (String.mk (List.replicate 100000001 'x')) none none none 100).2 = true ∧
      (logsPipeline (String.mk (List.replicate 100000001 'x'))
          none none none 100).1.stats.returned_lines ≤ 10000) ∧
    (logsPipeline "abc" none none none 100).2 = false := by
  have h1 := (auto_tail_pipeline (String.mk (List.replicate 100000001 'x'))
    none none none 100).1 (by
      show (List.replicate 100000001 'x').length > 100000000
      rw [List.length_replicate]
      omega)
  have h2 := (auto_tail_pipeline "abc" none none none 100).2 (by decide)
  exact ⟨⟨h1.1, h1.2.2.2⟩, h2.1⟩

theorem levelWords_truthy {lv : String} {ws : List (List Char)}
    (h : levelWords lv = some ws) : optStrTruthy (some lv) = true := by
  unfold levelWords at h
  split at h
  · decide
  · decide
  · decide
  · exact absurd h (by simp)

theorem map_getD_filter : ∀ (lines : List (List Char)) (p : List Char → Bool),
    ((List.range lines.length).filter (fun i => p (lines.getD i []))).map
        (fun i => lines.getD i []) = lines.filter p := by
  intro lines
  induction lines with
  | nil => intro p; simp
  | cons a t ih =>
      intro p
      have hrest : (((List.range t.length).map Nat.succ).filter
            (fun i => p ((a :: t).getD i []))).map (fun i => (a :: t).getD i []) =
          t.filter p := by
        rw [List.filter_map, List.map_map]
        have h1 : (List.range t.length).filter ((fun i => p ((a :: t).getD i [])) ∘ Nat.succ) =
            (List.range t.length).filter (fun i => p (t.getD i [])) :=
          List.filter_congr (fun i _ => rfl)
        rw [h1]
        have h2 : ((List.range t.length).filter (fun i => p (t.getD i []))).map
              ((fun i => (a :: t).getD i []) ∘ Nat.succ) =
            ((List.range t.length).filter (fun i => p (t.getD i []))).map
              (fun i => t.getD i []) :=
          List.map_congr_left (fun i _ => rfl)
        rw [h2, ih p]
      rw [List.length_cons, List.range_succ_eq_map, List.filter_cons]
      by_cases hp : p a = true
      · simp only [List.getD_cons_zero, hp, if_true, List.map_cons]
        rw [hrest, List.filter_cons, if_pos hp]
      · simp only [List.getD_cons_zero, hp, Bool.false_eq_true, if_false]
        rw [hrest, List.filter_cons, if_neg hp]

theorem sizeCap_no_trunc (result : List Char) (mb : Int)
    (h : ((result.flatMap (fun c => encCp c.toNat)).length : Int) ≤ mb) :
    sizeCap result mb = (result, false) := by
  unfold sizeCap
  simp only
  rw [if_neg (by omega)]

theorem matchedIndices_map (ws : List (List Char)) (lines : List (List Char)) :
    (matchedIndices ws lines).map (fun i => lines.getD i []) =
      lines.filter (fun l => searchAny ws l) := by
  unfold matchedIndices
  exact map_getD_filter lines (fun l => searchAny ws l)

theorem matchedIndices_length (ws : List (List Char)) (lines : List (List Char)) :
    (matchedIndices ws lines).length = (lines.filter (fun l => searchAny ws l)).length := by
  have h := congrArg List.length (matchedIndices_map ws lines)
  simpa using h

theorem filterLogsAfterTail_level (lines : List (List Char)) (lv : String)
    (ws : List (List Char)) (oc : Nat) (mb : Int) (hws : levelWords lv = some ws)
    (hmb : (((List.intercalate ['\n'] (lines.filter (fun l => searchAny ws l))).flatMap
        (fun c => encCp c.toNat)).length : Int) ≤ mb) :
    filterLogsAfterTail oc lines (some lv) none mb =
      ⟨String.mk (List.intercalate ['\n'] (lines.filter (fun l => searchAny ws l))), false,
        ⟨((List.intercalate ['\n'] (lines.filter (fun l => searchAny ws l))).flatMap
            (fun c => encCp c.toNat)).length, oc,
          (lines.filter (fun l => searchAny ws l)).length,
          (lines.filter (fun l => searchAny ws l)).length⟩⟩ := by
  unfold filterLogsAfterTail
  rw [levelWords_truthy hws]
  simp only [if_true, Option.bind, hws, optIntTruthy, Bool.false_and, Bool.false_eq_true,
    if_false]
  rw [matchedIndices_map ws lines]
  rw [sizeCap_no_trunc _ mb hmb]
  simp only [matchedIndices_length ws lines, List.length_map, matchedIndices_map]

/-- C3 counterexample: the claim says the warning set is the union of
    WARN, WARNING and the error set, so a line matching Exception would
    be kept and counted at warning level; the compiled warning pattern
    has no Exception branch, so the line is dropped and uncounted. -/
theorem level_sets_not_cumulative :
    (filterLogs "Exception boom" (some "error") none none 1000).stats.match_count = 1 ∧
    (filterLogs "Exception boom" (some "error") none none 1000).text = "Exception boom" ∧
    (filterLogs "Exception boom" (some "warning") none none 1000).stats.match_count = 0 ∧
    (filterLogs "Exception boom" (some "warning") none none 1000).text = "" := by
  refine ⟨by decide, by decide, by decide, by decide⟩

/-- C3 (amended): level filtering keeps exactly the lines matched by the
    per-level word pattern and match_count counts them before context
    expansion, with case-insensitive word matching; but the levels are
    not cumulative supersets: the compiled sets are error = ERROR,
    CRITICAL, FATAL, Exception, Traceback; warning = WARN, WARNING,
    ERROR, CRITICAL, FATAL (no Exception or Traceback); info = INFO,
    WARN, ERROR, CRITICAL (no FATAL, and WARNING fails the boundary after
    WARN).  The concrete error-level scenario behaves as claimed. -/
theorem level_filtering_keeps_matches (raw : String) (lv : String) (ws : List (List Char))
    (mb : Int) (hws : levelWords lv = some ws)
    (hmb : (((List.intercalate ['\n'] ((pySplitlines raw.data).filter
        (fun l => searchAny ws l))).flatMap (fun c => encCp c.toNat)).length : Int) ≤ mb) :
    levelWords "error" = some ["ERROR".data, "CRITICAL".data, "FATAL".data,
        "Exception".data, "Traceback".data] ∧
    levelWords "warning" = some ["WARN".data, "WARNING".data, "ERROR".data,
        "CRITICAL".data, "FATAL".data] ∧
    levelWords "info" = some ["INFO".data, "WARN".data, "ERROR".data, "CRITICAL".data] ∧
    (filterLogs raw (some lv) none none mb).text =
      String.mk (List.intercalate ['\n'] ((pySplitlines raw.data).filter
        (fun l => searchAny ws l))) ∧
    (filterLogs raw (some lv) none none mb).truncated = false ∧
    (filterLogs raw (some lv) none none mb).stats.match_count =
      ((pySplitlines raw.data).filter (fun l => searchAny ws l)).length ∧
    (filterLogs raw (some lv) none none mb).stats.returned_lines =
      ((pySplitlines raw.data).filter (fun l => searchAny ws l)).length ∧
    (filterLogs "ERROR a\nINFO b\nERROR c" (some "error") (some 0) none 1000).stats.match_count
        = 2 ∧
    (filterLogs "ERROR a\nINFO b\nERROR c" (some "error") (some 0) none 1000).text =
      "ERROR a\nERROR c" := by
  rw [filterLogs_none]
  rw [filterLogsAfterTail_level (pySplitlines raw.data) lv ws
    (pySplitlines raw.data).length mb hws hmb]
  exact ⟨rfl, rfl, rfl, rfl, rfl, rfl, rfl, by decide, by decide⟩

/-- Witness for C3 (amended) at a concrete input. -/
theorem level_filtering_keeps_matches_witness :
    (filterLogs "ERROR one\nok two" (some "error") none none 1000).text =
        String.mk (List.intercalate ['\n'] ((pySplitlines "ERROR one\nok two".data).filter
          (fun l => searchAny ["ERROR".data, "CRITICAL".data, "FATAL".data,
            "Exception".data, "Traceback".data] l))) ∧
      (filterLogs "ERROR one\nok two" (some "error") none none 1000).stats.match_count =
        ((pySplitlines "ERROR one\nok two".data).filter
          (fun l => searchAny ["ERROR".data, "CRITICAL".data, "FATAL".data,
            "Exception".data, "Traceback".data] l)).length := by
  have h := level_filtering_keeps_matches "ERROR one\nok two" "error"
    ["ERROR".data, "CRITICAL".data, "FATAL".data, "Exception".data, "Traceback".data]
    1000 (by decide) (by decide)
  exact ⟨h.2.2.2.1, h.2.2.2.2.2.1⟩

theorem mem_expandIndices (c : Int) (n : Nat) (matched : List Nat) (i : Nat) :
    i ∈ expandIndices c n matched ↔
      ∃ m ∈ matched, (max 0 ((m : Int) - c)).toNat ≤ i ∧
        (i : Int) < min (n : Int) ((m : Int) + c + 1) := by
  unfold expandIndices
  suffices h : ∀ (ml : List Nat) (acc : Finset Nat),
      (i ∈ ml.foldl (fun (s : Finset Nat) (idx : Nat) =>
          s ∪ Finset.Ico (max 0 ((idx : Int) - c)).toNat
            (min (n : Int) ((idx : Int) + c + 1)).toNat) acc ↔
        i ∈ acc ∨ ∃ m ∈ ml, (max 0 ((m : Int) - c)).toNat ≤ i ∧
          (i : Int) < min (n : Int) ((m : Int) + c + 1)) by
    rw [h matched ∅]
    simp
  intro ml
  induction ml with
  | nil => intro acc; simp
  | cons idx t ih =>
      intro acc
      rw [List.foldl_cons, ih]
      constructor
      · rintro (h | h)
        · rcases Finset.mem_union.mp h with h2 | h2
          · exact Or.inl h2
          · rw [Finset.mem_Ico] at h2
            refine Or.inr ⟨idx, by simp, h2.1, by omega⟩
        · rcases h with ⟨m, hm, h1, h2⟩
          exact Or.inr ⟨m, by simp [hm], h1, h2⟩
      · rintro (h | ⟨m, hm, h1, h2⟩)
        · exact Or.inl (Finset.mem_union_left _ h)
        · rcases List.mem_cons.mp hm with he | ht
          · subst he
            refine Or.inl (Finset.mem_union_right _ ?_)
            rw [Finset.mem_Ico]
            exact ⟨h1, by omega⟩
          · exact Or.inr ⟨m, ht, h1, h2⟩

theorem sort_eq_of (s : Finset Nat) (l : List Nat) (hs : l.Sorted (· ≤ ·)) (hn : l.Nodup)
    (hm : ∀ x, x ∈ s ↔ x ∈ l) : s.sort (· ≤ ·) = l := by
  apply List.eq_of_perm_of_sorted ?_ (Finset.sort_sorted _ _) hs
  refine (List.perm_ext_iff_of_nodup (Finset.sort_nodup _ _) hn).mpr ?_
  intro a
  rw [Finset.mem_sort]
  exact hm a

theorem filterLogsAfterTail_context (lines : List (List Char)) (lv : String)
    (ws : List (List Char)) (oc : Nat) (c : Int) (mb : Int)
    (hws : levelWords lv = some ws) (hc : c ≠ 0)
    (hne : matchedIndices ws lines ≠ [])
    (hmb : (((List.intercalate ['\n']
        (((expandIndices c lines.length (matchedIndices ws lines)).sort (· ≤ ·)).map
          (fun i => lines.getD i []))).flatMap (fun c => encCp c.toNat)).length : Int) ≤ mb) :
    filterLogsAfterTail oc lines (some lv) (some c) mb =
      ⟨String.mk (List.intercalate ['\n']
          (((expandIndices c lines.length (matchedIndices ws lines)).sort (· ≤ ·)).map
            (fun i => lines.getD i []))), false,
        ⟨((List.intercalate ['\n']
            (((expandIndices c lines.length (matchedIndices ws lines)).sort (· ≤ ·)).map
              (fun i => lines.getD i []))).flatMap (fun c => encCp c.toNat)).length, oc,
          (expandIndices c lines.length (matchedIndices ws lines)).card,
          (matchedIndices ws lines).length⟩⟩ := by
  unfold filterLogsAfterTail
  rw [levelWords_truthy hws]
  have hct : optIntTruthy (some c) = true := by
    simp [optIntTruthy, hc]
  have hnem : (matchedIndices ws lines).isEmpty = false := by
    rw [List.isEmpty_eq_false_iff_exists_mem]
    cases hm : matchedIndices ws lines with
    | nil => exact absurd hm hne
    | cons a t => exact ⟨a, by simp⟩
  simp only [if_true, Option.bind, hws, hct, hnem, Bool.not_false, Bool.true_and,
    if_true, Option.getD_some]
  rw [sizeCap_no_trunc _ mb hmb]
  simp only [List.length_map, Finset.length_sort]

theorem boundary_first_line :
    filterLogs "ERROR z\na\nb\nc\nd\ne\nf\ng" (some "error") (some 5) none 1000 =
      ⟨"ERROR z\na\nb\nc\nd\ne", false, ⟨17, 8, 6, 1⟩⟩ := by
  have hmat : matchedIndices ["ERROR".data, "CRITICAL".data, "FATAL".data, "Exception".data,
      "Traceback".data] (pySplitlines "ERROR z\na\nb\nc\nd\ne\nf\ng".data) = [0] := by decide
  have hlen : (pySplitlines "ERROR z\na\nb\nc\nd\ne\nf\ng".data).length = 8 := by decide
  have hsort : (expandIndices 5 (pySplitlines "ERROR z\na\nb\nc\nd\ne\nf\ng".data).length
      (matchedIndices ["ERROR".data, "CRITICAL".data, "FATAL".data, "Exception".data,
        "Traceback".data] (pySplitlines "ERROR z\na\nb\nc\nd\ne\nf\ng".data))).sort (· ≤ ·) =
      [0, 1, 2, 3, 4, 5] := by
    rw [hmat, hlen]
    refine sort_eq_of _ _ (by decide) (by decide) ?_
    intro x
    rw [mem_expandIndices]
    simp
    omega
  have hmb : (((List.intercalate ['\n']
      (((expandIndices 5 (pySplitlines "ERROR z\na\nb\nc\nd\ne\nf\ng".data).length
          (matchedIndices ["ERROR".data, "CRITICAL".data, "FATAL".data, "Exception".data,
            "Traceback".data] (pySplitlines "ERROR z\na\nb\nc\nd\ne\nf\ng".data))).sort
        (· ≤ ·)).map (fun i => (pySplitlines "ERROR z\na\nb\nc\nd\ne\nf\ng".data).getD i
          []))).flatMap (fun c => encCp c.toNat)).length : Int) ≤ 1000 := by
    rw [hsort]
    decide
  rw [filterLogs_none]
  rw [filterLogsAfterTail_context (pySplitlines "ERROR z\na\nb\nc\nd\ne\nf\ng".data) "error"
    ["ERROR".data, "CRITICAL".data, "FATAL".data, "Exception".data, "Traceback".data]
    (pySplitlines "ERROR z\na\nb\nc\nd\ne\nf\ng".data).length 5 1000 rfl (by decide)
    (by rw [hmat]; decide) hmb]
  rw [hsort]
  decide

theorem boundary_last_line :
    filterLogs "a\nb\nc\nd\ne\nf\ng\nERROR z" (some "error") (some 5) none 1000 =
      ⟨"c\nd\ne\nf\ng\nERROR z", false, ⟨17, 8, 6, 1⟩⟩ := by
  have hmat : matchedIndices ["ERROR".data, "CRITICAL".data, "FATAL".data, "Exception".data,
      "Traceback".data] (pySplitlines "a\nb\nc\nd\ne\nf\ng\nERROR z".data) = [7] := by decide
  have hlen : (pySplitlines "a\nb\nc\nd\ne\nf\ng\nERROR z".data).length = 8 := by decide
  have hsort : (expandIndices 5 (pySplitlines "a\nb\nc\nd\ne\nf\ng\nERROR z".data).length
      (matchedIndices ["ERROR".data, "CRITICAL".data, "FATAL".data, "Exception".data,
        "Traceback".data] (pySplitlines "a\nb\nc\nd\ne\nf\ng\nERROR z".data))).sort (· ≤ ·) =
      [2, 3, 4, 5, 6, 7] := by
    rw [hmat, hlen]
    refine sort_eq_of _ _ (by decide) (by decide) ?_
    intro x
    rw [mem_expandIndices]
    simp
    omega
  have hmb : (((List.intercalate ['\n']
      (((expandIndices 5 (pySplitlines "a\nb\nc\nd\ne\nf\ng\nERROR z".data).length
          (matchedIndices ["ERROR".data, "CRITICAL".data, "FATAL".data, "Exception".data,
            "Traceback".data] (pySplitlines "a\nb\nc\nd\ne\nf\ng\nERROR z".data))).sort
        (· ≤ ·)).map (fun i => (pySplitlines "a\nb\nc\nd\ne\nf\ng\nERROR z".data).getD i
          []))).flatMap (fun c => encCp c.toNat)).length : Int) ≤ 1000 := by
    rw [hsort]
    decide
  rw [filterLogs_none]
  rw [filterLogsAfterTail_context (pySplitlines "a\nb\nc\nd\ne\nf\ng\nERROR z".data) "error"
    ["ERROR".data, "CRITICAL".data, "FATAL".data, "Exception".data, "Traceback".data]
    (pySplitlines "a\nb\nc\nd\ne\nf\ng\nERROR z".data).length 5 1000 rfl (by decide)
    (by rw [hmat]; decide) hmb]
  rw [hsort]
  decide

/-- C4: context expansion.  The expansion index set is exactly the union
    of the clamped symmetric windows around the matches; its sorted
    listing is ascending and duplicate-free; the filter output under a
    positive context is exactly those lines in ascending index order; a
    match at line 0 with five context lines yields the first six lines
    with no out-of-range failure and a match at the last line yields the
    mirror; with no match or a zero context no expansion happens. -/
theorem context_expansion_exact :
    (∀ (c : Int) (n : Nat) (matched : List Nat) (i : Nat),
        i ∈ expandIndices c n matched ↔
          ∃ m ∈ matched, (max 0 ((m : Int) - c)).toNat ≤ i ∧
            (i : Int) < min (n : Int) ((m : Int) + c + 1)) ∧
    (∀ (c : Int) (n : Nat) (matched : List Nat),
        ((expandIndices c n matched).sort (· ≤ ·)).Sorted (· ≤ ·) ∧
          ((expandIndices c n matched).sort (· ≤ ·)).Nodup) ∧
    (∀ (raw : String) (lv : String) (ws : List (List Char)) (c mb : Int),
        levelWords lv = some ws → c ≠ 0 →
        matchedIndices ws (pySplitlines raw.data) ≠ [] →
        (((List.intercalate ['\n']
            (((expandIndices c (pySplitlines raw.data).length
                (matchedIndices ws (pySplitlines raw.data))).sort (· ≤ ·)).map
              (fun i => (pySplitlines raw.data).getD i []))).flatMap
            (fun c => encCp c.toNat)).length : Int) ≤ mb →
        (filterLogs raw (some lv) (some c) none mb).text =
          String.mk (List.intercalate ['\n']
            (((expandIndices c (pySplitlines raw.data).length
                (matchedIndices ws (pySplitlines raw.data))).sort (· ≤ ·)).map
              (fun i => (pySplitlines raw.data).getD i []))) ∧
        (filterLogs raw (some lv) (some c) none mb).stats.returned_lines =
          (expandIndices c (pySplitlines raw.data).length
            (matchedIndices ws (pySplitlines raw.data))).card) ∧
    (filterLogs "ERROR z\na\nb\nc\nd\ne\nf\ng" (some "error") (some 5) none 1000).text =
      "ERROR z\na\nb\nc\nd\ne" ∧
    (filterLogs "ERROR z\na\nb\nc\nd\ne\nf\ng" (some "error") (some 5) none
        1000).stats.returned_lines = 6 ∧
    (filterLogs "a\nb\nc\nd\ne\nf\ng\nERROR z" (some "error") (some 5) none 1000).text =
      "c\nd\ne\nf\ng\nERROR z" ∧
    (filterLogs "a\nb\nc\nd\ne\nf\ng\nERROR z" (some "error") (some 5) none
        1000).stats.returned_lines = 6 ∧
    (∀ (raw : String) (lv : Option String) (tail : Option Int) (mb : Int),
        filterLogs raw lv (some 0) tail mb = filterLogs raw lv none tail mb) := by
  refine ⟨mem_expandIndices, ?_, ?_, by rw [boundary_first_line], by rw [boundary_first_line],
    by rw [boundary_last_line], by rw [boundary_last_line], ?_⟩
  · intro c n matched
    exact ⟨Finset.sort_sorted _ _, Finset.sort_nodup _ _⟩
  · intro raw lv ws c mb hws hc hne hmb
    rw [filterLogs_none]
    rw [filterLogsAfterTail_context (pySplitlines raw.data) lv ws
      (pySplitlines raw.data).length c mb hws hc hne hmb]
    exact ⟨rfl, rfl⟩
  · intro raw lv tail mb
    have hafter : ∀ oc lines,
        filterLogsAfterTail oc lines lv (some 0) mb = filterLogsAfterTail oc lines lv none mb := by
      intro oc lines
      unfold filterLogsAfterTail
      cases hws : (if optStrTruthy lv then lv else none).bind levelWords with
      | none => rfl
      | some ws =>
          simp only [optIntTruthy]
          rfl
    cases tail with
    | none =>
        rw [filterLogs_none, filterLogs_none]
        exact hafter _ _
    | some t =>
        by_cases ht0 : 0 ≤ t
        · by_cases ht1 : t = 0
          · subst ht1
            rw [filterLogs_some_zero, filterLogs_some_zero]
          · rw [filterLogs_some_pos raw lv (some 0) mb t ht0 ht1,
              filterLogs_some_pos raw lv none mb t ht0 ht1]
            exact hafter _ _
        · rw [filterLogs_some_neg raw lv (some 0) mb t ht0,
            filterLogs_some_neg raw lv none mb t ht0]
          exact hafter _ _

/-- Witness for C4 at a concrete input with two overlapping windows. -/
theorem context_expansion_exact_witness :
    (filterLogs "ERROR a\nx\nERROR b\ny\nz" (some "error") (some 1) none 1000).text =
        String.mk (List.intercalate ['\n']
          (((expandIndices 1 (pySplitlines "ERROR a\nx\nERROR b\ny\nz".data).length
              (matchedIndices ["ERROR".data, "CRITICAL".data, "FATAL".data,
                "Exception".data, "Traceback".data]
                (pySplitlines "ERROR a\nx\nERROR b\ny\nz".data))).sort (· ≤ ·)).map
            (fun i => (pySplitlines "ERROR a\nx\nERROR b\ny\nz".data).getD i []))) := by
  have hmat : matchedIndices ["ERROR".data, "CRITICAL".data, "FATAL".data, "Exception".data,
      "Traceback".data] (pySplitlines "ERROR a\nx\nERROR b\ny\nz".data) = [0, 2] := by decide
  have hlen : (pySplitlines "ERROR a\nx\nERROR b\ny\nz".data).length = 5 := by decide
  have hsort : (expandIndices 1 (pySplitlines "ERROR a\nx\nERROR b\ny\nz".data).length
      (matchedIndices ["ERROR".data, "CRITICAL".data, "FATAL".data, "Exception".data,
        "Traceback".data] (pySplitlines "ERROR a\nx\nERROR b\ny\nz".data))).sort (· ≤ ·) =
      [0, 1, 2, 3] := by
    rw [hmat, hlen]
    refine sort_eq_of _ _ (by decide) (by decide) ?_
    intro x
    rw [mem_expandIndices]
    simp
    omega
  have h := (context_expansion_exact).2.2.1 "ERROR a\nx\nERROR b\ny\nz" "error"
    ["ERROR".data, "CRITICAL".data, "FATAL".data, "Exception".data, "Traceback".data]
    1 1000 (by decide) (by decide) (by rw [hmat]; decide) (by rw [hsort]; decide)
  exact h.1

theorem intercalate_pair (sep a b : List Char) :
    List.intercalate sep [a, b] = a ++ sep ++ b := by
  simp [List.intercalate]

theorem intercalate_cons₂ (sep x y : List Char) (t : List (List Char)) :
    List.intercalate sep (x :: y :: t) = x ++ sep ++ List.intercalate sep (y :: t) := by
  simp [List.intercalate]

theorem intercalate_append₂ (sep : List Char) : ∀ (xs ys : List (List Char)),
    xs ≠ [] → ys ≠ [] →
    List.intercalate sep (xs ++ ys) =
      List.intercalate sep xs ++ sep ++ List.intercalate sep ys := by
  intro xs
  induction xs with
  | nil => intro ys h _; exact absurd rfl h
  | cons x xt ih =>
      intro ys _ hys
      cases xt with
      | nil =>
          cases ys with
          | nil => exact absurd rfl hys
          | cons y yt =>
              rw [List.singleton_append, intercalate_cons₂, intercalate_single]
      | cons x2 xt2 =>
          rw [List.cons_append, List.cons_append, intercalate_cons₂ sep x x2 (xt2 ++ ys)]
          rw [show (x2 :: (xt2 ++ ys)) = (x2 :: xt2) ++ ys from by rw [List.cons_append]]
          rw [ih ys (by simp) hys]
          rw [intercalate_cons₂ sep x x2 xt2]
          simp [List.append_assoc]

theorem intercalate_segLines (s : Option String × String) :
    List.intercalate ['\n'] (segLines s) = segPart s := by
  unfold segLines segPart
  by_cases h : s.2.isEmpty
  · simp [h, List.intercalate]
  · simp only [h, Bool.false_eq_true, if_false, List.singleton_append]
    rw [intercalate_pair]
    simp [List.append_assoc]

theorem segLines_ne_nil (s : Option String × String) : segLines s ≠ [] := by
  unfold segLines
  simp

theorem enumFrom_flatMap_parts : ∀ (rest : List (Option String × String)) (n : Nat), n ≠ 0 →
    (List.enumFrom n rest).flatMap (fun p =>
        (if p.1 ≠ 0 then [([] : List Char)] else []) ++ segLines p.2) =
      rest.flatMap (fun s => [([] : List Char)] ++ segLines s) := by
  intro rest
  induction rest with
  | nil => intro n _; rfl
  | cons s t ih =>
      intro n hn
      rw [show List.enumFrom n (s :: t) = (n, s) :: List.enumFrom (n + 1) t from rfl]
      rw [List.flatMap_cons, List.flatMap_cons, ih (n + 1) (by omega)]
      simp [hn]

theorem join_parts : ∀ (rest : List (Option String × String)) (s0 : Option String × String),
    List.intercalate ['\n'] (segLines s0 ++ rest.flatMap
        (fun s => [([] : List Char)] ++ segLines s)) =
      List.intercalate ['\n', '\n'] ((s0 :: rest).map segPart) := by
  intro rest
  induction rest with
  | nil =>
      intro s0
      simp only [List.flatMap_nil, List.append_nil, List.map_cons, List.map_nil]
      rw [intercalate_segLines, intercalate_single]
  | cons s1 t ih =>
      intro s0
      have h1 : segLines s0 ++ ((s1 :: t).flatMap (fun s => [([] : List Char)] ++ segLines s)) =
          segLines s0 ++ ([([] : List Char)] ++ (segLines s1 ++ t.flatMap
            (fun s => [([] : List Char)] ++ segLines s))) := by
        rw [List.flatMap_cons]
        simp [List.append_assoc]
      rw [h1]
      rw [intercalate_append₂ ['\n'] (segLines s0) _ (segLines_ne_nil s0) (by simp)]
      rw [intercalate_append₂ ['\n'] [([] : List Char)] _ (by simp)
        (by simp [segLines_ne_nil s1])]
      rw [intercalate_single, ih s1, intercalate_segLines s0]
      simp only [List.map_cons]
      rw [intercalate_cons₂ ['\n', '\n'] (segPart s0) (segPart s1) (List.map segPart t)]
      simp [List.append_assoc]

theorem flatten_formula (segs : List (Option String × String)) :
    flattenLogSegments segs =
      String.mk (stripNlBoth (List.intercalate ['\n', '\n'] (segs.map segPart))) := by
  unfold flattenLogSegments
  cases segs with
  | nil => rfl
  | cons s0 rest =>
      have hparts : (s0 :: rest).enum.flatMap (fun p =>
          (if p.1 ≠ 0 then [([] : List Char)] else []) ++ segLines p.2) =
          segLines s0 ++ rest.flatMap (fun s => [([] : List Char)] ++ segLines s) := by
        rw [show (s0 :: rest).enum = (0, s0) :: List.enumFrom 1 rest from rfl]
        rw [List.flatMap_cons, enumFrom_flatMap_parts rest 1 (by omega)]
        simp
      simp only [hparts]
      rw [join_parts rest s0]

/-- C6: host-segmented normalization.  Flattening a list of (host, text)
    pairs produces the divider line with the normalized host before each
    segment text, consecutive segments separated by a single blank line,
    with unknown-host substituted for an absent or empty host; the
    string-shaped input is detected by the cheap prefix check and parsed
    exception-safely, falling back to the raw text whenever the
    structural parse fails; the concrete scenario flattens as claimed. -/
theorem host_segmented_normalization :
    (∀ segs, flattenLogSegments segs =
        String.mk (stripNlBoth (List.intercalate ['\n', '\n'] (segs.map segPart)))) ∧
    normalizeLogHost none = "unknown-host" ∧
    normalizeLogHost (some "") = "unknown-host" ∧
    (∀ segs, coerceLogText (LogResponse.segments segs) = flattenLogSegments segs) ∧
    (∀ s : String, parseSegsRepr s = none → coerceLogText (LogResponse.text s) = s) ∧
    (∀ s : String, (stripBoth pyIsSpaceCh s.data).take 3 ≠ "[(\x27".data →
        coerceLogText (LogResponse.text s) = s) ∧
    flattenLogSegments [(some "h1", "A\nB"), (some "", "C")] =
      "--- [h1] ---\nA\nB\n\n--- [unknown-host] ---\nC" ∧
    coerceLogText (LogResponse.text "[(\x27h1\x27, \x27A\\nB\x27), (\x27\x27, \x27C\x27)]") =
      "--- [h1] ---\nA\nB\n\n--- [unknown-host] ---\nC" ∧
    coerceLogText (LogResponse.text "[(\x27broken") = "[(\x27broken" := by
  refine ⟨flatten_formula, rfl, by decide, fun segs => rfl, ?_, ?_, by decide, by decide,
    by decide⟩
  · intro s hp
    show (if (stripBoth pyIsSpaceCh s.data).take 3 = "[(\x27".data then
        match parseSegsRepr s with
        | some segs => flattenLogSegments segs
        | none => s
      else s) = s
    split
    · rw [hp]
    · rfl
  · intro s hp
    show (if (stripBoth pyIsSpaceCh s.data).take 3 = "[(\x27".data then
        match parseSegsRepr s with
        | some segs => flattenLogSegments segs
        | none => s
      else s) = s
    rw [if_neg hp]

/-- Witness for C6: the exception-safe fallback applied at a concrete
    malformed repr string, and the prefix check at a plain string. -/
theorem host_segmented_normalization_witness :
    coerceLogText (LogResponse.text "[(\x27zz, oops") = "[(\x27zz, oops" ∧
      coerceLogText (LogResponse.text "plain text") = "plain text" := by
  constructor
  · exact (host_segmented_normalization).2.2.2.2.1 "[(\x27zz, oops" (by decide)
  · exact (host_segmented_normalization).2.2.2.2.2.1 "plain text" (by decide)

theorem parseRoute_eq_specRouteTable :
    ∀ (segments : List (List Char)) (query : List (String × String)),
      parseRoute segments query = specRouteTable segments query := by
  intro segments query
  rcases segments with _ | ⟨s0, _ | ⟨s1, rest⟩⟩
  · rfl
  · rfl
  by_cases h0 : s0 = "dags".data
  · subst h0
    cases rest with
    | nil => rfl
    | cons s2 rest2 =>
        by_cases hgrid : s2 = "grid".data
        · subst hgrid; simp +decide [parseRoute, specRouteTable]
        by_cases hgraph : s2 = "graph".data
        · subst hgraph; simp +decide [parseRoute, specRouteTable]
        by_cases hdr : s2 = "dagRuns".data
        · subst hdr
          cases rest2 with
          | nil => rfl
          | cons s3 rest3 =>
              rcases rest3 with _ | ⟨a, _ | ⟨b, _ | ⟨c, _ | ⟨d, rest4⟩⟩⟩⟩
              · rfl
              · rfl
              · rfl
              · rfl
              by_cases htl : a = "taskInstances".data ∧ c = "logs".data
              · obtain ⟨rfl, rfl⟩ := htl
                simp +decide [parseRoute, specRouteTable]
              · simp +decide [parseRoute, specRouteTable, htl]
        by_cases htask : s2 = "task".data
        · subst htask; simp +decide [parseRoute, specRouteTable]
        · simp +decide [parseRoute, specRouteTable, hgrid, hgraph, hdr, htask]
  · simp [parseRoute, specRouteTable, h0]

/-- Counterexample to C8: under a known host an over-long grid path
    still selects the grid route instead of falling to unknown, and a
    two-segment dags path yields route unknown with a non-null dag id. -/
theorem path_table_not_exact :
    parse_airflow_ui_url demoReg "https://stg.example.com/dags/d1/grid/extra" =
      Except.ok ⟨"stg", "grid", some "d1", none, none, none⟩ ∧
    parse_airflow_ui_url demoReg "https://stg.example.com/dags/d1" =
      Except.ok ⟨"stg", "unknown", some "d1", none, none, none⟩ := by decide

/-- C8 (amended): the route dispatch agrees on every input with the
    minimum-count table specRouteTable — a row is selected by a minimum
    segment count and keyword match at fixed positions, extra trailing
    segments being ignored — and an unmatched shape under the dags
    prefix keeps the validated dag id while shapes outside it yield
    unknown with all identifiers null; concrete consequences under a
    known host. -/
theorem path_table_min_count :
    (∀ segments query, parseRoute segments query = specRouteTable segments query) ∧
    parse_airflow_ui_url demoReg "https://stg.example.com/dags/d1/grid/x/y" =
      Except.ok ⟨"stg", "grid", some "d1", none, none, none⟩ ∧
    parse_airflow_ui_url demoReg "https://stg.example.com/dags/d1/unknownthing" =
      Except.ok ⟨"stg", "unknown", some "d1", none, none, none⟩ ∧
    parse_airflow_ui_url demoReg "https://stg.example.com/x/y/z" =
      Except.ok ⟨"stg", "unknown", none, none, none, none⟩ :=
  ⟨parseRoute_eq_specRouteTable, by decide, by decide, by decide⟩

/-- Witness for C8: the table agreement applied at concrete segments. -/
theorem path_table_min_count_witness :
    parseRoute ["dags".data, "d9".data, "graph".data, "zz".data] [] =
      specRouteTable ["dags".data, "d9".data, "graph".data, "zz".data] [] :=
  path_table_min_count.1 _ _

theorem encCp_lt (n : Nat) (hv : n < 0x110000) : ∀ b ∈ encCp n, b < 256 := by
  intro b hb
  unfold encCp at hb
  split at hb
  · simp at hb
    omega
  · split at hb
    · simp at hb
      rcases hb with hb | hb <;> omega
    · split at hb
      · simp at hb
        rcases hb with hb | hb | hb <;> omega
      · simp at hb
        rcases hb with hb | hb | hb | hb <;> omega

theorem isValid_lt (n : Nat) (hv : Nat.isValidChar n) : n < 0x110000 := by
  rcases hv with hv | hv <;> omega

theorem hex_digit_facts :
    ∀ x < 16, isHexCh (hexDigitU x) = true ∧ hexVal (hexDigitU x) = x := by decide

set_option maxRecDepth 4000 in
theorem quoteSafe_facts : ∀ b < 256, quoteSafeByte b = true → b ≠ 37 ∧ b < 0x80 := by decide

theorem unqTokens_cons_nonpct (c : Char) (t : List Char) (hc : c ≠ '%')
    (hle : c.toNat ≤ 0x7F) :
    unqTokens (c :: t) = UnqTok.byte c.toNat :: unqTokens t := by
  rw [unqTokens.eq_def]
  split
  · rename_i heq
    exact absurd heq (by simp)
  · rename_i c1 c2 t2 heq
    injection heq with h1 h2
    exact absurd h1 hc
  · rename_i c2 t2 heq
    injection heq with h1 h2
    subst h1
    subst h2
    rw [if_pos hle]

theorem unqTokens_pct (c1 c2 : Char) (t : List Char)
    (hh : (isHexCh c1 && isHexCh c2) = true) :
    unqTokens ('%' :: c1 :: c2 :: t) =
      UnqTok.byte (hexVal c1 * 16 + hexVal c2) :: unqTokens t := by
  show (if (isHexCh c1 && isHexCh c2) = true
      then UnqTok.byte (hexVal c1 * 16 + hexVal c2) :: unqTokens t
      else UnqTok.byte 37 :: unqTokens (c1 :: c2 :: t)) =
    UnqTok.byte (hexVal c1 * 16 + hexVal c2) :: unqTokens t
  rw [if_pos hh]

theorem unqTokens_quoteByte (b : Nat) (hb : b < 256) (rest : List Char) :
    unqTokens (quoteByte b ++ rest) = UnqTok.byte b :: unqTokens rest := by
  by_cases hsafe : quoteSafeByte b = true
  · have hfacts := quoteSafe_facts b hb hsafe
    have hvb : Nat.isValidChar b := Or.inl (by omega)
    have h1 : quoteByte b = [Char.ofNat b] := by
      unfold quoteByte
      rw [if_pos hsafe]
    rw [h1, List.singleton_append,
      unqTokens_cons_nonpct (Char.ofNat b) rest
        (fun he => hfacts.1 (by
          have := congrArg Char.toNat he
          rw [toNat_ofNat_valid hvb] at this
          exact this))
        (by rw [toNat_ofNat_valid hvb]; omega),
      toNat_ofNat_valid hvb]
  · have h1 : quoteByte b = ['%', hexDigitU (b / 16), hexDigitU (b % 16)] := by
      unfold quoteByte
      rw [if_neg hsafe]
    have hq : b / 16 < 16 := by omega
    have hr : b % 16 < 16 := by omega
    rw [h1, List.cons_append, List.cons_append, List.cons_append, List.nil_append,
      unqTokens_pct _ _ _ (by
        rw [(hex_digit_facts _ hq).1, (hex_digit_facts _ hr).1]; rfl),
      (hex_digit_facts _ hq).2, (hex_digit_facts _ hr).2]
    have : b / 16 * 16 + b % 16 = b := by omega
    rw [this]

theorem unqTokens_flatMap_quoteByte :
    ∀ (bs : List Nat), (∀ b ∈ bs, b < 256) →
      unqTokens (bs.flatMap quoteByte) = bs.map UnqTok.byte := by
  intro bs
  induction bs with
  | nil => intro _; rfl
  | cons b t ih =>
      intro hlt
      rw [List.flatMap_cons, unqTokens_quoteByte b (hlt b (by simp)),
        ih (fun x hx => hlt x (by simp [hx])), List.map_cons]

theorem unqDetok_bytes : ∀ (bs : List Nat) (acc : List Nat),
    unqDetok acc (bs.map UnqTok.byte) = decodeUtf8 true (acc ++ bs) := by
  intro bs
  induction bs with
  | nil => intro acc; rw [List.map_nil, List.append_nil]; rfl
  | cons b t ih =>
      intro acc
      rw [List.map_cons]
      show unqDetok (acc ++ [b]) (t.map UnqTok.byte) = decodeUtf8 true (acc ++ b :: t)
      rw [ih (acc ++ [b]), List.append_assoc, List.singleton_append]

theorem decodeUtf8_flatMap_enc (l : List Char) :
    decodeUtf8 true (l.flatMap (fun c => encCp c.toNat)) = l := by
  unfold decodeUtf8
  rw [utf8Run_bindEnc]
  simp

theorem unquote_quote (l : List Char) : unquoteChars (quoteChars l) = l := by
  unfold unquoteChars quoteChars
  rw [unqTokens_flatMap_quoteByte _ (fun b hb => by
    rw [List.mem_flatMap] at hb
    obtain ⟨c, _, hbc⟩ := hb
    exact encCp_lt c.toNat (isValid_lt _ (charToNat_isValid c)) b hbc)]
  rw [unqDetok_bytes _ [], List.nil_append]
  exact decodeUtf8_flatMap_enc l

set_option maxRecDepth 4000 in
theorem quoteByte_charset : ∀ b < 256, ∀ c ∈ quoteByte b,
    (isAlnumCh c || c = '_' || c = '.' || c = '-' || c = '~' || c = '%') = true := by decide

theorem mem_quoteChars (l : List Char) (c : Char) (hc : c ∈ quoteChars l) :
    (isAlnumCh c || c = '_' || c = '.' || c = '-' || c = '~' || c = '%') = true := by
  unfold quoteChars at hc
  rw [List.mem_flatMap] at hc
  obtain ⟨b, hb, hcb⟩ := hc
  rw [List.mem_flatMap] at hb
  obtain ⟨d, _, hbd⟩ := hb
  exact quoteByte_charset b (encCp_lt d.toNat (isValid_lt _ (charToNat_isValid d)) b hbd) c hcb

theorem quote_not_special (l : List Char) (d : Char)
    (hd : (isAlnumCh d || d = '_' || d = '.' || d = '-' || d = '~' || d = '%') = false) :
    d ∉ quoteChars l := by
  intro hm
  rw [mem_quoteChars l d hm] at hd
  cases hd

theorem encCp_ne_nil (n : Nat) : encCp n ≠ [] := by
  unfold encCp
  split
  · simp
  · split
    · simp
    · split <;> simp

theorem quoteByte_ne_nil (b : Nat) : quoteByte b ≠ [] := by
  unfold quoteByte
  split <;> simp

theorem quoteChars_ne_nil (l : List Char) (h : l ≠ []) : quoteChars l ≠ [] := by
  cases l with
  | nil => exact absurd rfl h
  | cons c t =>
      unfold quoteChars
      rw [List.flatMap_cons]
      rcases henc : encCp c.toNat with _ | ⟨b0, bs⟩
      · exact absurd henc (encCp_ne_nil _)
      · rw [List.cons_append, List.flatMap_cons]
        intro hco
        rw [List.append_eq_nil] at hco
        exact quoteByte_ne_nil b0 hco.1

theorem splitFirst_append (sep : Char) : ∀ (a b : List Char), sep ∉ a →
    splitFirst sep (a ++ sep :: b) = some (a, b) := by
  intro a
  induction a with
  | nil =>
      intro b _
      rw [List.nil_append]
      show (if sep = sep then some ([], b)
        else (splitFirst sep b).map (fun p => (sep :: p.1, p.2))) = some ([], b)
      rw [if_pos rfl]
  | cons c t ih =>
      intro b hna
      have hc : ¬(c = sep) := fun he => hna (by simp [he])
      rw [List.cons_append]
      show (if c = sep then some ([], t ++ sep :: b)
        else (splitFirst sep (t ++ sep :: b)).map (fun p => (c :: p.1, p.2))) = some (c :: t, b)
      rw [if_neg hc, ih b (fun hm => hna (by simp [hm]))]
      rfl

theorem splitAll_no_sep (sep : Char) : ∀ (a : List Char), sep ∉ a → splitAll sep a = [a] := by
  intro a
  induction a with
  | nil => intro _; rfl
  | cons c t ih =>
      intro hna
      have hc : ¬(c = sep) := fun he => hna (by simp [he])
      show (if c = sep then [] :: splitAll sep t
        else match splitAll sep t with
          | [] => [[c]]
          | h :: r => (c :: h) :: r) = [c :: t]
      rw [if_neg hc, ih (fun hm => hna (by simp [hm]))]

theorem splitAll_append (sep : Char) : ∀ (a b : List Char), sep ∉ a →
    splitAll sep (a ++ sep :: b) = a :: splitAll sep b := by
  intro a
  induction a with
  | nil =>
      intro b _
      rw [List.nil_append]
      show (if sep = sep then [] :: splitAll sep b
        else match splitAll sep b with
          | [] => [[sep]]
          | h :: r => (sep :: h) :: r) = [] :: splitAll sep b
      rw [if_pos rfl]
  | cons c t ih =>
      intro b hna
      have hc : ¬(c = sep) := fun he => hna (by simp [he])
      rw [List.cons_append]
      show (if c = sep then [] :: splitAll sep (t ++ sep :: b)
        else match splitAll sep (t ++ sep :: b) with
          | [] => [[c]]
          | h :: r => (c :: h) :: r) = (c :: t) :: splitAll sep b
      rw [if_neg hc, ih b (fun hm => hna (by simp [hm]))]

theorem dropWhile_eq_self_of (p : Char → Bool) (l : List Char)
    (h : ∀ c ∈ l, p c = false) : l.dropWhile p = l := by
  cases l with
  | nil => rfl
  | cons c t =>
      rw [List.dropWhile_cons, h c (by simp)]
      simp

theorem takeUntilAny_append (ds : List Char) (a : List Char) (d : Char) (b : List Char)
    (ha : ∀ c ∈ a, ds.contains c = false) (hd : ds.contains d = true) :
    takeUntilAny ds (a ++ d :: b) = a ∧ dropUntilAny ds (a ++ d :: b) = d :: b := by
  constructor
  · unfold takeUntilAny
    rw [List.takeWhile_append, List.takeWhile_eq_self_iff.mpr (fun c hc => by
      rw [ha c hc]; rfl)]
    rw [if_pos rfl, List.takeWhile_cons, hd]
    simp
  · unfold dropUntilAny
    rw [List.dropWhile_append, List.dropWhile_eq_nil_iff.mpr (fun c hc => by
      rw [ha c hc]; rfl)]
    rw [show (([] : List Char).isEmpty = true) from rfl, if_pos rfl,
      List.dropWhile_cons, hd]
    simp

theorem stripBoth_eq_self (p : Char → Bool) (l : List Char)
    (h : ∀ c ∈ l, p c = false) : stripBoth p l = l := by
  unfold stripBoth
  rw [dropWhile_eq_self_of p l h,
    dropWhile_eq_self_of p l.reverse (fun c hc => h c (List.mem_reverse.mp hc)),
    List.reverse_reverse]

theorem rstripSlash_append (x netloc : List Char) (h1 : netloc ≠ [])
    (h2 : ∀ c ∈ netloc, ¬(c = '/')) : rstripSlash (x ++ netloc) = x ++ netloc := by
  unfold rstripSlash dropTrail
  rw [List.reverse_append]
  rcases hrev : netloc.reverse with _ | ⟨c, t⟩
  · exact absurd (by simpa using congrArg List.reverse hrev) h1
  · have hcm : c ∈ netloc := by
      rw [← List.mem_reverse, hrev]
      simp
    rw [List.cons_append, List.dropWhile_cons]
    have : (decide (c = '/')) = false := by
      simp [h2 c hcm]
    rw [this]
    simp only [Bool.false_eq_true, if_false]
    rw [← List.cons_append, ← hrev, ← List.reverse_append, List.reverse_reverse]

theorem digitsVal_append (a : List Char) (c : Char) :
    digitsVal (a ++ [c]) = digitsVal a * 10 + (c.toNat - 48) := by
  unfold digitsVal
  rw [List.foldl_append]
  rfl

theorem natStrAux_digits : ∀ (fuel n : Nat), ∀ c ∈ natStrAux fuel n, isDigitCh c = true := by
  intro fuel
  induction fuel with
  | zero => intro n c hc; exact absurd hc (by simp [natStrAux])
  | succ f ih =>
      intro n c hc
      unfold natStrAux at hc
      split at hc
      · cases hc
      · rw [List.mem_append] at hc
        rcases hc with hc | hc
        · exact ih (n / 10) c hc
        · simp only [List.mem_singleton] at hc
          subst hc
          have hv : Nat.isValidChar (48 + n % 10) := Or.inl (by omega)
          unfold isDigitCh
          rw [toNat_ofNat_valid hv]
          have hm : n % 10 < 10 := Nat.mod_lt _ (by omega)
          simp only [Bool.and_eq_true, decide_eq_true_eq]
          omega

theorem natStrAux_val : ∀ (fuel n : Nat), n < 10 ^ fuel →
    digitsVal (natStrAux fuel n) = n := by
  intro fuel
  induction fuel with
  | zero =>
      intro n h
      rw [pow_zero] at h
      have h0 : n = 0 := by omega
      subst h0
      rfl
  | succ f ih =>
      intro n h
      unfold natStrAux
      split
      · rename_i h0
        simp [digitsVal, h0]
      · rename_i h0
        rw [digitsVal_append, ih (n / 10) (by rw [pow_succ] at h; omega)]
        have hv : Nat.isValidChar (48 + n % 10) := Or.inl (by omega)
        rw [toNat_ofNat_valid hv]
        omega

theorem natStr_facts (n : Nat) : natStr n ≠ [] ∧ (∀ c ∈ natStr n, isDigitCh c = true) ∧
    digitsVal (natStr n) = n := by
  unfold natStr
  split
  · rename_i h0
    subst h0
    exact ⟨by simp, by decide, by decide⟩
  · rename_i h0
    have hlt : n < 10 ^ (n + 1) := by
      calc n < 10 ^ n := Nat.lt_pow_self (by omega) n
        _ ≤ 10 ^ (n + 1) := Nat.pow_le_pow_right (by omega) (by omega)
    refine ⟨?_, natStrAux_digits _ _, natStrAux_val _ _ hlt⟩
    unfold natStrAux
    rw [if_neg h0]
    simp

theorem digit_not_space (c : Char) (h : isDigitCh c = true) : pyIsSpaceCh c = false := by
  unfold isDigitCh at h
  rw [Bool.and_eq_true, decide_eq_true_eq, decide_eq_true_eq] at h
  unfold pyIsSpaceCh
  rw [Bool.eq_false_iff]
  intro hc
  simp only [Bool.or_eq_true, decide_eq_true_eq] at hc
  rcases hc with ((((((((((hc | hc) | hc) | hc) | hc) | hc) | hc) | hc) | hc) | hc) | hc)
  · subst hc; exact absurd h (by decide)
  · subst hc; exact absurd h (by decide)
  · subst hc; exact absurd h (by decide)
  · subst hc; exact absurd h (by decide)
  all_goals omega

theorem pyInt_digits (l : List Char) (hne : l ≠ []) (hd : ∀ c ∈ l, isDigitCh c = true) :
    pyInt l = some ((digitsVal l : Int)) := by
  have hstrip : stripBoth pyIsSpaceCh l = l :=
    stripBoth_eq_self _ _ (fun c hc => digit_not_space c (hd c hc))
  cases l with
  | nil => exact absurd rfl hne
  | cons c t =>
      unfold pyInt
      rw [hstrip]
      split
      · rename_i t2 heq
        injection heq with h1 h2
        subst h1
        exact absurd (hd '-' (by simp)) (by decide)
      · rename_i t2 heq
        injection heq with h1 h2
        subst h1
        exact absurd (hd '+' (by simp)) (by decide)
      · rw [if_pos (by
          rw [Bool.and_eq_true]
          exact ⟨by simp, List.all_eq_true.mpr (fun x hx => hd x hx)⟩)]

theorem pyInt_intStr (i : Int) : pyInt (intStr i) = some i := by
  obtain ⟨hne, hdig, hval⟩ := natStr_facts i.natAbs
  unfold intStr
  split
  · rename_i hneg
    have hstrip : stripBoth pyIsSpaceCh ('-' :: natStr i.natAbs) = '-' :: natStr i.natAbs :=
      stripBoth_eq_self _ _ (fun c hc => by
        rcases List.mem_cons.mp hc with hc | hc
        · subst hc; decide
        · exact digit_not_space c (hdig c hc))
    unfold pyInt
    rw [hstrip]
    show (if (decide (natStr i.natAbs ≠ []) && (natStr i.natAbs).all isDigitCh) = true
      then some (-(digitsVal (natStr i.natAbs) : Int)) else none) = some i
    rw [if_pos (by
      rw [Bool.and_eq_true]
      exact ⟨by simp [hne], List.all_eq_true.mpr (fun x hx => hdig x hx)⟩)]
    rw [hval]
    have hi : -((i.natAbs : Int)) = i := by omega
    rw [hi]
  · rename_i hpos
    rw [pyInt_digits (natStr i.natAbs) hne hdig, hval]
    have hi : ((i.natAbs : Int)) = i := by omega
    rw [hi]

theorem netlocset_ne {c : Char}
    (hc : (isAlnumCh c || c = '_' || c = '.' || c = '-' || c = ':') = true) (d : Char)
    (hd : (isAlnumCh d || d = '_' || d = '.' || d = '-' || d = ':') = false) :
    ¬(c = d) := fun he => by
  subst he
  rw [hc] at hd
  cases hd

theorem pathset_ne {c : Char}
    (hc : (isAlnumCh c || c = '_' || c = '.' || c = '-' || c = '~' ||
      c = '%' || c = '/') = true) (d : Char)
    (hd : (isAlnumCh d || d = '_' || d = '.' || d = '-' || d = '~' ||
      d = '%' || d = '/') = false) : ¬(c = d) := fun he => by
  subst he
  rw [hc] at hd
  cases hd

theorem qset_ne {c : Char}
    (hc : (isAlnumCh c || c = '_' || c = '.' || c = '-' || c = '~' ||
      c = '%' || c = '=' || c = '&') = true) (d : Char)
    (hd : (isAlnumCh d || d = '_' || d = '.' || d = '-' || d = '~' ||
      d = '%' || d = '=' || d = '&') = false) : ¬(c = d) := fun he => by
  subst he
  rw [hc] at hd
  cases hd

theorem quoteset_ne {c : Char}
    (hc : (isAlnumCh c || c = '_' || c = '.' || c = '-' || c = '~' || c = '%') = true)
    (d : Char)
    (hd : (isAlnumCh d || d = '_' || d = '.' || d = '-' || d = '~' || d = '%') = false) :
    ¬(c = d) := fun he => by
  subst he
  rw [hc] at hd
  cases hd

theorem dropWhile_cons_false {p : Char → Bool} {c : Char} (t : List Char) (h : p c = false) :
    (c :: t).dropWhile p = c :: t := by
  rw [List.dropWhile_cons, h]
  simp

theorem urlsplit_built (sch netloc prest query qpart : List Char) (c0 : Char) (t0 : List Char)
    (hsch : sch = c0 :: t0)
    (hsc1 : (isAlphaCh c0 && (c0 :: t0).all schemeCh) = true)
    (hsc2 : sch.map lowerCh = sch)
    (hsc3 : (decide (c0.toNat ≤ 0x20)) = false)
    (hsc4 : ∀ x ∈ sch, (!(x = '\t' || x = '\r' || x = '\n')) = true)
    (hsc5 : ':' ∉ sch)
    (hn2 : ∀ c ∈ netloc, (isAlnumCh c || c = '_' || c = '.' || c = '-' || c = ':') = true)
    (hp2 : ∀ c ∈ prest, (isAlnumCh c || c = '_' || c = '.' || c = '-' || c = '~' ||
      c = '%' || c = '/') = true)
    (hq2 : ∀ c ∈ query, (isAlnumCh c || c = '_' || c = '.' || c = '-' || c = '~' ||
      c = '%' || c = '=' || c = '&') = true)
    (hqp : (qpart = [] ∧ query = []) ∨ qpart = '?' :: query) :
    urlsplitChars (sch ++ ':' :: '/' :: '/' :: (netloc ++ ('/' :: prest) ++ qpart)) =
      Except.ok ⟨sch, netloc, '/' :: prest, query, []⟩ := by
  have hqch : ∀ c ∈ qpart, (!(c = '\t' || c = '\r' || c = '\n')) = true ∧
      ¬(c = '#') := by
    intro c hc
    rcases hqp with ⟨hq0, _⟩ | hq0
    · rw [hq0] at hc
      cases hc
    · rw [hq0] at hc
      rcases List.mem_cons.mp hc with hc | hc
      · subst hc
        exact ⟨by decide, by decide⟩
      · refine ⟨?_, qset_ne (hq2 c hc) _ (by decide)⟩
        have h1 := qset_ne (hq2 c hc) '\t' (by decide)
        have h2 := qset_ne (hq2 c hc) '\r' (by decide)
        have h3 := qset_ne (hq2 c hc) '\n' (by decide)
        simp [h1, h2, h3]
  subst hsch
  have hR : netloc ++ ('/' :: prest) ++ qpart = netloc ++ '/' :: (prest ++ qpart) := by
    simp [List.append_assoc]
  rw [hR]
  have hd1 : List.dropWhile (fun c => decide (c.toNat ≤ 0x20))
      ((c0 :: t0) ++ ':' :: '/' :: '/' :: (netloc ++ '/' :: (prest ++ qpart))) =
      (c0 :: t0) ++ ':' :: '/' :: '/' :: (netloc ++ '/' :: (prest ++ qpart)) := by
    rw [List.cons_append]
    exact dropWhile_cons_false _ hsc3
  have hf1 : List.filter (fun c => !(c = '\t' || c = '\r' || c = '\n'))
      ((c0 :: t0) ++ ':' :: '/' :: '/' :: (netloc ++ '/' :: (prest ++ qpart))) =
      (c0 :: t0) ++ ':' :: '/' :: '/' :: (netloc ++ '/' :: (prest ++ qpart)) := by
    rw [List.filter_eq_self]
    intro c hc
    rcases List.mem_append.mp hc with hc | hc
    · exact hsc4 c hc
    · rcases List.mem_cons.mp hc with hc | hc
      · subst hc; decide
      · rcases List.mem_cons.mp hc with hc | hc
        · subst hc; decide
        · rcases List.mem_cons.mp hc with hc | hc
          · subst hc; decide
          · rcases List.mem_append.mp hc with hc | hc
            · have h1 := netlocset_ne (hn2 c hc) '\t' (by decide)
              have h2 := netlocset_ne (hn2 c hc) '\r' (by decide)
              have h3 := netlocset_ne (hn2 c hc) '\n' (by decide)
              simp [h1, h2, h3]
            · rcases List.mem_cons.mp hc with hc | hc
              · subst hc; decide
              · rcases List.mem_append.mp hc with hc | hc
                · have h1 := pathset_ne (hp2 c hc) '\t' (by decide)
                  have h2 := pathset_ne (hp2 c hc) '\r' (by decide)
                  have h3 := pathset_ne (hp2 c hc) '\n' (by decide)
                  simp [h1, h2, h3]
                · exact (hqch c hc).1
  have hsp : splitFirst ':'
      ((c0 :: t0) ++ ':' :: '/' :: '/' :: (netloc ++ '/' :: (prest ++ qpart))) =
      some (c0 :: t0, '/' :: '/' :: (netloc ++ '/' :: (prest ++ qpart))) :=
    splitFirst_append ':' (c0 :: t0) _ hsc5
  have hds : ∀ c ∈ netloc, (['/', '?', '#'] : List Char).contains c = false := by
    intro c hc
    have h1 := netlocset_ne (hn2 c hc) '/' (by decide)
    have h2 := netlocset_ne (hn2 c hc) '?' (by decide)
    have h3 := netlocset_ne (hn2 c hc) '#' (by decide)
    simp [List.contains_cons, h1, h2, h3]
  obtain ⟨htake, hdrop2⟩ := takeUntilAny_append ['/', '?', '#'] netloc '/' (prest ++ qpart)
    hds (by decide)
  have hbr1 : netloc.contains '[' = false := by
    rw [Bool.eq_false_iff]
    intro hcon
    have hm : '[' ∈ netloc := by simpa using hcon
    exact absurd (hn2 _ hm) (by decide)
  have hbr2 : netloc.contains ']' = false := by
    rw [Bool.eq_false_iff]
    intro hcon
    have hm : ']' ∈ netloc := by simpa using hcon
    exact absurd (hn2 _ hm) (by decide)
  have hhash : ('/' :: (prest ++ qpart)).contains '#' = false := by
    rw [Bool.eq_false_iff]
    intro hcon
    have hm : '#' ∈ '/' :: (prest ++ qpart) := by simpa using hcon
    rcases List.mem_cons.mp hm with hm | hm
    · exact absurd hm (by decide)
    · rcases List.mem_append.mp hm with hm | hm
      · exact absurd (hp2 _ hm) (by decide)
      · exact absurd rfl (hqch _ hm).2
  simp only [urlsplitChars, hd1, hf1, hsp]
  simp only [hsc1, if_true, hsc2]
  simp only [htake, hdrop2, hbr1, hbr2, Bool.false_and, Bool.and_false, Bool.not_false,
    Bool.not_true, Bool.false_or, Bool.or_false, Bool.or_self, Bool.false_eq_true, if_false]
  simp only [mkSplit, hhash, Bool.false_eq_true, if_false]
  rcases hqp with ⟨hq0, hq1⟩ | hq0
  · subst hq0
    subst hq1
    have hnoq : ('/' :: (prest ++ ([] : List Char))).contains '?' = false := by
      rw [Bool.eq_false_iff]
      intro hcon
      have hm : '?' ∈ '/' :: (prest ++ ([] : List Char)) := by simpa using hcon
      rcases List.mem_cons.mp hm with hm | hm
      · exact absurd hm (by decide)
      · rcases List.mem_append.mp hm with hm | hm
        · exact absurd (hp2 _ hm) (by decide)
        · cases hm
    rw [hnoq]
    simp
  · subst hq0
    have hyesq : ('/' :: (prest ++ '?' :: query)).contains '?' = true := by
      simp
    rw [hyesq]
    have hspq : splitFirst '?' (('/' :: prest) ++ '?' :: query) =
        some ('/' :: prest, query) :=
      splitFirst_append '?' ('/' :: prest) query (by
        intro hm
        rcases List.mem_cons.mp hm with hm | hm
        · exact absurd hm (by decide)
        · exact absurd (hp2 _ hm) (by decide))
    rw [List.cons_append] at hspq
    rw [hspq]
    simp

theorem res_bind_error {α β : Type} (e0 : ToolError) (f : α → Res β) :
    ((Except.error e0 : Res α) >>= f) = Except.error e0 := rfl

theorem res_bind_ok {α β : Type} (a : α) (f : α → Res β) :
    ((Except.ok a : Res α) >>= f) = f a := rfl

theorem validate_dag_id_code (o : Option String) (e : ToolError)
    (h : validate_dag_id o = Except.error e) : e.code = "INVALID_INPUT" := by
  cases o with
  | none => exact absurd h (by simp [validate_dag_id])
  | some v =>
      by_cases hd : dagIdOk v = true
      · exact absurd h (by simp [validate_dag_id, hd])
      · have h2 : validate_dag_id (some v) =
            Except.error ⟨"Invalid dag_id", "INVALID_INPUT"⟩ := by
          simp [validate_dag_id, hd]
        rw [h2] at h
        injection h with h1
        rw [← h1]

theorem validate_dag_run_id_code (o : Option String) (e : ToolError)
    (h : validate_dag_run_id o = Except.error e) : e.code = "INVALID_INPUT" := by
  cases o with
  | none => exact absurd h (by simp [validate_dag_run_id])
  | some v =>
      by_cases hd : dagRunIdOk v = true
      · exact absurd h (by simp [validate_dag_run_id, hd])
      · have h2 : validate_dag_run_id (some v) =
            Except.error ⟨"Invalid dag_run_id", "INVALID_INPUT"⟩ := by
          simp [validate_dag_run_id, hd]
        rw [h2] at h
        injection h with h1
        rw [← h1]

theorem validate_task_id_code (o : Option String) (e : ToolError)
    (h : validate_task_id o = Except.error e) : e.code = "INVALID_INPUT" := by
  cases o with
  | none => exact absurd h (by simp [validate_task_id])
  | some v =>
      by_cases hd : taskIdOk v = true
      · exact absurd h (by simp [validate_task_id, hd])
      · have h2 : validate_task_id (some v) =
            Except.error ⟨"Invalid task_id", "INVALID_INPUT"⟩ := by
          simp [validate_task_id, hd]
        rw [h2] at h
        injection h with h1
        rw [← h1]

theorem validate_instance_key_code (v : String) (e : ToolError)
    (h : validate_instance_key v = Except.error e) : e.code = "INVALID_INPUT" := by
  unfold validate_instance_key at h
  split at h
  · injection h with h1
    rw [← h1]
  · split at h
    · exact absurd h (by simp)
    · injection h with h1
      rw [← h1]

theorem res_bind_code {α β : Type} (x : Res α) (f : α → Res β)
    (hx : ∀ e, x = Except.error e → e.code = "INVALID_INPUT")
    (hf : ∀ a e, f a = Except.error e → e.code = "INVALID_INPUT") :
    ∀ e, (x >>= f) = Except.error e → e.code = "INVALID_INPUT" := by
  intro e h
  cases x with
  | error e0 =>
      rw [res_bind_error] at h
      injection h with h1
      subst h1
      exact hx e0 rfl
  | ok a =>
      rw [res_bind_ok] at h
      exact hf a e h

theorem pure_code {α : Type} (a : α) :
    ∀ e, (pure a : Res α) = Except.error e → e.code = "INVALID_INPUT" := by
  intro e h
  exact absurd h (by simp [pure, Except.pure])

theorem specRouteTable_code (segments : List (List Char)) (query : List (String × String))
    (e : ToolError) (h : specRouteTable segments query = Except.error e) :
    e.code = "INVALID_INPUT" := by
  unfold specRouteTable at h
  revert h
  split
  · refine res_bind_code _ _ (validate_dag_id_code _) ?_ e
    intro a
    split
    · refine res_bind_code _ _ (validate_dag_run_id_code _) ?_
      intro b
      exact pure_code _
    · split
      · split
        · refine res_bind_code _ _ (validate_dag_run_id_code _) ?_
          intro b
          split
          · refine res_bind_code _ _ (validate_task_id_code _) ?_
            intro c
            exact pure_code _
          · exact pure_code _
        · exact pure_code _
      · split
        · refine res_bind_code _ _ (validate_task_id_code _) ?_
          intro c
          exact res_bind_code _ _ (validate_dag_run_id_code _) (fun b => pure_code _)
        · exact pure_code _
  · exact pure_code _ e

theorem emptyGuard_map_ne_nil (l hn : List Char)
    (h : (if l.isEmpty = true then none else some (l.map lowerCh)) = some hn) : hn ≠ [] := by
  split at h
  · exact absurd h (by simp)
  · rename_i hne
    injection h with h1
    subst h1
    intro hc
    apply hne
    rw [List.map_eq_nil_iff] at hc
    rw [hc]
    rfl

theorem hostnameOf_ne_nil (netloc hn : List Char) (h : hostnameOf netloc = some hn) :
    hn ≠ [] :=
  emptyGuard_map_ne_nil
    (if (afterLastAt netloc).contains '[' = true then
      takeUntilAny [']'] (List.drop 1 (dropUntilAny ['['] (afterLastAt netloc)))
    else (afterLastAt netloc).takeWhile (fun c => decide (c ≠ ':'))) hn h

theorem parse_built (reg : Registry) (key : String) (u : String)
    (netloc hchars prest query qpart sch : List Char)
    (hu : u.data = sch ++ ':' :: '/' :: '/' :: (netloc ++ ('/' :: prest) ++ qpart))
    (hsl : sch = "http".data ∨ sch = "https".data)
    (hn2 : ∀ c ∈ netloc, (isAlnumCh c || c = '_' || c = '.' || c = '-' || c = ':') = true)
    (hh : hostnameOf netloc = some hchars)
    (hres : resolveInstanceKeyFromHost reg (String.mk hchars) = some key)
    (hkey : instanceKeyOk key = true)
    (hp2 : ∀ c ∈ prest, (isAlnumCh c || c = '_' || c = '.' || c = '-' || c = '~' ||
      c = '%' || c = '/') = true)
    (hq2 : ∀ c ∈ query, (isAlnumCh c || c = '_' || c = '.' || c = '-' || c = '~' ||
      c = '%' || c = '=' || c = '&') = true)
    (hqp : (qpart = [] ∧ query = []) ∨ qpart = '?' :: query) :
    parse_airflow_ui_url reg u =
      (parseRoute ((splitAll '/' ('/' :: prest)).filter (fun s => !s.isEmpty))
          (parseQsl query) >>=
        fun r => pure ⟨key, r.1, r.2.1, r.2.2.1, r.2.2.2.1, r.2.2.2.2⟩) := by
  have hie : hchars.isEmpty = false := by
    have hne := hostnameOf_ne_nil netloc hchars hh
    cases hchars with
    | nil => exact absurd rfl hne
    | cons a t => rfl
  rcases hsl with hs | hs <;> subst hs
  · have hsplit := urlsplit_built "http".data netloc prest query qpart 'h' "ttp".data rfl
      (by decide) (by decide) (by decide) (by decide) (by decide) hn2 hp2 hq2 hqp
    simp only [parse_airflow_ui_url]
    rw [hu, hsplit]
    simp +decide [hh, hie, hres, validate_instance_key_ok hkey, bind, Except.bind]
  · have hsplit := urlsplit_built "https".data netloc prest query qpart 'h' "ttps".data rfl
      (by decide) (by decide) (by decide) (by decide) (by decide) hn2 hp2 hq2 hqp
    simp only [parse_airflow_ui_url]
    rw [hu, hsplit]
    simp +decide [hh, hie, hres, validate_instance_key_ok hkey, bind, Except.bind]

theorem string_eta (s : String) : String.mk s.data = s := rfl

theorem unquotePlus_quote (v : List Char) : unquotePlus (quoteChars v) = v := by
  unfold unquotePlus
  have hmap : (quoteChars v).map (fun c => if c = '+' then ' ' else c) =
      (quoteChars v).map id :=
    List.map_congr_left (fun c hc => by
      rw [if_neg (quoteset_ne (mem_quoteChars _ _ hc) '+' (by decide))]
      rfl)
  rw [hmap, List.map_id]
  exact unquote_quote v

theorem parseQsl_nil : parseQsl [] = [] := by decide

theorem parseQsl_single (name v : List Char) (hv : v ≠ [])
    (hn : '&' ∉ name) (he : '=' ∉ name) :
    parseQsl (name ++ '=' :: quoteChars v) =
      [(String.mk (unquotePlus name), String.mk v)] := by
  unfold parseQsl
  rw [splitAll_no_sep '&' _ (by
    intro hm
    rcases List.mem_append.mp hm with hm | hm
    · exact hn hm
    · rcases List.mem_cons.mp hm with hm | hm
      · exact absurd hm (by decide)
      · exact absurd (mem_quoteChars _ _ hm) (by decide))]
  have hie : (name ++ '=' :: quoteChars v).isEmpty = false := by
    cases name <;> rfl
  have hqe : (quoteChars v).isEmpty = false := by
    rcases hq : quoteChars v with _ | ⟨a, t⟩
    · exact absurd hq (quoteChars_ne_nil v hv)
    · rfl
  simp only [List.filterMap_cons, List.filterMap_nil, hie, splitFirst_append '=' name _ he,
    hqe, Bool.false_eq_true, if_false]
  rw [unquotePlus_quote]

theorem roundtrip_grid (reg : Registry) (key host : String) (netloc hchars : List Char)
    (d : String) (r : Option String) (route : String)
    (hkey : instanceKeyOk key = true)
    (hlook : lookupInstance reg key = some host)
    (hhost : host.data = "http://".data ++ netloc ∨ host.data = "https://".data ++ netloc)
    (hn1 : netloc ≠ [])
    (hn2 : ∀ c ∈ netloc, (isAlnumCh c || c = '_' || c = '.' || c = '-' || c = ':') = true)
    (hh : hostnameOf netloc = some hchars)
    (hres : resolveInstanceKeyFromHost reg (String.mk hchars) = some key)
    (hro : route = "grid" ∨ route = "graph")
    (hd : dagIdOk d = true)
    (hr : ∀ x, r = some x → dagRunIdOk x = true) :
    ∃ u, build_airflow_ui_url reg key route d r none none = Except.ok u ∧
      parse_airflow_ui_url reg u = Except.ok ⟨key, route, some d, r, none, none⟩ := by
  obtain ⟨sch, hsl, hhd⟩ : ∃ sch, (sch = "http".data ∨ sch = "https".data) ∧
      host.data = sch ++ ':' :: '/' :: '/' :: netloc := by
    rcases hhost with h | h
    · exact ⟨"http".data, Or.inl rfl, by rw [h]; rfl⟩
    · exact ⟨"https".data, Or.inr rfl, by rw [h]; rfl⟩
  have hbase : rstripSlash host.data = host.data := by
    rw [hhd]
    have hx : sch ++ ':' :: '/' :: '/' :: netloc = (sch ++ [':', '/', '/']) ++ netloc := by
      simp
    rw [hx, rstripSlash_append _ _ hn1 (fun c hc => netlocset_ne (hn2 c hc) '/' (by decide)),
      ← hx]
  have hvd : validate_dag_id (some d) = Except.ok (some d) := by
    simp [validate_dag_id, hd]
  have hdne : d.isEmpty = false := by
    apply isEmpty_false_of_ne
    intro he
    subst he
    exact absurd hd (by decide)
  have hqd : quoteChars d.data ≠ [] := by
    apply quoteChars_ne_nil
    intro he
    apply absurd hd
    rw [show d = String.mk d.data from rfl, he]
    decide
  have hqdie : (quoteChars d.data).isEmpty = false := by
    rcases hq : quoteChars d.data with _ | ⟨a, t⟩
    · exact absurd hq hqd
    · rfl
  have hsegs : (splitAll '/' ('/' :: ("dags".data ++ '/' ::
      (quoteChars d.data ++ '/' :: route.data)))).filter (fun s => !s.isEmpty) =
      ["dags".data, quoteChars d.data, route.data] := by
    have h1 : splitAll '/' ('/' :: ("dags".data ++ '/' ::
        (quoteChars d.data ++ '/' :: route.data))) =
        [] :: splitAll '/' ("dags".data ++ '/' :: (quoteChars d.data ++ '/' :: route.data)) := by
      show (if '/' = '/' then [] :: splitAll '/' ("dags".data ++ '/' ::
          (quoteChars d.data ++ '/' :: route.data)) else _) = _
      rw [if_pos rfl]
    rw [h1, splitAll_append '/' "dags".data _ (by decide),
      splitAll_append '/' (quoteChars d.data) _
        (fun hm => absurd (mem_quoteChars _ _ hm) (by decide)),
      splitAll_no_sep '/' route.data (by rcases hro with h | h <;> (subst h; decide))]
    have hrt : (!route.data.isEmpty) = true := by
      rcases hro with h | h <;> (subst h; decide)
    simp [List.filter, hqdie, hrt]
  rcases hro with hro | hro <;> subst hro <;> rcases r with _ | rv
  case inl.none =>
    refine ⟨String.mk (host.data ++ "/dags/".data ++ quoteChars d.data ++
      '/' :: "grid".data ++ ([] : List Char)), ?_, ?_⟩
    · simp +decide [build_airflow_ui_url, validate_instance_key_ok hkey, hvd, hdne, hlook,
        hbase, validate_dag_run_id, encodeQuery, bind, Except.bind, pure, Except.pure]
    · have hu : (String.mk (host.data ++ "/dags/".data ++ quoteChars d.data ++
          '/' :: "grid".data ++ ([] : List Char))).data =
          sch ++ ':' :: '/' :: '/' :: (netloc ++ ('/' :: ("dags".data ++ '/' ::
            (quoteChars d.data ++ '/' :: "grid".data))) ++ ([] : List Char)) := by
        show host.data ++ "/dags/".data ++ quoteChars d.data ++
          '/' :: "grid".data ++ ([] : List Char) = _
        rw [hhd, show "/dags/".data = '/' :: ("dags".data ++ ['/']) from rfl]
        simp [List.append_assoc]
      rw [parse_built reg key _ netloc hchars ("dags".data ++ '/' ::
          (quoteChars d.data ++ '/' :: "grid".data)) [] [] sch hu hsl hn2 hh hres hkey
        (by
          intro c hc
          rcases List.mem_append.mp hc with hc | hc
          · exact (by decide : ∀ c ∈ "dags".data, (isAlnumCh c || c = '_' || c = '.' ||
              c = '-' || c = '~' || c = '%' || c = '/') = true) c hc
          · rcases List.mem_cons.mp hc with hc | hc
            · subst hc; decide
            · rcases List.mem_append.mp hc with hc | hc
              · rw [Bool.or_eq_true]
                exact Or.inl (mem_quoteChars _ _ hc)
              · rcases List.mem_cons.mp hc with hc | hc
                · subst hc; decide
                · exact (by decide : ∀ c ∈ "grid".data, (isAlnumCh c || c = '_' || c = '.' ||
                    c = '-' || c = '~' || c = '%' || c = '/') = true) c hc)
        (by intro c hc; cases hc) (Or.inl ⟨rfl, rfl⟩)]
      rw [hsegs, parseQsl_nil]
      simp +decide [parseRoute, unquote_quote, string_eta, hvd, validate_dag_run_id, qGet,
        bind, Except.bind, pure, Except.pure]
  case inl.some =>
    have hvr : validate_dag_run_id (some rv) = Except.ok (some rv) := by
      simp [validate_dag_run_id, hr rv rfl]
    have hrvne : rv.data ≠ [] := by
      intro he
      apply absurd (hr rv rfl)
      rw [show rv = String.mk rv.data from rfl, he]
      decide
    have henc : encodeQuery [("dag_run_id", some rv)] =
        "dag_run_id".data ++ '=' :: quoteChars rv.data := by
      show List.intercalate ['&'] [quoteChars "dag_run_id".data ++ '=' ::
        quoteChars rv.data] = _
      rw [intercalate_single, show quoteChars "dag_run_id".data = "dag_run_id".data from
        by decide]
    have hql : parseQsl ("dag_run_id".data ++ '=' :: quoteChars rv.data) =
        [("dag_run_id", rv)] := by
      rw [parseQsl_single "dag_run_id".data rv.data hrvne (by decide) (by decide)]
      rw [show String.mk (unquotePlus "dag_run_id".data) = "dag_run_id" from by decide,
        string_eta]
    refine ⟨String.mk (host.data ++ "/dags/".data ++ quoteChars d.data ++
      '/' :: "grid".data ++ '?' :: ("dag_run_id".data ++ '=' :: quoteChars rv.data)), ?_, ?_⟩
    · simp +decide [build_airflow_ui_url, validate_instance_key_ok hkey, hvd, hdne, hlook,
        hbase, hvr, henc, bind, Except.bind, pure, Except.pure]
    · have hu : (String.mk (host.data ++ "/dags/".data ++ quoteChars d.data ++
          '/' :: "grid".data ++ '?' :: ("dag_run_id".data ++ '=' ::
            quoteChars rv.data))).data =
          sch ++ ':' :: '/' :: '/' :: (netloc ++ ('/' :: ("dags".data ++ '/' ::
            (quoteChars d.data ++ '/' :: "grid".data))) ++
            '?' :: ("dag_run_id".data ++ '=' :: quoteChars rv.data)) := by
        show host.data ++ "/dags/".data ++ quoteChars d.data ++
          '/' :: "grid".data ++ '?' :: ("dag_run_id".data ++ '=' :: quoteChars rv.data) = _
        rw [hhd, show "/dags/".data = '/' :: ("dags".data ++ ['/']) from rfl]
        simp [List.append_assoc]
      rw [parse_built reg key _ netloc hchars ("dags".data ++ '/' ::
          (quoteChars d.data ++ '/' :: "grid".data))
          ("dag_run_id".data ++ '=' :: quoteChars rv.data)
          ('?' :: ("dag_run_id".data ++ '=' :: quoteChars rv.data)) sch hu hsl hn2 hh hres
          hkey
        (by
          intro c hc
          rcases List.mem_append.mp hc with hc | hc
          · exact (by decide : ∀ c ∈ "dags".data, (isAlnumCh c || c = '_' || c = '.' ||
              c = '-' || c = '~' || c = '%' || c = '/') = true) c hc
          · rcases List.mem_cons.mp hc with hc | hc
            · subst hc; decide
            · rcases List.mem_append.mp hc with hc | hc
              · rw [Bool.or_eq_true]
                exact Or.inl (mem_quoteChars _ _ hc)
              · rcases List.mem_cons.mp hc with hc | hc
                · subst hc; decide
                · exact (by decide : ∀ c ∈ "grid".data, (isAlnumCh c || c = '_' || c = '.' ||
                    c = '-' || c = '~' || c = '%' || c = '/') = true) c hc)
        (by
          intro c hc
          rcases List.mem_append.mp hc with hc | hc
          · exact (by decide : ∀ c ∈ "dag_run_id".data, (isAlnumCh c || c = '_' || c = '.' ||
              c = '-' || c = '~' || c = '%' || c = '=' || c = '&') = true) c hc
          · rcases List.mem_cons.mp hc with hc | hc
            · subst hc; decide
            · rw [Bool.or_eq_true]
              exact Or.inl (by rw [Bool.or_eq_true]; exact Or.inl (mem_quoteChars _ _ hc)))
        (Or.inr rfl)]
      rw [hsegs, hql]
      simp +decide [parseRoute, unquote_quote, string_eta, hvd, hvr, qGet, List.find?,
        bind, Except.bind, pure, Except.pure]
  case inr.none =>
    refine ⟨String.mk (host.data ++ "/dags/".data ++ quoteChars d.data ++
      '/' :: "graph".data ++ ([] : List Char)), ?_, ?_⟩
    · simp +decide [build_airflow_ui_url, validate_instance_key_ok hkey, hvd, hdne, hlook,
        hbase, validate_dag_run_id, encodeQuery, bind, Except.bind, pure, Except.pure]
    · have hu : (String.mk (host.data ++ "/dags/".data ++ quoteChars d.data ++
          '/' :: "graph".data ++ ([] : List Char))).data =
          sch ++ ':' :: '/' :: '/' :: (netloc ++ ('/' :: ("dags".data ++ '/' ::
            (quoteChars d.data ++ '/' :: "graph".data))) ++ ([] : List Char)) := by
        show host.data ++ "/dags/".data ++ quoteChars d.data ++
          '/' :: "graph".data ++ ([] : List Char) = _
        rw [hhd, show "/dags/".data = '/' :: ("dags".data ++ ['/']) from rfl]
        simp [List.append_assoc]
      rw [parse_built reg key _ netloc hchars ("dags".data ++ '/' ::
          (quoteChars d.data ++ '/' :: "graph".data)) [] [] sch hu hsl hn2 hh hres hkey
        (by
          intro c hc
          rcases List.mem_append.mp hc with hc | hc
          · exact (by decide : ∀ c ∈ "dags".data, (isAlnumCh c || c = '_' || c = '.' ||
              c = '-' || c = '~' || c = '%' || c = '/') = true) c hc
          · rcases List.mem_cons.mp hc with hc | hc
            · subst hc; decide
            · rcases List.mem_append.mp hc with hc | hc
              · rw [Bool.or_eq_true]
                exact Or.inl (mem_quoteChars _ _ hc)
              · rcases List.mem_cons.mp hc with hc | hc
                · subst hc; decide
                · exact (by decide : ∀ c ∈ "graph".data, (isAlnumCh c || c = '_' ||
                    c = '.' || c = '-' || c = '~' || c = '%' || c = '/') = true) c hc)
        (by intro c hc; cases hc) (Or.inl ⟨rfl, rfl⟩)]
      rw [hsegs, parseQsl_nil]
      simp +decide [parseRoute, unquote_quote, string_eta, hvd, validate_dag_run_id, qGet,
        bind, Except.bind, pure, Except.pure]
  case inr.some =>
    have hvr : validate_dag_run_id (some rv) = Except.ok (some rv) := by
      simp [validate_dag_run_id, hr rv rfl]
    have hrvne : rv.data ≠ [] := by
      intro he
      apply absurd (hr rv rfl)
      rw [show rv = String.mk rv.data from rfl, he]
      decide
    have henc : encodeQuery [("dag_run_id", some rv)] =
        "dag_run_id".data ++ '=' :: quoteChars rv.data := by
      show List.intercalate ['&'] [quoteChars "dag_run_id".data ++ '=' ::
        quoteChars rv.data] = _
      rw [intercalate_single, show quoteChars "dag_run_id".data = "dag_run_id".data from
        by decide]
    have hql : parseQsl ("dag_run_id".data ++ '=' :: quoteChars rv.data) =
        [("dag_run_id", rv)] := by
      rw [parseQsl_single "dag_run_id".data rv.data hrvne (by decide) (by decide)]
      rw [show String.mk (unquotePlus "dag_run_id".data) = "dag_run_id" from by decide,
        string_eta]
    refine ⟨String.mk (host.data ++ "/dags/".data ++ quoteChars d.data ++
      '/' :: "graph".data ++ '?' :: ("dag_run_id".data ++ '=' :: quoteChars rv.data)),
      ?_, ?_⟩
    · simp +decide [build_airflow_ui_url, validate_instance_key_ok hkey, hvd, hdne, hlook,
        hbase, hvr, henc, bind, Except.bind, pure, Except.pure]
    · have hu : (String.mk (host.data ++ "/dags/".data ++ quoteChars d.data ++
          '/' :: "graph".data ++ '?' :: ("dag_run_id".data ++ '=' ::
            quoteChars rv.data))).data =
          sch ++ ':' :: '/' :: '/' :: (netloc ++ ('/' :: ("dags".data ++ '/' ::
            (quoteChars d.data ++ '/' :: "graph".data))) ++
            '?' :: ("dag_run_id".data ++ '=' :: quoteChars rv.data)) := by
        show host.data ++ "/dags/".data ++ quoteChars d.data ++
          '/' :: "graph".data ++ '?' :: ("dag_run_id".data ++ '=' :: quoteChars rv.data) = _
        rw [hhd, show "/dags/".data = '/' :: ("dags".data ++ ['/']) from rfl]
        simp [List.append_assoc]
      rw [parse_built reg key _ netloc hchars ("dags".data ++ '/' ::
          (quoteChars d.data ++ '/' :: "graph".data))
          ("dag_run_id".data ++ '=' :: quoteChars rv.data)
          ('?' :: ("dag_run_id".data ++ '=' :: quoteChars rv.data)) sch hu hsl hn2 hh hres
          hkey
        (by
          intro c hc
          rcases List.mem_append.mp hc with hc | hc
          · exact (by decide : ∀ c ∈ "dags".data, (isAlnumCh c || c = '_' || c = '.' ||
              c = '-' || c = '~' || c = '%' || c = '/') = true) c hc
          · rcases List.mem_cons.mp hc with hc | hc
            · subst hc; decide
            · rcases List.mem_append.mp hc with hc | hc
              · rw [Bool.or_eq_true]
                exact Or.inl (mem_quoteChars _ _ hc)
              · rcases List.mem_cons.mp hc with hc | hc
                · subst hc; decide
                · exact (by decide : ∀ c ∈ "graph".data, (isAlnumCh c || c = '_' ||
                    c = '.' || c = '-' || c = '~' || c = '%' || c = '/') = true) c hc)
        (by
          intro c hc
          rcases List.mem_append.mp hc with hc | hc
          · exact (by decide : ∀ c ∈ "dag_run_id".data, (isAlnumCh c || c = '_' || c = '.' ||
              c = '-' || c = '~' || c = '%' || c = '=' || c = '&') = true) c hc
          · rcases List.mem_cons.mp hc with hc | hc
            · subst hc; decide
            · rw [Bool.or_eq_true]
              exact Or.inl (by rw [Bool.or_eq_true]; exact Or.inl (mem_quoteChars _ _ hc)))
        (Or.inr rfl)]
      rw [hsegs, hql]
      simp +decide [parseRoute, unquote_quote, string_eta, hvd, hvr, qGet, List.find?,
        bind, Except.bind, pure, Except.pure]

theorem parseQsl_double (n1 v1 n2 v2 : List Char) (h1 : v1 ≠ []) (h2 : v2 ≠ [])
    (hn1a : '&' ∉ n1) (hn1e : '=' ∉ n1) (hn2a : '&' ∉ n2) (hn2e : '=' ∉ n2) :
    parseQsl (n1 ++ '=' :: (quoteChars v1 ++ '&' :: (n2 ++ '=' :: quoteChars v2))) =
      [(String.mk (unquotePlus n1), String.mk v1),
       (String.mk (unquotePlus n2), String.mk v2)] := by
  unfold parseQsl
  have hassoc : n1 ++ '=' :: (quoteChars v1 ++ '&' :: (n2 ++ '=' :: quoteChars v2)) =
      (n1 ++ '=' :: quoteChars v1) ++ '&' :: (n2 ++ '=' :: quoteChars v2) := by
    simp [List.append_assoc]
  rw [hassoc, splitAll_append '&' (n1 ++ '=' :: quoteChars v1) _ (by
      intro hm
      rcases List.mem_append.mp hm with hm | hm
      · exact hn1a hm
      · rcases List.mem_cons.mp hm with hm | hm
        · exact absurd hm (by decide)
        · exact absurd (mem_quoteChars _ _ hm) (by decide)),
    splitAll_no_sep '&' _ (by
      intro hm
      rcases List.mem_append.mp hm with hm | hm
      · exact hn2a hm
      · rcases List.mem_cons.mp hm with hm | hm
        · exact absurd hm (by decide)
        · exact absurd (mem_quoteChars _ _ hm) (by decide))]
  have hie1 : (n1 ++ '=' :: quoteChars v1).isEmpty = false := by cases n1 <;> rfl
  have hie2 : (n2 ++ '=' :: quoteChars v2).isEmpty = false := by cases n2 <;> rfl
  have hqe1 : (quoteChars v1).isEmpty = false := by
    rcases hq : quoteChars v1 with _ | ⟨a, t⟩
    · exact absurd hq (quoteChars_ne_nil v1 h1)
    · rfl
  have hqe2 : (quoteChars v2).isEmpty = false := by
    rcases hq : quoteChars v2 with _ | ⟨a, t⟩
    · exact absurd hq (quoteChars_ne_nil v2 h2)
    · rfl
  simp only [List.filterMap_cons, List.filterMap_nil, hie1, hie2,
    splitFirst_append '=' n1 _ hn1e, splitFirst_append '=' n2 _ hn2e, hqe1, hqe2,
    Bool.false_eq_true, if_false]
  rw [unquotePlus_quote, unquotePlus_quote]

theorem roundtrip_dag_run (reg : Registry) (key host : String) (netloc hchars : List Char)
    (d rv : String)
    (hkey : instanceKeyOk key = true)
    (hlook : lookupInstance reg key = some host)
    (hhost : host.data = "http://".data ++ netloc ∨ host.data = "https://".data ++ netloc)
    (hn1 : netloc ≠ [])
    (hn2 : ∀ c ∈ netloc, (isAlnumCh c || c = '_' || c = '.' || c = '-' || c = ':') = true)
    (hh : hostnameOf netloc = some hchars)
    (hres : resolveInstanceKeyFromHost reg (String.mk hchars) = some key)
    (hd : dagIdOk d = true)
    (hrv : dagRunIdOk rv = true) :
    ∃ u, build_airflow_ui_url reg key "dag_run" d (some rv) none none = Except.ok u ∧
      parse_airflow_ui_url reg u =
        Except.ok ⟨key, "dag_run", some d, some rv, none, none⟩ := by
  obtain ⟨sch, hsl, hhd⟩ : ∃ sch, (sch = "http".data ∨ sch = "https".data) ∧
      host.data = sch ++ ':' :: '/' :: '/' :: netloc := by
    rcases hhost with h | h
    · exact ⟨"http".data, Or.inl rfl, by rw [h]; rfl⟩
    · exact ⟨"https".data, Or.inr rfl, by rw [h]; rfl⟩
  have hbase : rstripSlash host.data = host.data := by
    rw [hhd]
    have hx : sch ++ ':' :: '/' :: '/' :: netloc = (sch ++ [':', '/', '/']) ++ netloc := by
      simp
    rw [hx, rstripSlash_append _ _ hn1 (fun c hc => netlocset_ne (hn2 c hc) '/' (by decide)),
      ← hx]
  have hvd : validate_dag_id (some d) = Except.ok (some d) := by
    simp [validate_dag_id, hd]
  have hdne : d.isEmpty = false := by
    apply isEmpty_false_of_ne
    intro he
    subst he
    exact absurd hd (by decide)
  have hrne : rv.isEmpty = false := by
    apply isEmpty_false_of_ne
    intro he
    subst he
    exact absurd hrv (by decide)
  have hvr : validate_dag_run_id (some rv) = Except.ok (some rv) := by
    simp [validate_dag_run_id, hrv]
  have hqdie : (quoteChars d.data).isEmpty = false := by
    rcases hq : quoteChars d.data with _ | ⟨a, t⟩
    · exact absurd hq (quoteChars_ne_nil d.data (fun he => by
        apply absurd hd
        rw [show d = String.mk d.data from rfl, he]
        decide))
    · rfl
  have hqrie : (quoteChars rv.data).isEmpty = false := by
    rcases hq : quoteChars rv.data with _ | ⟨a, t⟩
    · exact absurd hq (quoteChars_ne_nil rv.data (fun he => by
        apply absurd hrv
        rw [show rv = String.mk rv.data from rfl, he]
        decide))
    · rfl
  have hsegs : (splitAll '/' ('/' :: ("dags".data ++ '/' :: (quoteChars d.data ++ '/' ::
      ("dagRuns".data ++ '/' :: quoteChars rv.data))))).filter (fun s => !s.isEmpty) =
      ["dags".data, quoteChars d.data, "dagRuns".data, quoteChars rv.data] := by
    have h1 : splitAll '/' ('/' :: ("dags".data ++ '/' :: (quoteChars d.data ++ '/' ::
        ("dagRuns".data ++ '/' :: quoteChars rv.data)))) =
        [] :: splitAll '/' ("dags".data ++ '/' :: (quoteChars d.data ++ '/' ::
          ("dagRuns".data ++ '/' :: quoteChars rv.data))) := by
      show (if '/' = '/' then [] :: splitAll '/' ("dags".data ++ '/' ::
        (quoteChars d.data ++ '/' :: ("dagRuns".data ++ '/' :: quoteChars rv.data)))
        else _) = _
      rw [if_pos rfl]
    rw [h1, splitAll_append '/' "dags".data _ (by decide),
      splitAll_append '/' (quoteChars d.data) _
        (fun hm => absurd (mem_quoteChars _ _ hm) (by decide)),
      splitAll_append '/' "dagRuns".data _ (by decide),
      splitAll_no_sep '/' (quoteChars rv.data)
        (fun hm => absurd (mem_quoteChars _ _ hm) (by decide))]
    simp [List.filter, hqdie, hqrie]
  refine ⟨String.mk (host.data ++ "/dags/".data ++ quoteChars d.data ++ "/dagRuns/".data ++
    quoteChars rv.data), ?_, ?_⟩
  · simp +decide [build_airflow_ui_url, validate_instance_key_ok hkey, hvd, hdne, hlook,
      hbase, hvr, optStrTruthy, hrne, bind, Except.bind, pure, Except.pure]
  · have hu : (String.mk (host.data ++ "/dags/".data ++ quoteChars d.data ++
        "/dagRuns/".data ++ quoteChars rv.data)).data =
        sch ++ ':' :: '/' :: '/' :: (netloc ++ ('/' :: ("dags".data ++ '/' ::
          (quoteChars d.data ++ '/' :: ("dagRuns".data ++ '/' :: quoteChars rv.data)))) ++
          ([] : List Char)) := by
      show host.data ++ "/dags/".data ++ quoteChars d.data ++ "/dagRuns/".data ++
        quoteChars rv.data = _
      rw [hhd, show "/dags/".data = '/' :: ("dags".data ++ ['/']) from rfl,
        show "/dagRuns/".data = '/' :: ("dagRuns".data ++ ['/']) from rfl]
      simp [List.append_assoc]
    rw [parse_built reg key _ netloc hchars ("dags".data ++ '/' :: (quoteChars d.data ++
        '/' :: ("dagRuns".data ++ '/' :: quoteChars rv.data))) [] [] sch hu hsl hn2 hh hres
        hkey
      (by
        intro c hc
        rcases List.mem_append.mp hc with hc | hc
        · exact (by decide : ∀ c ∈ "dags".data, (isAlnumCh c || c = '_' || c = '.' ||
            c = '-' || c = '~' || c = '%' || c = '/') = true) c hc
        · rcases List.mem_cons.mp hc with hc | hc
          · subst hc; decide
          · rcases List.mem_append.mp hc with hc | hc
            · rw [Bool.or_eq_true]
              exact Or.inl (mem_quoteChars _ _ hc)
            · rcases List.mem_cons.mp hc with hc | hc
              · subst hc; decide
              · rcases List.mem_append.mp hc with hc | hc
                · exact (by decide : ∀ c ∈ "dagRuns".data, (isAlnumCh c || c = '_' ||
                    c = '.' || c = '-' || c = '~' || c = '%' || c = '/') = true) c hc
                · rcases List.mem_cons.mp hc with hc | hc
                  · subst hc; decide
                  · rw [Bool.or_eq_true]
                    exact Or.inl (mem_quoteChars _ _ hc))
      (by intro c hc; cases hc) (Or.inl ⟨rfl, rfl⟩)]
    rw [hsegs, parseQsl_nil]
    simp +decide [parseRoute, unquote_quote, string_eta, hvd, hvr, bind, Except.bind,
      pure, Except.pure]

theorem roundtrip_task (reg : Registry) (key host : String) (netloc hchars : List Char)
    (d tv : String) (r : Option String)
    (hkey : instanceKeyOk key = true)
    (hlook : lookupInstance reg key = some host)
    (hhost : host.data = "http://".data ++ netloc ∨ host.data = "https://".data ++ netloc)
    (hn1 : netloc ≠ [])
    (hn2 : ∀ c ∈ netloc, (isAlnumCh c || c = '_' || c = '.' || c = '-' || c = ':') = true)
    (hh : hostnameOf netloc = some hchars)
    (hres : resolveInstanceKeyFromHost reg (String.mk hchars) = some key)
    (hd : dagIdOk d = true)
    (htv : taskIdOk tv = true)
    (hr : ∀ x, r = some x → dagRunIdOk x = true) :
    ∃ u, build_airflow_ui_url reg key "task" d r (some tv) none = Except.ok u ∧
      parse_airflow_ui_url reg u = Except.ok ⟨key, "task", some d, r, some tv, none⟩ := by
  obtain ⟨sch, hsl, hhd⟩ : ∃ sch, (sch = "http".data ∨ sch = "https".data) ∧
      host.data = sch ++ ':' :: '/' :: '/' :: netloc := by
    rcases hhost with h | h
    · exact ⟨"http".data, Or.inl rfl, by rw [h]; rfl⟩
    · exact ⟨"https".data, Or.inr rfl, by rw [h]; rfl⟩
  have hbase : rstripSlash host.data = host.data := by
    rw [hhd]
    have hx : sch ++ ':' :: '/' :: '/' :: netloc = (sch ++ [':', '/', '/']) ++ netloc := by
      simp
    rw [hx, rstripSlash_append _ _ hn1 (fun c hc => netlocset_ne (hn2 c hc) '/' (by decide)),
      ← hx]
  have hvd : validate_dag_id (some d) = Except.ok (some d) := by
    simp [validate_dag_id, hd]
  have hdne : d.isEmpty = false := by
    apply isEmpty_false_of_ne
    intro he
    subst he
    exact absurd hd (by decide)
  have htne : tv.isEmpty = false := by
    apply isEmpty_false_of_ne
    intro he
    subst he
    exact absurd htv (by decide)
  have hvt : validate_task_id (some tv) = Except.ok (some tv) := by
    simp [validate_task_id, htv]
  have htvne : tv.data ≠ [] := by
    intro he
    apply absurd htv
    rw [show tv = String.mk tv.data from rfl, he]
    decide
  have hqdie : (quoteChars d.data).isEmpty = false := by
    rcases hq : quoteChars d.data with _ | ⟨a, t⟩
    · exact absurd hq (quoteChars_ne_nil d.data (fun he => by
        apply absurd hd
        rw [show d = String.mk d.data from rfl, he]
        decide))
    · rfl
  have hsegs : (splitAll '/' ('/' :: ("dags".data ++ '/' :: (quoteChars d.data ++ '/' ::
      "task".data)))).filter (fun s => !s.isEmpty) =
      ["dags".data, quoteChars d.data, "task".data] := by
    have h1 : splitAll '/' ('/' :: ("dags".data ++ '/' :: (quoteChars d.data ++ '/' ::
        "task".data))) =
        [] :: splitAll '/' ("dags".data ++ '/' :: (quoteChars d.data ++ '/' ::
          "task".data)) := by
      show (if '/' = '/' then [] :: splitAll '/' ("dags".data ++ '/' ::
        (quoteChars d.data ++ '/' :: "task".data)) else _) = _
      rw [if_pos rfl]
    rw [h1, splitAll_append '/' "dags".data _ (by decide),
      splitAll_append '/' (quoteChars d.data) _
        (fun hm => absurd (mem_quoteChars _ _ hm) (by decide)),
      splitAll_no_sep '/' "task".data (by decide)]
    simp [List.filter, hqdie]
  have hpathchars : ∀ c ∈ "dags".data ++ '/' :: (quoteChars d.data ++ '/' :: "task".data),
      (isAlnumCh c || c = '_' || c = '.' || c = '-' || c = '~' ||
        c = '%' || c = '/') = true := by
    intro c hc
    rcases List.mem_append.mp hc with hc | hc
    · exact (by decide : ∀ c ∈ "dags".data, (isAlnumCh c || c = '_' || c = '.' ||
        c = '-' || c = '~' || c = '%' || c = '/') = true) c hc
    · rcases List.mem_cons.mp hc with hc | hc
      · subst hc; decide
      · rcases List.mem_append.mp hc with hc | hc
        · rw [Bool.or_eq_true]
          exact Or.inl (mem_quoteChars _ _ hc)
        · rcases List.mem_cons.mp hc with hc | hc
          · subst hc; decide
          · exact (by decide : ∀ c ∈ "task".data, (isAlnumCh c || c = '_' || c = '.' ||
              c = '-' || c = '~' || c = '%' || c = '/') = true) c hc
  rcases r with _ | rv
  · have henc : encodeQuery [("task_id", some tv), ("dag_run_id", (none : Option String))] =
        "task_id".data ++ '=' :: quoteChars tv.data := by
      show List.intercalate ['&'] [quoteChars "task_id".data ++ '=' ::
        quoteChars tv.data] = _
      rw [intercalate_single, show quoteChars "task_id".data = "task_id".data from by decide]
    have hql : parseQsl ("task_id".data ++ '=' :: quoteChars tv.data) =
        [("task_id", tv)] := by
      rw [parseQsl_single "task_id".data tv.data htvne (by decide) (by decide)]
      rw [show String.mk (unquotePlus "task_id".data) = "task_id" from by decide, string_eta]
    refine ⟨String.mk (host.data ++ "/dags/".data ++ quoteChars d.data ++ "/task".data ++
      '?' :: ("task_id".data ++ '=' :: quoteChars tv.data)), ?_, ?_⟩
    · simp +decide [build_airflow_ui_url, validate_instance_key_ok hkey, hvd, hdne, hlook,
        hbase, hvt, htne, optStrTruthy, validate_dag_run_id, henc, bind, Except.bind,
        pure, Except.pure]
    · have hu : (String.mk (host.data ++ "/dags/".data ++ quoteChars d.data ++
          "/task".data ++ '?' :: ("task_id".data ++ '=' :: quoteChars tv.data))).data =
          sch ++ ':' :: '/' :: '/' :: (netloc ++ ('/' :: ("dags".data ++ '/' ::
            (quoteChars d.data ++ '/' :: "task".data))) ++
            '?' :: ("task_id".data ++ '=' :: quoteChars tv.data)) := by
        show host.data ++ "/dags/".data ++ quoteChars d.data ++ "/task".data ++
          '?' :: ("task_id".data ++ '=' :: quoteChars tv.data) = _
        rw [hhd, show "/dags/".data = '/' :: ("dags".data ++ ['/']) from rfl,
          show "/task".data = '/' :: "task".data from rfl]
        simp [List.append_assoc]
      rw [parse_built reg key _ netloc hchars ("dags".data ++ '/' :: (quoteChars d.data ++
          '/' :: "task".data)) ("task_id".data ++ '=' :: quoteChars tv.data)
          ('?' :: ("task_id".data ++ '=' :: quoteChars tv.data)) sch hu hsl hn2 hh hres hkey
        hpathchars
        (by
          intro c hc
          rcases List.mem_append.mp hc with hc | hc
          · exact (by decide : ∀ c ∈ "task_id".data, (isAlnumCh c || c = '_' || c = '.' ||
              c = '-' || c = '~' || c = '%' || c = '=' || c = '&') = true) c hc
          · rcases List.mem_cons.mp hc with hc | hc
            · subst hc; decide
            · rw [Bool.or_eq_true]
              exact Or.inl (by rw [Bool.or_eq_true]; exact Or.inl (mem_quoteChars _ _ hc)))
        (Or.inr rfl)]
      rw [hsegs, hql]
      simp +decide [parseRoute, unquote_quote, string_eta, hvd, hvt, validate_dag_run_id,
        qGet, List.find?, bind, Except.bind, pure, Except.pure]
  · have hrvne : rv.data ≠ [] := by
      intro he
      apply absurd (hr rv rfl)
      rw [show rv = String.mk rv.data from rfl, he]
      decide
    have hvr : validate_dag_run_id (some rv) = Except.ok (some rv) := by
      simp [validate_dag_run_id, hr rv rfl]
    have henc : encodeQuery [("task_id", some tv), ("dag_run_id", some rv)] =
        "task_id".data ++ '=' :: (quoteChars tv.data ++ '&' ::
          ("dag_run_id".data ++ '=' :: quoteChars rv.data)) := by
      show List.intercalate ['&'] [quoteChars "task_id".data ++ '=' :: quoteChars tv.data,
        quoteChars "dag_run_id".data ++ '=' :: quoteChars rv.data] = _
      rw [intercalate_pair, show quoteChars "task_id".data = "task_id".data from by decide,
        show quoteChars "dag_run_id".data = "dag_run_id".data from by decide]
      simp [List.append_assoc]
    have hql : parseQsl ("task_id".data ++ '=' :: (quoteChars tv.data ++ '&' ::
        ("dag_run_id".data ++ '=' :: quoteChars rv.data))) =
        [("task_id", tv), ("dag_run_id", rv)] := by
      rw [parseQsl_double "task_id".data tv.data "dag_run_id".data rv.data htvne hrvne
        (by decide) (by decide) (by decide) (by decide)]
      rw [show String.mk (unquotePlus "task_id".data) = "task_id" from by decide,
        show String.mk (unquotePlus "dag_run_id".data) = "dag_run_id" from by decide]
    refine ⟨String.mk (host.data ++ "/dags/".data ++ quoteChars d.data ++ "/task".data ++
      '?' :: ("task_id".data ++ '=' :: (quoteChars tv.data ++ '&' ::
        ("dag_run_id".data ++ '=' :: quoteChars rv.data)))), ?_, ?_⟩
    · simp +decide [build_airflow_ui_url, validate_instance_key_ok hkey, hvd, hdne, hlook,
        hbase, hvt, htne, optStrTruthy, hvr, henc, bind, Except.bind, pure, Except.pure]
    · have hu : (String.mk (host.data ++ "/dags/".data ++ quoteChars d.data ++
          "/task".data ++ '?' :: ("task_id".data ++ '=' :: (quoteChars tv.data ++ '&' ::
            ("dag_run_id".data ++ '=' :: quoteChars rv.data))))).data =
          sch ++ ':' :: '/' :: '/' :: (netloc ++ ('/' :: ("dags".data ++ '/' ::
            (quoteChars d.data ++ '/' :: "task".data))) ++
            '?' :: ("task_id".data ++ '=' :: (quoteChars tv.data ++ '&' ::
              ("dag_run_id".data ++ '=' :: quoteChars rv.data)))) := by
        show host.data ++ "/dags/".data ++ quoteChars d.data ++ "/task".data ++
          '?' :: ("task_id".data ++ '=' :: (quoteChars tv.data ++ '&' ::
            ("dag_run_id".data ++ '=' :: quoteChars rv.data))) = _
        rw [hhd, show "/dags/".data = '/' :: ("dags".data ++ ['/']) from rfl,
          show "/task".data = '/' :: "task".data from rfl]
        simp [List.append_assoc]
      rw [parse_built reg key _ netloc hchars ("dags".data ++ '/' :: (quoteChars d.data ++
          '/' :: "task".data))
          ("task_id".data ++ '=' :: (quoteChars tv.data ++ '&' ::
            ("dag_run_id".data ++ '=' :: quoteChars rv.data)))
          ('?' :: ("task_id".data ++ '=' :: (quoteChars tv.data ++ '&' ::
            ("dag_run_id".data ++ '=' :: quoteChars rv.data)))) sch hu hsl hn2 hh hres hkey
        hpathchars
        (by
          intro c hc
          rcases List.mem_append.mp hc with hc | hc
          · exact (by decide : ∀ c ∈ "task_id".data, (isAlnumCh c || c = '_' || c = '.' ||
              c = '-' || c = '~' || c = '%' || c = '=' || c = '&') = true) c hc
          · rcases List.mem_cons.mp hc with hc | hc
            · subst hc; decide
            · rcases List.mem_append.mp hc with hc | hc
              · rw [Bool.or_eq_true]
                exact Or.inl (by rw [Bool.or_eq_true]; exact Or.inl (mem_quoteChars _ _ hc))
              · rcases List.mem_cons.mp hc with hc | hc
                · subst hc; decide
                · rcases List.mem_append.mp hc with hc | hc
                  · exact (by decide : ∀ c ∈ "dag_run_id".data, (isAlnumCh c || c = '_' ||
                      c = '.' || c = '-' || c = '~' || c = '%' || c = '=' ||
                      c = '&') = true) c hc
                  · rcases List.mem_cons.mp hc with hc | hc
                    · subst hc; decide
                    · rw [Bool.or_eq_true]
                      exact Or.inl (by rw [Bool.or_eq_true]; exact Or.inl (mem_quoteChars _ _ hc)))
        (Or.inr rfl)]
      rw [hsegs, hql]
      simp +decide [parseRoute, unquote_quote, string_eta, hvd, hvt, hvr, qGet,
        List.find?, bind, Except.bind, pure, Except.pure]

theorem intStr_chars (i : Int) : ∀ c ∈ intStr i, (isDigitCh c || c = '-') = true := by
  intro c hc
  unfold intStr at hc
  split at hc
  · rcases List.mem_cons.mp hc with hc | hc
    · subst hc; decide
    · rw [Bool.or_eq_true]
      exact Or.inl ((natStr_facts _).2.1 c hc)
  · rw [Bool.or_eq_true]
    exact Or.inl ((natStr_facts _).2.1 c hc)

theorem intStr_ne_nil (i : Int) : intStr i ≠ [] := by
  unfold intStr
  split
  · simp
  · exact (natStr_facts _).1

theorem roundtrip_log (reg : Registry) (key host : String) (netloc hchars : List Char)
    (d rv tv : String) (n : Int)
    (hkey : instanceKeyOk key = true)
    (hlook : lookupInstance reg key = some host)
    (hhost : host.data = "http://".data ++ netloc ∨ host.data = "https://".data ++ netloc)
    (hn1 : netloc ≠ [])
    (hn2 : ∀ c ∈ netloc, (isAlnumCh c || c = '_' || c = '.' || c = '-' || c = ':') = true)
    (hh : hostnameOf netloc = some hchars)
    (hres : resolveInstanceKeyFromHost reg (String.mk hchars) = some key)
    (hd : dagIdOk d = true)
    (hrv : dagRunIdOk rv = true)
    (htv : taskIdOk tv = true) :
    ∃ u, build_airflow_ui_url reg key "log" d (some rv) (some tv) (some n) = Except.ok u ∧
      parse_airflow_ui_url reg u =
        Except.ok ⟨key, "log", some d, some rv, some tv, some n⟩ := by
  obtain ⟨sch, hsl, hhd⟩ : ∃ sch, (sch = "http".data ∨ sch = "https".data) ∧
      host.data = sch ++ ':' :: '/' :: '/' :: netloc := by
    rcases hhost with h | h
    · exact ⟨"http".data, Or.inl rfl, by rw [h]; rfl⟩
    · exact ⟨"https".data, Or.inr rfl, by rw [h]; rfl⟩
  have hbase : rstripSlash host.data = host.data := by
    rw [hhd]
    have hx : sch ++ ':' :: '/' :: '/' :: netloc = (sch ++ [':', '/', '/']) ++ netloc := by
      simp
    rw [hx, rstripSlash_append _ _ hn1 (fun c hc => netlocset_ne (hn2 c hc) '/' (by decide)),
      ← hx]
  have hvd : validate_dag_id (some d) = Except.ok (some d) := by
    simp [validate_dag_id, hd]
  have hdne : d.isEmpty = false := by
    apply isEmpty_false_of_ne
    intro he
    subst he
    exact absurd hd (by decide)
  have hrne : rv.isEmpty = false := by
    apply isEmpty_false_of_ne
    intro he
    subst he
    exact absurd hrv (by decide)
  have htne : tv.isEmpty = false := by
    apply isEmpty_false_of_ne
    intro he
    subst he
    exact absurd htv (by decide)
  have hvr : validate_dag_run_id (some rv) = Except.ok (some rv) := by
    simp [validate_dag_run_id, hrv]
  have hvt : validate_task_id (some tv) = Except.ok (some tv) := by
    simp [validate_task_id, htv]
  have hqdie : (quoteChars d.data).isEmpty = false := by
    rcases hq : quoteChars d.data with _ | ⟨a, t⟩
    · exact absurd hq (quoteChars_ne_nil d.data (fun he => by
        apply absurd hd
        rw [show d = String.mk d.data from rfl, he]
        decide))
    · rfl
  have hqrie : (quoteChars rv.data).isEmpty = false := by
    rcases hq : quoteChars rv.data with _ | ⟨a, t⟩
    · exact absurd hq (quoteChars_ne_nil rv.data (fun he => by
        apply absurd hrv
        rw [show rv = String.mk rv.data from rfl, he]
        decide))
    · rfl
  have hqtie : (quoteChars tv.data).isEmpty = false := by
    rcases hq : quoteChars tv.data with _ | ⟨a, t⟩
    · exact absurd hq (quoteChars_ne_nil tv.data (fun he => by
        apply absurd htv
        rw [show tv = String.mk tv.data from rfl, he]
        decide))
    · rfl
  have hiie : (intStr n).isEmpty = false := by
    rcases hq : intStr n with _ | ⟨a, t⟩
    · exact absurd hq (intStr_ne_nil n)
    · rfl
  have hinoslash : '/' ∉ intStr n := by
    intro hm
    exact absurd (intStr_chars n '/' hm) (by decide)
  have hsegs : (splitAll '/' ('/' :: ("dags".data ++ '/' :: (quoteChars d.data ++ '/' ::
      ("dagRuns".data ++ '/' :: (quoteChars rv.data ++ '/' :: ("taskInstances".data ++
      '/' :: (quoteChars tv.data ++ '/' :: ("logs".data ++ '/' ::
      intStr n))))))))).filter (fun s => !s.isEmpty) =
      ["dags".data, quoteChars d.data, "dagRuns".data, quoteChars rv.data,
       "taskInstances".data, quoteChars tv.data, "logs".data, intStr n] := by
    have h1 : splitAll '/' ('/' :: ("dags".data ++ '/' :: (quoteChars d.data ++ '/' ::
        ("dagRuns".data ++ '/' :: (quoteChars rv.data ++ '/' :: ("taskInstances".data ++
        '/' :: (quoteChars tv.data ++ '/' :: ("logs".data ++ '/' :: intStr n)))))))) =
        [] :: splitAll '/' ("dags".data ++ '/' :: (quoteChars d.data ++ '/' ::
        ("dagRuns".data ++ '/' :: (quoteChars rv.data ++ '/' :: ("taskInstances".data ++
        '/' :: (quoteChars tv.data ++ '/' :: ("logs".data ++ '/' :: intStr n))))))) := by
      show (if '/' = '/' then [] :: splitAll '/' ("dags".data ++ '/' ::
        (quoteChars d.data ++ '/' :: ("dagRuns".data ++ '/' :: (quoteChars rv.data ++
        '/' :: ("taskInstances".data ++ '/' :: (quoteChars tv.data ++ '/' ::
        ("logs".data ++ '/' :: intStr n))))))) else _) = _
      rw [if_pos rfl]
    rw [h1, splitAll_append '/' "dags".data _ (by decide),
      splitAll_append '/' (quoteChars d.data) _
        (fun hm => absurd (mem_quoteChars _ _ hm) (by decide)),
      splitAll_append '/' "dagRuns".data _ (by decide),
      splitAll_append '/' (quoteChars rv.data) _
        (fun hm => absurd (mem_quoteChars _ _ hm) (by decide)),
      splitAll_append '/' "taskInstances".data _ (by decide),
      splitAll_append '/' (quoteChars tv.data) _
        (fun hm => absurd (mem_quoteChars _ _ hm) (by decide)),
      splitAll_append '/' "logs".data _ (by decide),
      splitAll_no_sep '/' (intStr n) hinoslash]
    simp [List.filter, hqdie, hqrie, hqtie, hiie]
  refine ⟨String.mk (host.data ++ "/dags/".data ++ quoteChars d.data ++ "/dagRuns/".data ++
    quoteChars rv.data ++ "/taskInstances/".data ++ quoteChars tv.data ++ "/logs/".data ++
    intStr n), ?_, ?_⟩
  · simp +decide [build_airflow_ui_url, validate_instance_key_ok hkey, hvd, hdne, hlook,
      hbase, hvr, hvt, hrne, htne, optStrTruthy, bind, Except.bind, pure, Except.pure]
  · have hu : (String.mk (host.data ++ "/dags/".data ++ quoteChars d.data ++
        "/dagRuns/".data ++ quoteChars rv.data ++ "/taskInstances/".data ++
        quoteChars tv.data ++ "/logs/".data ++ intStr n)).data =
        sch ++ ':' :: '/' :: '/' :: (netloc ++ ('/' :: ("dags".data ++ '/' ::
          (quoteChars d.data ++ '/' :: ("dagRuns".data ++ '/' :: (quoteChars rv.data ++
          '/' :: ("taskInstances".data ++ '/' :: (quoteChars tv.data ++ '/' ::
          ("logs".data ++ '/' :: intStr n)))))))) ++ ([] : List Char)) := by
      show host.data ++ "/dags/".data ++ quoteChars d.data ++ "/dagRuns/".data ++
        quoteChars rv.data ++ "/taskInstances/".data ++ quoteChars tv.data ++
        "/logs/".data ++ intStr n = _
      rw [hhd, show "/dags/".data = '/' :: ("dags".data ++ ['/']) from rfl,
        show "/dagRuns/".data = '/' :: ("dagRuns".data ++ ['/']) from rfl,
        show "/taskInstances/".data = '/' :: ("taskInstances".data ++ ['/']) from rfl,
        show "/logs/".data = '/' :: ("logs".data ++ ['/']) from rfl]
      simp [List.append_assoc]
    rw [parse_built reg key _ netloc hchars ("dags".data ++ '/' :: (quoteChars d.data ++
        '/' :: ("dagRuns".data ++ '/' :: (quoteChars rv.data ++ '/' ::
        ("taskInstances".data ++ '/' :: (quoteChars tv.data ++ '/' :: ("logs".data ++
        '/' :: intStr n))))))) [] [] sch hu hsl hn2 hh hres hkey
      (by
        intro c hc
        rcases List.mem_append.mp hc with hc | hc
        · exact (by decide : ∀ c ∈ "dags".data, (isAlnumCh c || c = '_' || c = '.' ||
            c = '-' || c = '~' || c = '%' || c = '/') = true) c hc
        · rcases List.mem_cons.mp hc with hc | hc
          · subst hc; decide
          · rcases List.mem_append.mp hc with hc | hc
            · rw [Bool.or_eq_true]
              exact Or.inl (mem_quoteChars _ _ hc)
            · rcases List.mem_cons.mp hc with hc | hc
              · subst hc; decide
              · rcases List.mem_append.mp hc with hc | hc
                · exact (by decide : ∀ c ∈ "dagRuns".data, (isAlnumCh c || c = '_' ||
                    c = '.' || c = '-' || c = '~' || c = '%' || c = '/') = true) c hc
                · rcases List.mem_cons.mp hc with hc | hc
                  · subst hc; decide
                  · rcases List.mem_append.mp hc with hc | hc
                    · rw [Bool.or_eq_true]
                      exact Or.inl (mem_quoteChars _ _ hc)
                    · rcases List.mem_cons.mp hc with hc | hc
                      · subst hc; decide
                      · rcases List.mem_append.mp hc with hc | hc
                        · exact (by decide : ∀ c ∈ "taskInstances".data, (isAlnumCh c ||
                            c = '_' || c = '.' || c = '-' || c = '~' || c = '%' ||
                            c = '/') = true) c hc
                        · rcases List.mem_cons.mp hc with hc | hc
                          · subst hc; decide
                          · rcases List.mem_append.mp hc with hc | hc
                            · rw [Bool.or_eq_true]
                              exact Or.inl (mem_quoteChars _ _ hc)
                            · rcases List.mem_cons.mp hc with hc | hc
                              · subst hc; decide
                              · rcases List.mem_append.mp hc with hc | hc
                                · exact (by decide : ∀ c ∈ "logs".data, (isAlnumCh c ||
                                    c = '_' || c = '.' || c = '-' || c = '~' || c = '%' ||
                                    c = '/') = true) c hc
                                · rcases List.mem_cons.mp hc with hc | hc
                                  · subst hc; decide
                                  · have hd2 := intStr_chars n c hc
                                    rw [Bool.or_eq_true] at hd2
                                    rcases hd2 with hdg | hdg
                                    · have halnum : isAlnumCh c = true := by
                                        unfold isAlnumCh
                                        rw [Bool.or_eq_true]
                                        exact Or.inr hdg
                                      simp [halnum]
                                    · rw [decide_eq_true_eq] at hdg
                                      subst hdg
                                      decide)
      (by intro c hc; cases hc) (Or.inl ⟨rfl, rfl⟩)]
    rw [hsegs, parseQsl_nil]
    simp +decide [parseRoute, unquote_quote, string_eta, hvd, hvr, hvt, pyInt_intStr,
      bind, Except.bind, pure, Except.pure]

/-- C1: build/parse round-trip.  For an instance whose configured host
    is a plain http(s) base URL whose parsed hostname resolves back to
    that instance key, and identifiers inside the validator character
    classes, parsing the URL produced by the builder returns exactly the
    instance key, the route and the identifier strings that were
    supplied, for every route of the builder — including identifiers
    holding plus, dot, colon or hyphen — and, concretely, building the
    grid URL for the scheduled run id percent-encodes it as
    dag_run_id=scheduled__2025-11-04T12%3A15%3A00%2B00%3A00 and parsing
    that URL recovers the identical run id with its literal plus. -/
theorem build_parse_roundtrip :
    (∀ (reg : Registry) (key host : String) (netloc hchars : List Char)
       (d : String) (r : Option String) (route : String),
        instanceKeyOk key = true →
        lookupInstance reg key = some host →
        (host.data = "http://".data ++ netloc ∨ host.data = "https://".data ++ netloc) →
        netloc ≠ [] →
        (∀ c ∈ netloc, (isAlnumCh c || c = '_' || c = '.' || c = '-' || c = ':') = true) →
        hostnameOf netloc = some hchars →
        resolveInstanceKeyFromHost reg (String.mk hchars) = some key →
        dagIdOk d = true →
        (∀ x, r = some x → dagRunIdOk x = true) →
        (route = "grid" ∨ route = "graph") →
        ∃ u, build_airflow_ui_url reg key route d r none none = Except.ok u ∧
          parse_airflow_ui_url reg u = Except.ok ⟨key, route, some d, r, none, none⟩) ∧
    (∀ (reg : Registry) (key host : String) (netloc hchars : List Char) (d rv : String),
        instanceKeyOk key = true →
        lookupInstance reg key = some host →
        (host.data = "http://".data ++ netloc ∨ host.data = "https://".data ++ netloc) →
        netloc ≠ [] →
        (∀ c ∈ netloc, (isAlnumCh c || c = '_' || c = '.' || c = '-' || c = ':') = true) →
        hostnameOf netloc = some hchars →
        resolveInstanceKeyFromHost reg (String.mk hchars) = some key →
        dagIdOk d = true →
        dagRunIdOk rv = true →
        ∃ u, build_airflow_ui_url reg key "dag_run" d (some rv) none none = Except.ok u ∧
          parse_airflow_ui_url reg u =
            Except.ok ⟨key, "dag_run", some d, some rv, none, none⟩) ∧
    (∀ (reg : Registry) (key host : String) (netloc hchars : List Char) (d tv : String)
       (r : Option String),
        instanceKeyOk key = true →
        lookupInstance reg key = some host →
        (host.data = "http://".data ++ netloc ∨ host.data = "https://".data ++ netloc) →
        netloc ≠ [] →
        (∀ c ∈ netloc, (isAlnumCh c || c = '_' || c = '.' || c = '-' || c = ':') = true) →
        hostnameOf netloc = some hchars →
        resolveInstanceKeyFromHost reg (String.mk hchars) = some key →
        dagIdOk d = true →
        taskIdOk tv = true →
        (∀ x, r = some x → dagRunIdOk x = true) →
        ∃ u, build_airflow_ui_url reg key "task" d r (some tv) none = Except.ok u ∧
          parse_airflow_ui_url reg u =
            Except.ok ⟨key, "task", some d, r, some tv, none⟩) ∧
    (∀ (reg : Registry) (key host : String) (netloc hchars : List Char)
       (d rv tv : String) (n : Int),
        instanceKeyOk key = true →
        lookupInstance reg key = some host →
        (host.data = "http://".data ++ netloc ∨ host.data = "https://".data ++ netloc) →
        netloc ≠ [] →
        (∀ c ∈ netloc, (isAlnumCh c || c = '_' || c = '.' || c = '-' || c = ':') = true) →
        hostnameOf netloc = some hchars →
        resolveInstanceKeyFromHost reg (String.mk hchars) = some key →
        dagIdOk d = true →
        dagRunIdOk rv = true →
        taskIdOk tv = true →
        ∃ u, build_airflow_ui_url reg key "log" d (some rv) (some tv) (some n) =
            Except.ok u ∧
          parse_airflow_ui_url reg u =
            Except.ok ⟨key, "log", some d, some rv, some tv, some n⟩) ∧
    build_airflow_ui_url demoReg "stg" "grid" "d1"
        (some "scheduled__2025-11-04T12:15:00+00:00") none none =
      Except.ok
        "https://stg.example.com/dags/d1/grid?dag_run_id=scheduled__2025-11-04T12%3A15%3A00%2B00%3A00" ∧
    parse_airflow_ui_url demoReg
        "https://stg.example.com/dags/d1/grid?dag_run_id=scheduled__2025-11-04T12%3A15%3A00%2B00%3A00" =
      Except.ok ⟨"stg", "grid", some "d1", some "scheduled__2025-11-04T12:15:00+00:00",
        none, none⟩ := by
  refine ⟨?_, ?_, ?_, ?_, by decide, by decide⟩
  · intro reg key host netloc hchars d r route h1 h2 h3 h4 h5 h6 h7 h8 h9 h10
    exact roundtrip_grid reg key host netloc hchars d r route h1 h2 h3 h4 h5 h6 h7 h10 h8 h9
  · intro reg key host netloc hchars d rv h1 h2 h3 h4 h5 h6 h7 h8 h9
    exact roundtrip_dag_run reg key host netloc hchars d rv h1 h2 h3 h4 h5 h6 h7 h8 h9
  · intro reg key host netloc hchars d tv r h1 h2 h3 h4 h5 h6 h7 h8 h9 h10
    exact roundtrip_task reg key host netloc hchars d tv r h1 h2 h3 h4 h5 h6 h7 h8 h9 h10
  · intro reg key host netloc hchars d rv tv n h1 h2 h3 h4 h5 h6 h7 h8 h9 h10
    exact roundtrip_log reg key host netloc hchars d rv tv n h1 h2 h3 h4 h5 h6 h7 h8 h9 h10

/-- Witness for C1: the grid round-trip applied at a concrete directory
    and a run id holding plus, dot and colon. -/
theorem build_parse_roundtrip_witness :
    build_airflow_ui_url demoReg "stg" "grid" "d1" (some "run+1.x:z") none none =
      Except.ok "https://stg.example.com/dags/d1/grid?dag_run_id=run%2B1.x%3Az" ∧
    parse_airflow_ui_url demoReg
        "https://stg.example.com/dags/d1/grid?dag_run_id=run%2B1.x%3Az" =
      Except.ok ⟨"stg", "grid", some "d1", some "run+1.x:z", none, none⟩ := by
  obtain ⟨u, hb, hp⟩ := build_parse_roundtrip.1 demoReg "stg" "https://stg.example.com"
    "stg.example.com".data "stg.example.com".data "d1" (some "run+1.x:z") "grid"
    (by decide) (by decide) (Or.inr (by decide)) (by decide) (by decide) (by decide)
    (by decide) (by decide) (by intro x hx; cases hx; decide) (Or.inl rfl)
  have hb2 : build_airflow_ui_url demoReg "stg" "grid" "d1" (some "run+1.x:z") none none =
      Except.ok "https://stg.example.com/dags/d1/grid?dag_run_id=run%2B1.x%3Az" := by decide
  rw [hb2] at hb
  injection hb with hu
  subst hu
  exact ⟨hb2, hp⟩

theorem find?_append_first {α : Type} (p : α → Bool) :
    ∀ (l1 : List α) (x : α) (l2 : List α), (∀ y ∈ l1, ¬(p y = true)) → p x = true →
      (l1 ++ x :: l2).find? p = some x := by
  intro l1
  induction l1 with
  | nil =>
      intro x l2 _ hx
      rw [List.nil_append]
      exact List.find?_cons_of_pos _ hx
  | cons a t ihyp =>
      intro x l2 hall hx
      have ha : p a = false := by
        have := hall a (by simp)
        simpa using this
      rw [List.cons_append, List.find?_cons_of_neg _ (by simp [ha])]
      exact ihyp x l2 (fun y hy => hall y (by simp [hy])) hx

/-- Counterexample to C9: host matching is not case-sensitive as
    received — an upper-case host spelling that equals no configured
    parsed hostname still resolves to an instance, because both the URL
    hostname and the configured hostnames are lowercased by URL parsing
    before comparison. -/
theorem host_match_not_case_sensitive :
    parse_airflow_ui_url demoReg "https://STG.example.com/dags/d1/grid" =
      Except.ok ⟨"stg", "grid", some "d1", none, none, none⟩ ∧
    (∀ p ∈ demoReg.instances, ¬(regHostOf p.2 = some "STG.example.com")) := by decide

/-- C9 (amended): on a well-formed http(s) URL with a resolvable
    hostname, parse fails with the Unknown-instance-host NOT_FOUND error
    exactly when the lowercased parsed hostname equals no configured
    instance host's lowercased parsed hostname (matching is
    case-insensitive with respect to the received spellings), no-match
    is equivalent to failure of every configured entry, and when several
    configured instances share the hostname the first configured match
    wins in directory iteration order. -/
theorem host_resolution :
    (∀ (reg : Registry) (host : String),
        resolveInstanceKeyFromHost reg host = none ↔
          ∀ p ∈ reg.instances, ¬(regHostOf p.2 = some host)) ∧
    (∀ (reg : Registry) (host : String) (l1 l2 : List (String × String)) (k ihost : String),
        reg.instances = l1 ++ (k, ihost) :: l2 →
        (∀ p ∈ l1, ¬(regHostOf p.2 = some host)) →
        regHostOf ihost = some host →
        resolveInstanceKeyFromHost reg host = some k) ∧
    (∀ (reg : Registry) (url : String) (sp : UrlSplitResult) (hn : List Char),
        urlsplitChars url.data = Except.ok sp →
        (sp.scheme.map lowerCh = "http".data ∨ sp.scheme.map lowerCh = "https".data) →
        hostnameOf sp.netloc = some hn →
        resolveInstanceKeyFromHost reg (String.mk hn) = none →
        parse_airflow_ui_url reg url = Except.error ⟨"Unknown instance host", "NOT_FOUND"⟩) ∧
    (∀ (reg : Registry) (url : String),
        parse_airflow_ui_url reg url = Except.error ⟨"Unknown instance host", "NOT_FOUND"⟩ →
        ∃ sp hn, urlsplitChars url.data = Except.ok sp ∧ hostnameOf sp.netloc = some hn ∧
          resolveInstanceKeyFromHost reg (String.mk hn) = none) := by
  refine ⟨?_, ?_, ?_, ?_⟩
  · intro reg host
    unfold resolveInstanceKeyFromHost
    constructor
    · intro hn p hp
      rw [Option.map_eq_none', List.find?_eq_none] at hn
      have := hn p hp
      simpa using this
    · intro hall
      rw [Option.map_eq_none', List.find?_eq_none]
      intro p hp
      simpa using hall p hp
  · intro reg host l1 l2 k ihost hreg hl1 hih
    unfold resolveInstanceKeyFromHost
    rw [hreg, find?_append_first _ l1 (k, ihost) l2
      (fun y hy => by simpa using hl1 y hy) (by simpa using hih)]
    rfl
  · intro reg url sp hn hsp hsch hh hres
    have hne : hn ≠ [] := hostnameOf_ne_nil _ _ hh
    have hie : hn.isEmpty = false := by
      cases hn with
      | nil => exact absurd rfl hne
      | cons a t => rfl
    rcases hsch with hs | hs <;>
      simp +decide [parse_airflow_ui_url, hsp, hs, hh, hie, hres]
  · intro reg url hparse
    cases hsp : urlsplitChars url.data with
    | error u =>
        have h2 : parse_airflow_ui_url reg url =
            Except.error ⟨"Invalid URL", "INVALID_INPUT"⟩ := by
          simp [parse_airflow_ui_url, hsp]
        rw [h2] at hparse
        exact absurd hparse (by decide)
    | ok sp =>
        by_cases hv : sp.scheme.map lowerCh = "http".data ∨
            sp.scheme.map lowerCh = "https".data
        · rcases hv with hs | hs
          all_goals
            cases hho : hostnameOf sp.netloc with
            | none =>
                have h2 : parse_airflow_ui_url reg url =
                    Except.error ⟨"Missing hostname in URL", "INVALID_INPUT"⟩ := by
                  simp +decide [parse_airflow_ui_url, hsp, hs, hho]
                rw [h2] at hparse
                exact absurd hparse (by decide)
            | some hn =>
                have hne : hn ≠ [] := hostnameOf_ne_nil _ _ hho
                have hie : hn.isEmpty = false := by
                  cases hn with
                  | nil => exact absurd rfl hne
                  | cons a t => rfl
                cases hres : resolveInstanceKeyFromHost reg (String.mk hn) with
                | none => exact ⟨sp, hn, rfl, hho, hres⟩
                | some k =>
                    have h2 : parse_airflow_ui_url reg url = (do
                        let k2 ← validate_instance_key k
                        let r ← parseRoute
                          ((splitAll '/' sp.path).filter (fun s => !s.isEmpty))
                          (parseQsl sp.query)
                        pure ⟨k2, r.1, r.2.1, r.2.2.1, r.2.2.2.1, r.2.2.2.2⟩) := by
                      simp +decide [parse_airflow_ui_url, hsp, hs, hho, hie, hres]
                    rw [h2] at hparse
                    cases hvk : validate_instance_key k with
                    | error e0 =>
                        rw [hvk, res_bind_error] at hparse
                        injection hparse with h1
                        have hc := validate_instance_key_code k e0 hvk
                        rw [h1] at hc
                        exact absurd hc (by decide)
                    | ok k2 =>
                        rw [hvk, res_bind_ok] at hparse
                        cases hpr : parseRoute
                            ((splitAll '/' sp.path).filter (fun s => !s.isEmpty))
                            (parseQsl sp.query) with
                        | error e1 =>
                            rw [hpr, res_bind_error] at hparse
                            injection hparse with h1
                            have hc := specRouteTable_code _ _ e1
                              (by rw [← parseRoute_eq_specRouteTable]; exact hpr)
                            rw [h1] at hc
                            exact absurd hc (by decide)
                        | ok r =>
                            rw [hpr, res_bind_ok] at hparse
                            exact Except.noConfusion hparse
        · have hva : ¬(sp.scheme.map lowerCh = "http".data) := fun h => hv (Or.inl h)
          have hvb : ¬(sp.scheme.map lowerCh = "https".data) := fun h => hv (Or.inr h)
          by_cases he : (sp.scheme.map lowerCh).isEmpty = true
          · have h2 : parse_airflow_ui_url reg url =
                Except.error ⟨"ui_url must be a full http(s) URL", "INVALID_INPUT"⟩ := by
              simp [parse_airflow_ui_url, hsp, he]
            rw [h2] at hparse
            exact absurd hparse (by decide)
          · have h2 : parse_airflow_ui_url reg url =
                Except.error ⟨"ui_url must start with http or https", "INVALID_INPUT"⟩ := by
              simp [parse_airflow_ui_url, hsp, he, hva, hvb]
            rw [h2] at hparse
            exact absurd hparse (by decide)

/-- Witness for C9: the Unknown-instance-host failure applied at a
    concrete unconfigured host, and first-match-wins applied at a
    concrete directory where two instances share a hostname. -/
theorem host_resolution_witness :
    parse_airflow_ui_url demoReg "https://nope.example.com/x" =
      Except.error ⟨"Unknown instance host", "NOT_FOUND"⟩ ∧
    resolveInstanceKeyFromHost
      ⟨[("a", "https://dup.example.com"), ("b", "https://dup.example.com")]⟩
      "dup.example.com" = some "a" :=
  ⟨host_resolution.2.2.1 demoReg "https://nope.example.com/x"
      ⟨"https".data, "nope.example.com".data, "/x".data, [], []⟩
      "nope.example.com".data (by decide) (Or.inr (by decide)) (by decide) (by decide),
    host_resolution.2.1
      ⟨[("a", "https://dup.example.com"), ("b", "https://dup.example.com")]⟩
      "dup.example.com" [] [("b", "https://dup.example.com")] "a"
      "https://dup.example.com" rfl (by decide) (by decide)⟩

/-- C7: resolve_and_validate precedence.  Both inputs given: the URL is
    parsed and the call fails with INSTANCE_MISMATCH exactly when the
    parsed instance differs from the given one, otherwise the parse
    result is returned.  Only the URL: the parse result is returned.
    Only the instance: an existence check, then a minimal target with
    route unknown and no identifiers.  Neither: MISSING_TARGET.  The
    concrete scenario pairs a staging URL with instance prod. -/
theorem resolve_and_validate_precedence (reg : Registry) :
    (∀ u i r, u ≠ "" → instanceKeyOk i →
        parse_airflow_ui_url reg u = Except.ok r →
        resolve_and_validate reg (some u) (some i) =
          (if r.instance_ = i then Except.ok r
            else Except.error ⟨"INSTANCE_MISMATCH", "INVALID_INPUT"⟩)) ∧
    (∀ u iopt, u ≠ "" → optStrTruthy iopt = false →
        resolve_and_validate reg (some u) iopt = parse_airflow_ui_url reg u) ∧
    (∀ i uopt, optStrTruthy uopt = false → instanceKeyOk i →
        resolve_and_validate reg uopt (some i) =
          (match lookupInstance reg i with
            | some _ => Except.ok ⟨i, "unknown", none, none, none, none⟩
            | none => Except.error ⟨"Unknown instance", "NOT_FOUND"⟩)) ∧
    (∀ uopt iopt, optStrTruthy uopt = false → optStrTruthy iopt = false →
        resolve_and_validate reg uopt iopt =
          Except.error ⟨"MISSING_TARGET", "INVALID_INPUT"⟩) ∧
    resolve_and_validate demoReg (some "https://stg.example.com/dags/d1/grid") (some "prod") =
      Except.error ⟨"INSTANCE_MISMATCH", "INVALID_INPUT"⟩ := by
  refine ⟨?_, ?_, ?_, ?_, by decide⟩
  · intro u i r hu hi hp
    unfold resolve_and_validate
    simp only [optStrTruthy, isEmpty_false_of_ne hu,
      isEmpty_false_of_ne (instanceKeyOk_ne_empty hi), Bool.not_false, if_true,
      validate_instance_key_ok hi, bind, Except.bind, pure, Except.pure, hp,
      Option.getD_some, Bool.and_self]
    by_cases hri : r.instance_ = i
    · simp [hri]
    · simp [hri, throw, throwThe, MonadExceptOf.throw]
  · intro u iopt hu hi
    unfold resolve_and_validate
    cases iopt with
    | none =>
        simp [optStrTruthy, isEmpty_false_of_ne hu, bind, Except.bind, pure, Except.pure]
    | some s =>
        have hs : s.isEmpty = true := by
          simpa [optStrTruthy] using hi
        simp [optStrTruthy, hs, isEmpty_false_of_ne hu, bind, Except.bind, pure, Except.pure]
  · intro i uopt hu hi
    unfold resolve_and_validate
    have hne := isEmpty_false_of_ne (instanceKeyOk_ne_empty hi)
    cases uopt with
    | some s =>
        have hs : s.isEmpty = true := by
          simpa [optStrTruthy] using hu
        cases hl : lookupInstance reg i with
        | some h =>
            simp [optStrTruthy, hne, hs, validate_instance_key_ok hi, bind, Except.bind,
              pure, Except.pure, hl]
        | none =>
            simp [optStrTruthy, hne, hs, validate_instance_key_ok hi, bind, Except.bind,
              pure, Except.pure, hl, throw, throwThe, MonadExceptOf.throw]
    | none =>
        cases hl : lookupInstance reg i with
        | some h =>
            simp [optStrTruthy, hne, validate_instance_key_ok hi, bind, Except.bind,
              pure, Except.pure, hl]
        | none =>
            simp [optStrTruthy, hne, validate_instance_key_ok hi, bind, Except.bind,
              pure, Except.pure, hl, throw, throwThe, MonadExceptOf.throw]
  · intro uopt iopt hu hi
    unfold resolve_and_validate
    have hus : ∀ s, uopt = some s → s.isEmpty = true := by
      intro s he
      rw [he] at hu
      simpa [optStrTruthy] using hu
    cases iopt with
    | none =>
        cases uopt with
        | none => simp [optStrTruthy, bind, Except.bind, pure, Except.pure, throw, throwThe,
            MonadExceptOf.throw]
        | some s => simp [optStrTruthy, hus s rfl, bind, Except.bind, pure, Except.pure,
            throw, throwThe, MonadExceptOf.throw]
    | some s2 =>
        have hs2 : s2.isEmpty = true := by
          simpa [optStrTruthy] using hi
        cases uopt with
        | none => simp [optStrTruthy, hs2, bind, Except.bind, pure, Except.pure, throw,
            throwThe, MonadExceptOf.throw]
        | some s => simp [optStrTruthy, hs2, hus s rfl, bind, Except.bind, pure, Except.pure,
            throw, throwThe, MonadExceptOf.throw]

/-- Witness for C7: the two-given case with matching instances and the
    neither-given case, at concrete inputs. -/
theorem resolve_and_validate_precedence_witness :
    resolve_and_validate demoReg (some "https://stg.example.com/dags/d1/grid") (some "stg") =
        Except.ok ⟨"stg", "grid", some "d1", none, none, none⟩ ∧
      resolve_and_validate demoReg none none =
        Except.error ⟨"MISSING_TARGET", "INVALID_INPUT"⟩ := by
  constructor
  · have h := (resolve_and_validate_precedence demoReg).1 "https://stg.example.com/dags/d1/grid"
      "stg" ⟨"stg", "grid", some "d1", none, none, none⟩ (by decide) (by decide) (by decide)
    simpa using h
  · exact (resolve_and_validate_precedence demoReg).2.2.2.1 none none (by decide) (by decide)
example : pySplitlines "a\r\nb\nc".data = ["a".data, "b".data, ['c']] := by decide
example : (filterLogs "ERROR a\nINFO b\nERROR c" (some "error") none none 1000).text = "ERROR a\nERROR c" := by decide
example : flattenLogSegments [(some "h1", "A\nB"), (some "", "C")] =
    "--- [h1] ---\nA\nB\n\n--- [unknown-host] ---\nC" := by decide
example : coerceLogText (LogResponse.text "[(\x27h1\x27, \x27A\\nB\x27), (\x27\x27, \x27C\x27)]") =
    "--- [h1] ---\nA\nB\n\n--- [unknown-host] ---\nC" := by decide
example : quoteChars "a+b".data = "a%2Bb".data := by decide
example : unquoteChars "a%2Bb%3A%20c".data = "a+b: c".data := by decide
example : pyInt (intStr (-37)) = some (-37) := by decide
example : splitAll '/' "/dags/x/grid".data = [[], "dags".data, ['x'], "grid".data] := by decide

end AirflowMcp
